import Mathlib

/-!
Verification development for the two-faction RTS simulation engine
(`rts/map.py`, `rts/utils.py`, `rts/entities.py`, `rts/game.py`, `rts/ai.py`).

The Python code is shallowly embedded: Python floats become `ℚ` (all float
arithmetic the simulation performs on the paths verified here is exact
field arithmetic, except Euclidean lengths, see `distLE` below), Python
dicts keyed by tile positions become `Batteries.RBMap` keyed by the same
lexicographic tuple order Python uses, and the `heapq` priority queue
becomes a list kept sorted by the exact tuple order `(f_score, (x, y))`
that Python's `heapq` uses to pop its minimum (for distinct entries the
tuple order is total, so the pop sequence is identical).
-/

namespace RTS

/-- Tile coordinates, Python `TilePos = Tuple[int, int]`. -/
abbrev TilePos := Int × Int

/-- Lexicographic comparison on tile positions, matching Python tuple order. -/
def cmpPos (a b : TilePos) : Ordering :=
  compareLex (compareOn (·.1)) (compareOn (·.2)) a b

/-- `utils.heuristic`: Manhattan distance (returned as a float in Python). -/
def heuristic (a b : TilePos) : ℚ :=
  ((a.1 - b.1).natAbs : ℚ) + ((a.2 - b.2).natAbs : ℚ)

/-- Terrain kinds, `map.TileType`. -/
inductive TileType where
  | water
  | grass
  | forest
  | mountain
deriving DecidableEq, Repr

/-- One grid tile, `map.Tile`. -/
structure Tile where
  type : TileType
  elevation : ℚ
  movement_cost : ℚ
deriving DecidableEq, Repr

/-- `Tile.walkable`. -/
def Tile.walkable (t : Tile) : Bool :=
  t.type = TileType.grass ∨ t.type = TileType.forest

/-- The battlefield grid, `map.GameMap`.  Python stores the tiles as a
list of rows indexed `tiles[y][x]`; we store the same data as a total
function on coordinates (all reads the verified code paths perform are
in bounds, so the two representations agree). -/
structure GameMap where
  width : Int
  height : Int
  tile : TilePos → Tile

/-- `GameMap.in_bounds`. -/
def GameMap.inBounds (m : GameMap) (p : TilePos) : Bool :=
  0 ≤ p.1 ∧ p.1 < m.width ∧ 0 ≤ p.2 ∧ p.2 < m.height

/-- `GameMap.get_tile`. -/
def GameMap.getTile (m : GameMap) (p : TilePos) : Tile :=
  m.tile p

/-- `GameMap.is_walkable`. -/
def GameMap.isWalkable (m : GameMap) (p : TilePos) : Bool :=
  m.inBounds p && (m.getTile p).walkable

/-- `GameMap.movement_cost`. -/
def GameMap.movementCost (m : GameMap) (p : TilePos) : ℚ :=
  (m.getTile p).movement_cost

/-- `GameMap.neighbors`: in-bounds walkable 4-connected neighbours in the
source's direction order. -/
def GameMap.neighbors (m : GameMap) (p : TilePos) : List TilePos :=
  ([(-1, 0), (1, 0), (0, -1), (0, 1)] : List TilePos).filterMap fun d =>
    let nb : TilePos := (p.1 + d.1, p.2 + d.2)
    if m.inBounds nb && m.isWalkable nb then some nb else none

/-- The grass tile `force_clear_area` stamps. -/
def clearedTile : Tile :=
  { type := TileType.grass, elevation := 1/2, movement_cost := 1 }

/-- `GameMap.force_clear_area`: every in-bounds cell within Euclidean
distance `radius` of `center` becomes walkable grass (`hypot ≤ radius`
is expressed exactly on squares; the loop bounds in the source only trim
the scan to the same set of cells). -/
def GameMap.forceClearArea (m : GameMap) (center : TilePos) (radius : Int) : GameMap :=
  { m with tile := fun p =>
      if m.inBounds p && (0 ≤ radius &&
          ((p.1 - center.1) ^ 2 + (p.2 - center.2) ^ 2 ≤ radius ^ 2 : Bool)) then
        clearedTile
      else m.tile p }

/-- Inclusive integer walk from `a` to `b` stepping by `±1`; helper for the
corridor below. -/
def walkToward (a b : Int) : List Int :=
  (List.range ((b - a).natAbs + 1)).map fun (i : Nat) =>
    if a ≤ b then a + (i : Int) else a - (i : Int)

/-- The cells of an axis-aligned L-shaped lattice path from `s` to `e`
(horizontal leg first). -/
def lPath (s e : TilePos) : List TilePos :=
  ((walkToward s.1 e.1).map fun x => ((x, s.2) : TilePos)) ++
    ((walkToward s.2 e.2).map fun y => ((e.1, y) : TilePos)).tail

/-- Modelled from the spec: `GameMap.carve_path(start, end, radius)` is
called from `RTSGame._ensure_land_bridge` (game.py line 202) but the
method itself is absent from `map.py` (and from the rest of the
repository).  Per spec §4.1 the corridor shape is a free implementation
detail and the contract is only that after carving, `start` and `end`
are pathfinder-reachable; we model it as stamping walkable grass (the
same tile `force_clear_area` stamps) on every in-bounds cell within
Chebyshev distance `radius` of an L-shaped lattice path between the two
endpoints. -/
def GameMap.carvePath (m : GameMap) (s e : TilePos) (radius : Int) : GameMap :=
  { m with tile := fun p =>
      if m.inBounds p &&
          (lPath s e).any (fun c =>
            max ((p.1 - c.1).natAbs : Int) ((p.2 - c.2).natAbs : Int) ≤ radius) then
        clearedTile
      else m.tile p }

/-- `GameMap.to_world`: centre of a tile in world coordinates. -/
def GameMap.toWorld (m : GameMap) (p : TilePos) : ℚ × ℚ :=
  (p.1 * 16 + 16 / 2, p.2 * 16 + 16 / 2)

/-! ### The pathfinder, `utils.a_star`

Python keeps the open set in a `heapq` of `(f_score, (x, y))` tuples.
Distinct heap entries are strictly ordered by that tuple (floats first,
then the position lexicographically), so the heap's pop sequence is
exactly the multiset of entries popped in increasing tuple order; we
embed the open set as a list kept sorted by that order (duplicates
retained, as in the Python heap). -/

/-- One open-set entry `(f_score, position)`. -/
abbrev QP := ℚ × TilePos

/-- Python tuple order on heap entries. -/
def qpLe (a b : QP) : Bool :=
  a.1 < b.1 || (a.1 = b.1 && (a.2.1 < b.2.1 || (a.2.1 = b.2.1 && a.2.2 ≤ b.2.2)))

/-- `heapq.heappush`: insert keeping the list sorted by `qpLe`. -/
def heapPush : List QP → QP → List QP
  | [], e => [e]
  | h :: t, e => if qpLe e h then e :: h :: t else h :: heapPush t e

/-- The working state of the `a_star` search loop. `domList` records one
entry per `came_from` insertion (so its length bounds every `came_from`
chain, which lets path reconstruction recurse on a sufficient fuel
instead of Python's unbounded `while`), and `popTrace` records the
positions popped so far; neither influences which path is returned. -/
structure AStarState where
  openList : List QP
  cameFrom : Batteries.RBMap TilePos TilePos cmpPos
  gScore : Batteries.RBMap TilePos ℚ cmpPos
  fScore : Batteries.RBMap TilePos ℚ cmpPos
  visited : Nat
  domList : List TilePos
  popTrace : List TilePos

/-- `utils.reconstruct_path`, with explicit recursion fuel (the caller
passes fuel exceeding every `came_from` chain length, so the `0` case is
unreachable).  Python walks parents accumulating and then reverses; the
result is the start-to-`current` chain. -/
def reconstructPath (came : Batteries.RBMap TilePos TilePos cmpPos) :
    Nat → TilePos → List TilePos
  | 0, current => [current]
  | fuel + 1, current =>
    match came.find? current with
    | none => [current]
    | some prev => reconstructPath came fuel prev ++ [current]

/-- Why the search loop ended. -/
inductive ExitReason where
  | goalPopped
  | budget
  | exhausted
  | fuelOut
deriving DecidableEq, Repr

/-- Relax one neighbour of `current` (the body of the `for neighbor`
loop): Python computes `tentative_g = g_score[current] + 0.5 *
(movement_cost(neighbor) + movement_cost(current))` and updates the maps
and heap when it improves on `g_score.get(neighbor, inf)`. -/
def processNeighbor (m : GameMap) (goal current : TilePos) (s : AStarState)
    (nb : TilePos) : AStarState :=
  match s with
  | ⟨openL, came, g, f, visited, dom, trace⟩ =>
    let gCur := (g.find? current).getD 0
    let tentative := gCur + (1/2) * (m.movementCost nb + m.movementCost current)
    let score := tentative + heuristic nb goal
    match g.find? nb with
    | some gOld =>
      if tentative < gOld then
        ⟨heapPush openL (score, nb), came.insert nb current, g.insert nb tentative,
          f.insert nb score, visited, nb :: dom, trace⟩
      else ⟨openL, came, g, f, visited, dom, trace⟩
    | none =>
      ⟨heapPush openL (score, nb), came.insert nb current, g.insert nb tentative,
        f.insert nb score, visited, nb :: dom, trace⟩

/-- The `while open_set:` loop of `a_star`.  Each iteration pops the
least entry, returns the reconstructed path if it is the goal, otherwise
counts it against the iteration budget and relaxes its neighbours.  The
fuel argument only guarantees termination; `aStarWith` passes
`maxIter + 2`, which exceeds the bound the `visited` budget enforces, so
the `fuelOut` exit is unreachable. -/
def aStarLoop (m : GameMap) (goal : TilePos) (maxIter : Nat) :
    Nat → AStarState → Option (List TilePos) × ExitReason
  | 0, _ => (none, ExitReason.fuelOut)
  | fuel + 1, ⟨openL, came, g, f, visitedOld, dom, trace⟩ =>
    match openL with
    | [] => (none, ExitReason.exhausted)
    | (_, current) :: rest =>
      if current = goal then
        (some (reconstructPath came (dom.length + 1) current),
          ExitReason.goalPopped)
      else
        let visited := visitedOld + 1
        if maxIter < visited then (none, ExitReason.budget)
        else
          aStarLoop m goal maxIter fuel
            ((m.neighbors current).foldl (processNeighbor m goal current)
              ⟨rest, came, g, f, visited, dom, current :: trace⟩)

/-- The state `a_star` starts its loop from. -/
def aStarInit (start goal : TilePos) : AStarState :=
  { openList := [(0, start)]
    cameFrom := Batteries.RBMap.empty
    gScore := (Batteries.RBMap.empty : Batteries.RBMap TilePos ℚ cmpPos).insert start 0
    fScore := (Batteries.RBMap.empty : Batteries.RBMap TilePos ℚ cmpPos).insert start
      (heuristic start goal)
    visited := 0
    domList := []
    popTrace := [] }

/-- `utils.a_star` with an explicit iteration budget, also reporting how
the search ended. -/
def aStarWithEx (m : GameMap) (start goal : TilePos) (maxIter : Nat) :
    Option (List TilePos) × ExitReason :=
  if start = goal then (some [start], ExitReason.goalPopped)
  else aStarLoop m goal maxIter (maxIter + 2) (aStarInit start goal)

/-- `utils.a_star` with an explicit iteration budget. -/
def aStarWith (m : GameMap) (start goal : TilePos) (maxIter : Nat) :
    Option (List TilePos) :=
  (aStarWithEx m start goal maxIter).1

/-- `utils.a_star` at its default budget of 6000 expansions (every call
site in the repository uses the default). -/
def aStar (m : GameMap) (start goal : TilePos) : Option (List TilePos) :=
  aStarWith m start goal 6000

/-! ### Configuration constants, `config.py` (the gameplay ones the
simulation reads; rendering/UI constants are outside the embedded core). -/

def TILE_SIZE : ℚ := 16

def MAP_WIDTH : Int := 128

def MAP_HEIGHT : Int := 128

def INITIAL_RESOURCES : ℚ := 600

def RESOURCE_TICK_INTERVAL : ℚ := 1

def MAX_STRUCTURES : Nat := 24

def MAX_TECH_LEVEL : Nat := 3

def WORKER_CAPACITY : ℚ := 120

def WORKER_GATHER_TIME : ℚ := 11/5

def WORKER_DEPOSIT_TIME : ℚ := 1

def BATTLE_RETARGET_TIME : ℚ × ℚ := (3, 11/2)

/-! ### Entities, `entities.py`

Python floats become `ℚ` and the pygame colour fields (pure rendering
data, constant per blueprint) are omitted.  Worker states are the five
strings `"idle" | "to_resource" | "gather" | "to_deposit" | "deposit"`,
embedded as an enumeration. -/

/-- World-space position, pygame `Vector2`. -/
abbrev Vec2 := ℚ × ℚ

/-- Squared Euclidean distance between two points.  Python compares
`(a - b).length()` (a float square root) against thresholds; every
comparison the simulation performs is embedded exactly on squares
(`sqrt d2 ≤ c ↔ 0 ≤ c ∧ d2 ≤ c²`, and distances compare iff their
squares do), so no square root is needed. -/
def dist2 (a b : Vec2) : ℚ :=
  (a.1 - b.1) ^ 2 + (a.2 - b.2) ^ 2

/-- `(a - b).length() ≤ c`, exactly. -/
def distLE (a b : Vec2) (c : ℚ) : Bool :=
  0 ≤ c && dist2 a b ≤ c ^ 2

/-- `(a - b).length() < c`, exactly. -/
def distLT (a b : Vec2) (c : ℚ) : Bool :=
  0 ≤ c && dist2 a b < c ^ 2

/-- `entities.UnitDefinition` (colour fields omitted). -/
structure UnitDefinition where
  key : String
  name : String
  role : String
  max_health : ℚ
  speed : ℚ
  attack_damage : ℚ
  attack_range : ℚ
  attack_cooldown : ℚ
  vision_radius : ℚ
  cost : ℚ
  build_time : ℚ
  tech_level : Nat
deriving DecidableEq, Repr

/-- `entities.StructureDefinition` (colour fields omitted). -/
structure StructureDefinition where
  key : String
  name : String
  radius : ℚ
  max_health : ℚ
  cost : ℚ
  build_time : ℚ
  produces : List String
  required_tech : Nat
  provides_tech : Nat
  is_deposit : Bool
deriving DecidableEq, Repr

/-- `entities.Structure` (the `Entity` base fields are inlined, as
Python's dataclass inheritance does). -/
structure Structure where
  id : Nat
  player_id : Nat
  position : Vec2
  radius : ℚ
  max_health : ℚ
  health : ℚ
  definition : StructureDefinition
  completed : Bool := true
  construction_remaining : ℚ := 0
  production_queue : List UnitDefinition := []
  production_timer : ℚ := 0
deriving DecidableEq, Repr

/-- `Entity.alive`. -/
def Structure.alive (s : Structure) : Bool :=
  0 < s.health

/-- `tile_position`: `int(x // TILE_SIZE)` is the floor of `x / 16`. -/
def Structure.tilePosition (s : Structure) : TilePos :=
  (⌊s.position.1 / TILE_SIZE⌋, ⌊s.position.2 / TILE_SIZE⌋)

/-- `Structure.enqueue_unit`. -/
def Structure.enqueueUnit (s : Structure) (definition : UnitDefinition) : Structure :=
  let q := s.production_queue ++ [definition]
  { s with
    production_queue := q
    production_timer := if q.length = 1 then definition.build_time else s.production_timer }

/-- `Structure.pop_completed_unit`: removes and returns the head of the
queue, re-arming the timer from the new head (or zero). -/
def Structure.popCompletedUnit (s : Structure) : Option UnitDefinition × Structure :=
  match s.production_queue with
  | [] => (none, s)
  | unit_def :: rest =>
    (some unit_def,
      { s with
        production_queue := rest
        production_timer := match rest with
          | [] => 0
          | next :: _ => next.build_time })

/-- The worker state strings. -/
inductive WorkerState where
  | idle
  | to_resource
  | gather
  | to_deposit
  | deposit
deriving DecidableEq, Repr

/-- `entities.Unit` (the `Entity` base fields inlined). -/
structure Unit where
  id : Nat
  player_id : Nat
  position : Vec2
  radius : ℚ
  max_health : ℚ
  health : ℚ
  definition : UnitDefinition
  attack_cooldown_remaining : ℚ := 0
  path : List TilePos := []
  path_index : Nat := 0
  goal_tile : Option TilePos := none
  worker_state : WorkerState := WorkerState.idle
  worker_target : Option Nat := none
  worker_deposit : Option Nat := none
  worker_cargo : ℚ := 0
  worker_timer : ℚ := 0
deriving DecidableEq, Repr

/-- `Entity.alive`. -/
def Unit.alive (u : Unit) : Bool :=
  0 < u.health

/-- `Unit.tile_position`. -/
def Unit.tilePosition (u : Unit) : TilePos :=
  (⌊u.position.1 / TILE_SIZE⌋, ⌊u.position.2 / TILE_SIZE⌋)

/-- `Unit.set_goal`: clears the path and cursor only when the goal tile
changes. -/
def Unit.setGoal (u : Unit) (goal_tile : TilePos) : Unit :=
  if some goal_tile ≠ u.goal_tile then
    { u with goal_tile := some goal_tile, path := [], path_index := 0 }
  else u

/-- `Unit.assign_path`. -/
def Unit.assignPath (u : Unit) (path : List TilePos) : Unit :=
  { u with path := path, path_index := 0 }

/-- `Unit.clear_path`. -/
def Unit.clearPath (u : Unit) : Unit :=
  { u with path := [], path_index := 0 }

/-- `Unit.update_movement`.  `sqrtA` abstracts the float square root
pygame's `Vector2.length` takes; it is only applied on the actual
movement step (the comparisons are exact on squares), and no claim
verified here depends on an in-flight position, so the theorems hold for
every `sqrtA`. -/
def Unit.updateMovement (sqrtA : ℚ → ℚ) (u : Unit) (dt : ℚ)
    (toWorld : TilePos → ℚ × ℚ) : Unit :=
  if u.path.isEmpty || decide (u.path.length ≤ u.path_index) then u
  else
    let target_tile := u.path.getD u.path_index (0, 0)
    let tw := toWorld target_tile
    let dir : Vec2 := (tw.1 - u.position.1, tw.2 - u.position.2)
    let d2 := dir.1 ^ 2 + dir.2 ^ 2
    if d2 < 1 then { u with path_index := u.path_index + 1 }
    else if 0 < d2 then
      let dist := sqrtA d2
      let len := min (u.definition.speed * dt) dist
      { u with position :=
          (u.position.1 + dir.1 * (len / dist), u.position.2 + dir.2 * (len / dist)) }
    else u

/-- `Unit.tick_cooldown`. -/
def Unit.tickCooldown (u : Unit) (dt : ℚ) : Unit :=
  if 0 < u.attack_cooldown_remaining then
    { u with attack_cooldown_remaining := max 0 (u.attack_cooldown_remaining - dt) }
  else u

/-- `Unit.can_attack`. -/
def Unit.canAttack (u : Unit) : Bool :=
  u.attack_cooldown_remaining ≤ 0 && 0 < u.definition.attack_damage

/-- `entities.ResourceNode`. -/
structure ResourceNode where
  id : Nat
  position : Vec2
  amount : ℚ
deriving DecidableEq, Repr

/-- `ResourceNode.tile_position`. -/
def ResourceNode.tilePosition (n : ResourceNode) : TilePos :=
  (⌊n.position.1 / TILE_SIZE⌋, ⌊n.position.2 / TILE_SIZE⌋)

/-- `ResourceNode.harvest`: returns the gathered amount and the updated
node. -/
def ResourceNode.harvest (n : ResourceNode) (requested : ℚ) : ℚ × ResourceNode :=
  if n.amount ≤ 0 then (0, n)
  else
    let gathered := min n.amount requested
    (gathered, { n with amount := n.amount - gathered })

/-- `ResourceNode.depleted`. -/
def ResourceNode.depleted (n : ResourceNode) : Bool :=
  n.amount ≤ 0

/-- The `UNIT_DEFS` table (decimal stats written as exact rationals). -/
def UNIT_DEFS : List (String × UnitDefinition) :=
  [("worker",
    { key := "worker", name := "Engineer", role := "worker", max_health := 70,
      speed := 85, attack_damage := 2, attack_range := (3/2) * TILE_SIZE,
      attack_cooldown := 7/5, vision_radius := 8 * TILE_SIZE, cost := 60,
      build_time := 2, tech_level := 1 }),
   ("infantry",
    { key := "infantry", name := "Shock Trooper", role := "infantry", max_health := 110,
      speed := 90, attack_damage := 10, attack_range := (14/5) * TILE_SIZE,
      attack_cooldown := 9/10, vision_radius := 9 * TILE_SIZE, cost := 120,
      build_time := 3, tech_level := 1 }),
   ("ranger",
    { key := "ranger", name := "Ranger", role := "infantry", max_health := 90,
      speed := 110, attack_damage := 7, attack_range := 4 * TILE_SIZE,
      attack_cooldown := 3/5, vision_radius := 11 * TILE_SIZE, cost := 150,
      build_time := 18/5, tech_level := 2 }),
   ("tank",
    { key := "tank", name := "Vanguard Tank", role := "vehicle", max_health := 240,
      speed := 70, attack_damage := 24, attack_range := (16/5) * TILE_SIZE,
      attack_cooldown := 11/10, vision_radius := 9 * TILE_SIZE, cost := 240,
      build_time := 11/2, tech_level := 2 }),
   ("artillery",
    { key := "artillery", name := "Siege Artillery", role := "artillery", max_health := 180,
      speed := 60, attack_damage := 40, attack_range := 5 * TILE_SIZE,
      attack_cooldown := 12/5, vision_radius := 12 * TILE_SIZE, cost := 320,
      build_time := 31/5, tech_level := 3 })]

/-- `UNIT_DEFS[key]` / `key in UNIT_DEFS`. -/
def unitDef? (key : String) : Option UnitDefinition :=
  (UNIT_DEFS.find? fun e => e.1 = key).map (·.2)

/-- The `STRUCTURE_DEFS` table. -/
def STRUCTURE_DEFS : List (String × StructureDefinition) :=
  [("hq",
    { key := "hq", name := "Command HQ", radius := (8/5) * TILE_SIZE, max_health := 900,
      cost := 0, build_time := 0, produces := ["worker", "infantry"],
      required_tech := 1, provides_tech := 1, is_deposit := true }),
   ("refinery",
    { key := "refinery", name := "Refinery", radius := (7/5) * TILE_SIZE, max_health := 650,
      cost := 250, build_time := 8, produces := [],
      required_tech := 1, provides_tech := 1, is_deposit := true }),
   ("barracks",
    { key := "barracks", name := "Barracks", radius := (13/10) * TILE_SIZE, max_health := 520,
      cost := 180, build_time := 6, produces := ["infantry", "ranger"],
      required_tech := 1, provides_tech := 2, is_deposit := false }),
   ("factory",
    { key := "factory", name := "Armor Foundry", radius := (3/2) * TILE_SIZE, max_health := 700,
      cost := 320, build_time := 17/2, produces := ["tank"],
      required_tech := 2, provides_tech := 2, is_deposit := false }),
   ("lab",
    { key := "lab", name := "Research Lab", radius := (6/5) * TILE_SIZE, max_health := 480,
      cost := 280, build_time := 15/2, produces := ["artillery"],
      required_tech := 2, provides_tech := 3, is_deposit := false })]

/-- `STRUCTURE_DEFS.get(key)` / `key in STRUCTURE_DEFS`. -/
def structureDef? (key : String) : Option StructureDefinition :=
  (STRUCTURE_DEFS.find? fun e => e.1 = key).map (·.2)

/-- `entities.structures_providing_tech`. -/
def structuresProvidingTech (structures : List Structure) : Nat :=
  let tech_level := structures.foldl
    (fun tech_level s =>
      if s.completed && s.alive then max tech_level s.definition.provides_tech
      else tech_level) 1
  min tech_level MAX_TECH_LEVEL

/-! ### Random source

Python threads seeded `random.Random` streams (one for the game, one per
AI controller).  Reproducing the Mersenne Twister is not meaningful in a
shallow embedding; a stream is embedded as an arbitrary infinite
sequence of draws in `[0, 1)` plus a cursor, with `uniform`/`choice`
defined from a draw the way CPython defines them.  Universally
quantified theorems hold for every stream (hence for the real one), and
concrete runs pick a concrete stream. -/

structure RngState where
  vals : Nat → ℚ
  idx : Nat

/-- One raw draw, `random.random()`. -/
def RngState.next (r : RngState) : ℚ × RngState :=
  (r.vals r.idx, { r with idx := r.idx + 1 })

/-- `random.uniform(a, b) = a + (b - a) * random()`. -/
def RngState.uniform (r : RngState) (a b : ℚ) : ℚ × RngState :=
  let (u, r') := r.next
  (a + (b - a) * u, r')

/-- `random.choice(seq)`: an index below `n` derived from one draw
(clamped, so any draw selects a valid element of a non-empty sequence;
call sites only use it on non-empty sequences). -/
def RngState.randIndex (r : RngState) (n : Nat) : Nat × RngState :=
  let (u, r') := r.next
  (min (Int.toNat ⌊u * (n : ℚ)⌋) (n - 1), r')

/-- `random.choice(seq)` with the (unreachable) empty-sequence case
returning `dflt`. -/
def RngState.choiceD {α : Type} (r : RngState) (xs : List α) (dflt : α) : α × RngState :=
  let (i, r') := r.randIndex xs.length
  (xs.getD i dflt, r')

/-! ### The faction controller, `ai.AIController`, and faction/match
state, `game.PlayerState` / `game.RTSGame` (rendering fields — colours,
camera, sprite caches — are omitted; `_entity_id`/`_resource_id` are the
match-wide `itertools.count` counters, represented by the next value
each would yield). -/

/-- `AIController.__post_init__`'s wishlist `_structure_targets`. -/
def structureTargets : List (String × Nat) :=
  [("refinery", 1), ("barracks", 1), ("refinery", 2), ("factory", 1),
   ("barracks", 2), ("lab", 1)]

/-- `AIController.__post_init__`'s `_combat_cycle`. -/
def combatCycle : List String :=
  ["infantry", "infantry", "ranger", "tank", "infantry", "artillery"]

/-- `ai.AIController` state. -/
structure AIController where
  name : String
  aggression : ℚ
  rng : RngState
  retarget_timer : ℚ := 0
  build_timer : ℚ := 0
  train_timer : ℚ := 0
  combat_pointer : Nat := 0

/-- `game.PlayerState` (colour fields omitted). -/
structure PlayerState where
  id : Nat
  name : String
  ai : AIController
  resources : ℚ := INITIAL_RESOURCES
  structures : List Structure := []
  units : List Unit := []
  defeated : Bool := false
  tech_level : Nat := 1
  resource_timer : ℚ := RESOURCE_TICK_INTERVAL

/-- `PlayerState.deposits`. -/
def PlayerState.deposits (p : PlayerState) : List Structure :=
  p.structures.filter fun s => s.definition.is_deposit && s.completed && s.alive

/-- `PlayerState.count_structures` (the one call site uses the default
`include_under_construction=True`). -/
def PlayerState.countStructures (p : PlayerState) (key : String)
    (include_under_construction : Bool) : Nat :=
  p.structures.foldl
    (fun total s =>
      if s.definition.key ≠ key then total
      else if ¬s.alive then total
      else if s.completed || include_under_construction then total + 1
      else total) 0

/-- `PlayerState.available_producers`. -/
def PlayerState.availableProducers (p : PlayerState) (unit_key : String) : List Structure :=
  p.structures.filter fun s =>
    s.alive && s.completed && s.definition.produces.contains unit_key

/-- `PlayerState.structure_by_id`. -/
def PlayerState.structureById (p : PlayerState) (structure_id : Nat) : Option Structure :=
  p.structures.find? fun s => s.id = structure_id && s.alive

/-- The match state, `game.RTSGame` (simulation fields only). -/
structure GameState where
  map : GameMap
  players : List PlayerState
  elapsed_time : ℚ := 0
  winner_id : Option Nat := none
  resource_nodes : List ResourceNode := []
  rng : RngState
  entity_id : Nat := 1
  resource_id : Nat := 1

/-- Placeholder player used as the default of in-range list reads. -/
def dummyPlayer : PlayerState :=
  { id := 0, name := "", ai := { name := "", aggression := 1, rng := ⟨fun _ => 0, 0⟩ } }

/-- Read the `i`-th player (every embedded call site reads in range). -/
def GameState.player (gs : GameState) (i : Nat) : PlayerState :=
  gs.players.getD i dummyPlayer

/-- Write the `i`-th player back. -/
def GameState.setPlayer (gs : GameState) (i : Nat) (p : PlayerState) : GameState :=
  { gs with players := gs.players.set i p }

/-- Update the `i`-th player in place. -/
def GameState.modifyPlayer (gs : GameState) (i : Nat) (f : PlayerState → PlayerState) :
    GameState :=
  gs.setPlayer i (f (gs.player i))

/-- Ascending inclusive integer range `a..b` (`range(a, b + 1)`). -/
def intRangeList (a b : Int) : List Int :=
  (List.range (b - a + 1).toNat).map fun (i : Nat) => a + (i : Int)

/-- `RTSGame._unit_radius`. -/
def unitRadius (definition : UnitDefinition) : ℚ :=
  if definition.role = "vehicle" || definition.role = "artillery" then (13/20) * TILE_SIZE
  else if definition.role = "infantry" then (12/25) * TILE_SIZE
  else (21/50) * TILE_SIZE

/-- `RTSGame._is_tile_occupied`. -/
def GameState.isTileOccupied (gs : GameState) (tile : TilePos) : Bool :=
  gs.players.any fun p =>
    (p.units.any fun u => u.alive && u.tilePosition = tile) ||
    (p.structures.any fun s => s.alive && s.tilePosition = tile)

/-- The candidate tiles `find_spawn_tile` scans: radii 1–7, rows
`dy = -radius..radius`, columns `dx = -radius..radius`, skipping offsets
with `|dx| + |dy| > radius`, in the source's loop order. -/
def spawnCandidates (base : TilePos) : List TilePos :=
  (List.range 7).flatMap fun r0 =>
    let radius : Int := (r0 : Int) + 1
    (intRangeList (-radius) radius).flatMap fun dy =>
      (intRangeList (-radius) radius).filterMap fun dx =>
        if radius < |dx| + |dy| then none
        else some (base.1 + dx, base.2 + dy)

/-- `RTSGame.find_spawn_tile`: first free walkable tile near the given
structure (or the player's first structure). -/
def GameState.findSpawnTile (gs : GameState) (pIdx : Nat)
    (near_structure : Option Structure) : Option TilePos :=
  let anchor? := match near_structure with
    | some s => some s
    | none => (gs.player pIdx).structures.head?
  match anchor? with
  | none => none
  | some near =>
    let base_tile := near.tilePosition
    (spawnCandidates base_tile).find? fun tile =>
      gs.map.inBounds tile && gs.map.isWalkable tile && ¬gs.isTileOccupied tile

/-- `RTSGame.spawn_unit`. -/
def GameState.spawnUnit (gs : GameState) (pIdx : Nat) (unit_key : String)
    (tile : TilePos) (jitter : Bool) : Option Unit × GameState :=
  match unitDef? unit_key with
  | none => (none, gs)
  | some definition =>
    let world := gs.map.toWorld tile
    let (position, gs) : Vec2 × GameState :=
      if jitter then
        let (jx, rng1) := gs.rng.uniform (-2) 2
        let (jy, rng2) := rng1.uniform (-2) 2
        ((world.1 + jx, world.2 + jy), { gs with rng := rng2 })
      else (world, gs)
    let radius := unitRadius definition
    let u : Unit :=
      { id := gs.entity_id, player_id := (gs.player pIdx).id, position := position,
        radius := radius, max_health := definition.max_health,
        health := definition.max_health, definition := definition }
    let gs := { gs with entity_id := gs.entity_id + 1 }
    (some u, gs.modifyPlayer pIdx fun p => { p with units := p.units ++ [u] })

/-- `RTSGame._site_blocked`. -/
def GameState.siteBlocked (gs : GameState) (world : Vec2) (radius : ℚ) : Bool :=
  gs.players.any fun p =>
    p.structures.any fun s =>
      s.alive && distLT s.position world (s.radius + radius + 8)

/-- The candidate tiles `_find_structure_site` scans: radii 3–17, full
squares, in the source's loop order. -/
def siteCandidates (anchor_tile : TilePos) : List TilePos :=
  (List.range 15).flatMap fun r0 =>
    let radius : Int := (r0 : Int) + 3
    (intRangeList (-radius) radius).flatMap fun dy =>
      (intRangeList (-radius) radius).map fun dx =>
        ((anchor_tile.1 + dx, anchor_tile.2 + dy) : TilePos)

/-- `RTSGame._find_structure_site`. -/
def GameState.findStructureSite (gs : GameState) (pIdx : Nat)
    (definition : StructureDefinition) : Option TilePos :=
  match (gs.player pIdx).structures.head? with
  | none => none
  | some anchor =>
    (siteCandidates anchor.tilePosition).find? fun tile =>
      gs.map.inBounds tile && gs.map.isWalkable tile &&
        ¬gs.siteBlocked (gs.map.toWorld tile) definition.radius

/-- `RTSGame.start_structure_construction`. -/
def GameState.startStructureConstruction (gs : GameState) (pIdx : Nat) (key : String) :
    Option Structure × GameState :=
  match structureDef? key with
  | none => (none, gs)
  | some definition =>
    let p := gs.player pIdx
    if p.tech_level < definition.required_tech then (none, gs)
    else if p.resources < definition.cost then (none, gs)
    else if MAX_STRUCTURES ≤ p.structures.length then (none, gs)
    else match gs.findStructureSite pIdx definition with
      | none => (none, gs)
      | some site =>
        let world := gs.map.toWorld site
        let s : Structure :=
          { id := gs.entity_id, player_id := p.id, position := world,
            radius := definition.radius, max_health := definition.max_health,
            health := definition.max_health, definition := definition,
            completed := definition.build_time = 0,
            construction_remaining := definition.build_time }
        let gs := { gs with entity_id := gs.entity_id + 1 }
        (some s, gs.modifyPlayer pIdx fun p =>
          { p with resources := p.resources - definition.cost,
                   structures := p.structures ++ [s] })

/-- Replace the first occurrence of `old` (Python mutates the one object
the caller holds; entity ids are unique, so at most one list element
compares equal). -/
def replaceFirst : List Structure → Structure → Structure → List Structure
  | [], _, _ => []
  | s :: rest, old, new =>
    if s = old then new :: rest else s :: replaceFirst rest old new

/-- `RTSGame.queue_unit_production`.  Python receives the structure by
reference and mutates it; membership (`structure not in
player.structures`) is dataclass value equality. -/
def GameState.queueUnitProduction (gs : GameState) (pIdx : Nat)
    (s : Structure) (unit_key : String) : Bool × GameState :=
  let p := gs.player pIdx
  if ¬p.structures.contains s then (false, gs)
  else if ¬s.alive ∨ ¬s.completed then (false, gs)
  else match unitDef? unit_key with
    | none => (false, gs)
    | some definition =>
      if p.tech_level < definition.tech_level then (false, gs)
      else if ¬s.definition.produces.contains unit_key then (false, gs)
      else if 4 ≤ s.production_queue.length then (false, gs)
      else if p.resources < definition.cost then (false, gs)
      else
        (true, gs.modifyPlayer pIdx fun p =>
          { p with resources := p.resources - definition.cost,
                   structures := replaceFirst p.structures s (s.enqueueUnit definition) })

/-- The candidate tiles `_find_nearest_walkable` scans: radii 1–9, full
squares, in the source's loop order. -/
def nearestWalkableCandidates (tile : TilePos) : List TilePos :=
  (List.range 9).flatMap fun r0 =>
    let radius : Int := (r0 : Int) + 1
    (intRangeList (-radius) radius).flatMap fun dy =>
      (intRangeList (-radius) radius).map fun dx =>
        ((tile.1 + dx, tile.2 + dy) : TilePos)

/-- `RTSGame._find_nearest_walkable` (candidates outside the map are
skipped by the `in_bounds` guard, which `is_walkable` already includes). -/
def GameMap.findNearestWalkable (m : GameMap) (tile : TilePos) : TilePos :=
  if m.isWalkable tile then tile
  else
    match (nearestWalkableCandidates tile).find? fun c => m.inBounds c && m.isWalkable c with
    | some c => c
    | none => tile

/-- The tail of `RTSGame.order_unit_to_tile`, from the `a_star` call on:
search from the unit's tile to `dest`, drop a leading copy of the start
cell, and assign the path when one (non-empty) came back. -/
def orderUnitDest (m : GameMap) (u : Unit) (dest : TilePos) : Unit :=
  let start := u.tilePosition
  match aStar m start dest with
  | none => u
  | some path =>
    let path := if path.head? = some start then path.tail else path
    if path.isEmpty then u else u.assignPath path

/-- `RTSGame.order_unit_to_tile`: out-of-bounds goals are ignored; the
goal is recorded (`set_goal`), an unwalkable goal tile is substituted by
the nearest walkable one, and the unit keeps whatever `set_goal` left
when the search fails. -/
def orderUnitToTile (m : GameMap) (u : Unit) (tile : TilePos) : Unit :=
  if ¬m.inBounds tile then u
  else
    let u := u.setGoal tile
    let dest := if ¬m.isWalkable tile then m.findNearestWalkable tile else tile
    orderUnitDest m u dest

/-! ### Combat resolution, `RTSGame._find_attack_target` and
`RTSGame._update_combat_unit`.  Python passes around object references
to the chosen target; the embedding addresses the same object by its
owner's position in `players` and its position in that owner's list
(lists are not reordered between acquisition and the attack). -/

/-- Whether a target reference points at a structure or a unit. -/
inductive TargetKind where
  | structureKind
  | unitKind
deriving DecidableEq, Repr

/-- A reference to an enemy entity. -/
structure TargetRef where
  pIdx : Nat
  kind : TargetKind
  listIdx : Nat
deriving DecidableEq, Repr

/-- Position of the referenced entity. -/
def GameState.targetPosition? (gs : GameState) (ref : TargetRef) : Option Vec2 :=
  match ref.kind with
  | TargetKind.structureKind => ((gs.player ref.pIdx).structures.get? ref.listIdx).map (·.position)
  | TargetKind.unitKind => ((gs.player ref.pIdx).units.get? ref.listIdx).map (·.position)

/-- Update one list element in place. -/
def listModify {α : Type} (xs : List α) (i : Nat) (f : α → α) : List α :=
  match xs.get? i with
  | none => xs
  | some x => xs.set i (f x)

/-- `Entity.take_damage` applied through a target reference. -/
def GameState.damageTarget (gs : GameState) (ref : TargetRef) (amount : ℚ) : GameState :=
  gs.modifyPlayer ref.pIdx fun p =>
    match ref.kind with
    | TargetKind.structureKind =>
      { p with structures := listModify p.structures ref.listIdx fun s =>
          { s with health := s.health - amount } }
    | TargetKind.unitKind =>
      { p with units := listModify p.units ref.listIdx fun u =>
          { u with health := u.health - amount } }

/-- `RTSGame._enemy_players` with list positions attached. -/
def GameState.enemyPlayers (gs : GameState) (pIdx : Nat) : List (Nat × PlayerState) :=
  gs.players.enum.filter fun e => e.2.id ≠ (gs.player pIdx).id && ¬e.2.defeated

/-- `RTSGame._find_attack_target`: running strict minimum by straight-line
distance over every enemy's structures then units (enemy units only
within the attacker's vision radius); distances are compared on squares,
which is exact. -/
def GameState.findAttackTarget (gs : GameState) (pIdx : Nat) (u : Unit) :
    Option TargetRef :=
  let best := (gs.enemyPlayers pIdx).foldl
    (fun best e =>
      let j := e.1
      let enemy := e.2
      let best := enemy.structures.enum.foldl
        (fun best se =>
          if ¬se.2.alive then best
          else
            let d2 := dist2 se.2.position u.position
            match best with
            | none => some (d2, TargetRef.mk j TargetKind.structureKind se.1)
            | some b =>
              if d2 < b.1 then some (d2, TargetRef.mk j TargetKind.structureKind se.1)
              else best) best
      enemy.units.enum.foldl
        (fun best ue =>
          if ¬ue.2.alive then best
          else
            let d2 := dist2 ue.2.position u.position
            let inVision := distLE ue.2.position u.position u.definition.vision_radius
            match best with
            | none =>
              if inVision then some (d2, TargetRef.mk j TargetKind.unitKind ue.1) else best
            | some b =>
              if d2 < b.1 && inVision then some (d2, TargetRef.mk j TargetKind.unitKind ue.1)
              else best) best) none
  best.map (·.2)

/-- `RTSGame._update_combat_unit`. -/
def GameState.updateCombatUnit (sqrtA : ℚ → ℚ) (gs : GameState) (pIdx : Nat)
    (u : Unit) (dt : ℚ) : Unit × GameState :=
  let u := u.updateMovement sqrtA dt gs.map.toWorld
  match gs.findAttackTarget pIdx u with
  | none => (u, gs)
  | some ref =>
    match gs.targetPosition? ref with
    | none => (u, gs)
    | some tpos =>
      if distLE tpos u.position u.definition.attack_range then
        let u := u.clearPath
        if u.canAttack then
          ({ u with attack_cooldown_remaining := u.definition.attack_cooldown },
            gs.damageTarget ref u.definition.attack_damage)
        else (u, gs)
      else
        let target_tile : TilePos := (⌊tpos.1 / TILE_SIZE⌋, ⌊tpos.2 / TILE_SIZE⌋)
        (orderUnitToTile gs.map u target_tile, gs)

/-! ### The worker economy, `RTSGame._update_worker` and helpers. -/

/-- Placeholder node used as the default of in-range list reads. -/
def dummyNode : ResourceNode :=
  { id := 0, position := (0, 0), amount := 0 }

/-- First element attaining the strict minimum of `f`; equals
`sorted(xs, key=f)[0]` for Python's stable sort. -/
def firstArgminBy {α : Type} (f : α → ℚ) (xs : List α) : Option α :=
  xs.foldl
    (fun best x =>
      match best with
      | none => some x
      | some b => if f x < f b then some x else best) none

/-- `RTSGame._choose_resource_node`: nearest non-depleted node to the
faction's HQ (random choice from the game stream when no HQ remains). -/
def GameState.chooseResourceNode (gs : GameState) (pIdx : Nat) :
    Option ResourceNode × GameState :=
  let available := gs.resource_nodes.filter fun n => ¬n.depleted
  if available.isEmpty then (none, gs)
  else
    match (gs.player pIdx).structures.find? (fun s => s.definition.key = "hq") with
    | none =>
      let (n, rng1) := gs.rng.choiceD available dummyNode
      (some n, { gs with rng := rng1 })
    | some hq =>
      (firstArgminBy (fun n => dist2 n.position hq.position) available, gs)

/-- `RTSGame._nearest_deposit`. -/
def nearestDeposit (p : PlayerState) (position : Vec2) : Option Structure :=
  firstArgminBy (fun s => dist2 s.position position) p.deposits

/-- `RTSGame._resource_by_id`. -/
def GameState.resourceById (gs : GameState) (rid? : Option Nat) : Option ResourceNode :=
  match rid? with
  | none => none
  | some rid => gs.resource_nodes.find? fun n => n.id = rid && ¬n.depleted

/-- Write a harvested node back (Python mutates the node object; ids are
unique within a match). -/
def GameState.setNodeById (gs : GameState) (node : ResourceNode) : GameState :=
  { gs with resource_nodes := gs.resource_nodes.map fun n =>
      if n.id = node.id then node else n }

/-- `RTSGame._update_worker`.  (`unit.worker_deposit or -1` in the
source maps a missing id to `-1`, which matches no structure; ids are
positive, so the embedding's `Option` does the same.) -/
def GameState.updateWorker (sqrtA : ℚ → ℚ) (gs : GameState) (pIdx : Nat)
    (u : Unit) (dt : ℚ) : Unit × GameState :=
  let u :=
    if u.worker_state ≠ WorkerState.gather && u.worker_state ≠ WorkerState.deposit then
      u.updateMovement sqrtA dt gs.map.toWorld
    else u
  match u.worker_state with
  | WorkerState.idle =>
    let (node?, gs) := gs.chooseResourceNode pIdx
    match node? with
    | none => (u, gs)
    | some node =>
      let u := { u with worker_state := WorkerState.to_resource,
                        worker_target := some node.id, worker_deposit := none }
      (orderUnitToTile gs.map u node.tilePosition, gs)
  | WorkerState.to_resource =>
    match gs.resourceById u.worker_target with
    | none =>
      (({ u with worker_state := WorkerState.idle, worker_target := none }).clearPath, gs)
    | some node =>
      if distLE node.position u.position (TILE_SIZE * (4/5)) || u.path.isEmpty then
        (({ u with worker_state := WorkerState.gather,
                   worker_timer := WORKER_GATHER_TIME }).clearPath, gs)
      else (u, gs)
  | WorkerState.gather =>
    match gs.resourceById u.worker_target with
    | none => ({ u with worker_state := WorkerState.idle, worker_target := none }, gs)
    | some node =>
      let u := { u with worker_timer := max 0 (u.worker_timer - dt) }
      if u.worker_timer ≤ (0 : ℚ) then
        let (gathered, node1) := node.harvest WORKER_CAPACITY
        let gs := gs.setNodeById node1
        let u := { u with worker_cargo := gathered }
        if u.worker_cargo ≤ (0 : ℚ) then
          ({ u with worker_state := WorkerState.idle, worker_target := none }, gs)
        else
          match nearestDeposit (gs.player pIdx) u.position with
          | none =>
            ({ u with worker_state := WorkerState.idle, worker_target := none,
                      worker_cargo := 0 }, gs)
          | some dep =>
            let u := { u with worker_state := WorkerState.to_deposit,
                              worker_deposit := some dep.id }
            (orderUnitToTile gs.map u dep.tilePosition, gs)
      else (u, gs)
  | WorkerState.to_deposit =>
    let dep? := match u.worker_deposit with
      | none => none
      | some d => (gs.player pIdx).structureById d
    match dep? with
    | none =>
      ({ u with worker_state := WorkerState.idle, worker_target := none,
                worker_deposit := none }, gs)
    | some dep =>
      if ¬dep.completed then
        ({ u with worker_state := WorkerState.idle, worker_target := none,
                  worker_deposit := none }, gs)
      else
        let u := u.updateMovement sqrtA dt gs.map.toWorld
        if distLE dep.position u.position (dep.radius + TILE_SIZE * (3/5)) then
          (({ u with worker_state := WorkerState.deposit,
                     worker_timer := WORKER_DEPOSIT_TIME }).clearPath, gs)
        else (u, gs)
  | WorkerState.deposit =>
    let u := { u with worker_timer := max 0 (u.worker_timer - dt) }
    if u.worker_timer ≤ (0 : ℚ) then
      let gs := gs.modifyPlayer pIdx fun p =>
        { p with resources := p.resources + u.worker_cargo }
      ({ u with worker_cargo := 0, worker_state := WorkerState.idle,
                worker_target := none, worker_deposit := none }, gs)
    else (u, gs)

/-! ### Per-tick phases, `RTSGame._update_structures` /
`_update_units` / `_refresh_player_state` / `_cleanup_resources` /
`_check_victory`. -/

/-- Write structure `j` of player `pIdx` back (Python mutates it in
place). -/
def GameState.setStructureAt (gs : GameState) (pIdx j : Nat) (s : Structure) : GameState :=
  gs.modifyPlayer pIdx fun p => { p with structures := p.structures.set j s }

/-- `RTSGame._update_structures`: construction countdown, production
countdown, pop-and-spawn.  The structure list's length is fixed during
the loop (spawning appends to `units`), so iterating the initial indices
is the Python loop. -/
def GameState.updateStructuresPhase (gs : GameState) (pIdx : Nat) (dt : ℚ) : GameState :=
  (List.range (gs.player pIdx).structures.length).foldl
    (fun gs j =>
      match (gs.player pIdx).structures.get? j with
      | none => gs
      | some s =>
        if ¬s.alive then gs
        else if ¬s.completed then
          let cr := max 0 (s.construction_remaining - dt)
          gs.setStructureAt pIdx j
            { s with construction_remaining := cr,
                     completed := if cr ≤ 0 then true else s.completed }
        else if ¬s.production_queue.isEmpty then
          let s := { s with production_timer := max 0 (s.production_timer - dt) }
          if s.production_timer ≤ 0 then
            let (ud?, s1) := s.popCompletedUnit
            let gs := gs.setStructureAt pIdx j s1
            match ud? with
            | none => gs
            | some ud =>
              match gs.findSpawnTile pIdx (some s1) with
              | none => gs
              | some spawn => (gs.spawnUnit pIdx ud.key spawn true).2
          else gs.setStructureAt pIdx j s
        else gs)
    gs

/-- `RTSGame._update_units`: dead units are dropped, live ones tick
their cooldown and run the worker or combat routine, and the surviving
list replaces `player.units`.  (Per-unit updates never touch the owner's
unit list itself, so folding over the initial list is the Python loop.) -/
def GameState.updateUnitsPhase (sqrtA : ℚ → ℚ) (gs : GameState) (pIdx : Nat)
    (dt : ℚ) : GameState :=
  let units0 := (gs.player pIdx).units
  let stepped := units0.foldl
    (fun (st : List Unit × GameState) u =>
      if ¬u.alive then st
      else
        let u := u.tickCooldown dt
        let (u, gs) :=
          if u.definition.role = "worker" then st.2.updateWorker sqrtA pIdx u dt
          else st.2.updateCombatUnit sqrtA pIdx u dt
        (st.1 ++ [u], gs))
    ([], gs)
  stepped.2.modifyPlayer pIdx fun p => { p with units := stepped.1 }

/-- `RTSGame._refresh_player_state`. -/
def GameState.refreshPlayerState (gs : GameState) (pIdx : Nat) : GameState :=
  gs.modifyPlayer pIdx fun p =>
    let alive_structures := p.structures.filter (·.alive)
    let alive_units := p.units.filter (·.alive)
    { p with structures := alive_structures,
             tech_level := structuresProvidingTech alive_structures,
             units := alive_units,
             defeated := alive_structures.isEmpty && alive_units.isEmpty }

/-- `RTSGame._cleanup_resources`. -/
def GameState.cleanupResources (gs : GameState) : GameState :=
  { gs with resource_nodes := gs.resource_nodes.filter fun n => ¬n.depleted }

/-- `RTSGame._check_victory`: exactly one non-defeated faction remaining
sets `winner_id`. -/
def GameState.checkVictory (gs : GameState) : GameState :=
  match gs.players.filter fun p => ¬p.defeated with
  | [p] => { gs with winner_id := some p.id }
  | _ => gs

/-- `RTSGame.choose_attack_target`: a random enemy with any presence,
then a random one of its living entities' tiles (both draws from the
game stream, in source order). -/
def GameState.chooseAttackTarget (gs : GameState) (pIdx : Nat) :
    Option TilePos × GameState :=
  let p := gs.player pIdx
  let enemies := gs.players.filter fun e =>
    e.id ≠ p.id && (¬e.units.isEmpty || ¬e.structures.isEmpty)
  if enemies.isEmpty then (none, gs)
  else
    let (enemy, rng1) := gs.rng.choiceD enemies dummyPlayer
    let gs := { gs with rng := rng1 }
    let candidates :=
      (enemy.structures.filter (·.alive)).map Structure.tilePosition ++
        (enemy.units.filter (·.alive)).map Unit.tilePosition
    if candidates.isEmpty then (none, gs)
    else
      let (t, rng2) := gs.rng.choiceD candidates ((0, 0) : TilePos)
      (some t, { gs with rng := rng2 })

/-! ### The faction controller's decision routines, `ai.AIController`. -/

/-- Stable ascending insertion by a `Nat` key (`list.sort(key=...)` is
stable; insertion strictly-before-greater keeps equal keys in input
order). -/
def insertByKey (f : Structure → Nat) (x : Structure) : List Structure → List Structure
  | [] => [x]
  | e :: t => if f x < f e then x :: e :: t else e :: insertByKey f x t

/-- `producers.sort(key=lambda structure: len(structure.production_queue))`. -/
def stableSortByKey (f : Structure → Nat) (xs : List Structure) : List Structure :=
  xs.foldl (fun acc x => insertByKey f x acc) []

/-- The `for structure in producers:` loop of `AIController._queue_unit`. -/
def aiQueueUnitLoop (pIdx : Nat) (key : String) :
    GameState → List Structure → GameState
  | gs, [] => gs
  | gs, s :: rest =>
    if 3 ≤ s.production_queue.length then aiQueueUnitLoop pIdx key gs rest
    else
      let (ok, gs1) := gs.queueUnitProduction pIdx s key
      if ok then gs1 else aiQueueUnitLoop pIdx key gs1 rest

/-- `AIController._queue_unit`. -/
def GameState.aiQueueUnit (gs : GameState) (pIdx : Nat) (unit_key : String) : GameState :=
  let producers := (gs.player pIdx).availableProducers unit_key
  if producers.isEmpty then gs
  else aiQueueUnitLoop pIdx unit_key gs
    (stableSortByKey (fun s => s.production_queue.length) producers)

/-- `AIController._choose_combat_unit`: up to one full round-robin pass,
advancing `_combat_pointer` on every probe. -/
def chooseCombatUnitLoop (pIdx : Nat) : GameState → Nat → Option String × GameState
  | gs, 0 => (none, gs)
  | gs, n + 1 =>
    let p := gs.player pIdx
    let key := combatCycle.getD (p.ai.combat_pointer % combatCycle.length) ""
    let gs := gs.modifyPlayer pIdx fun p =>
      { p with ai := { p.ai with combat_pointer := p.ai.combat_pointer + 1 } }
    match unitDef? key with
    | none => chooseCombatUnitLoop pIdx gs n
    | some definition =>
      let p := gs.player pIdx
      if p.tech_level < definition.tech_level then chooseCombatUnitLoop pIdx gs n
      else if (p.availableProducers key).isEmpty then chooseCombatUnitLoop pIdx gs n
      else if p.resources < definition.cost then chooseCombatUnitLoop pIdx gs n
      else (some key, gs)

/-- `AIController._attempt_training`. -/
def GameState.attemptTraining (gs : GameState) (pIdx : Nat) : GameState :=
  let p := gs.player pIdx
  let worker_count := (p.units.filter fun u => u.definition.role = "worker").length
  if worker_count < 8 then gs.aiQueueUnit pIdx "worker"
  else
    let (key?, gs) := chooseCombatUnitLoop pIdx gs combatCycle.length
    match key? with
    | none => gs
    | some key => gs.aiQueueUnit pIdx key

/-- The wishlist walk of `AIController._attempt_construction`. -/
def attemptConstructionLoop (pIdx : Nat) :
    GameState → List (String × Nat) → GameState
  | gs, [] => gs
  | gs, (key, desired) :: rest =>
    let p := gs.player pIdx
    if desired ≤ p.countStructures key true then attemptConstructionLoop pIdx gs rest
    else match structureDef? key with
      | none => attemptConstructionLoop pIdx gs rest
      | some definition =>
        if p.tech_level < definition.required_tech then attemptConstructionLoop pIdx gs rest
        else if p.resources < definition.cost then attemptConstructionLoop pIdx gs rest
        else
          let (result, gs1) := gs.startStructureConstruction pIdx key
          if result.isSome then gs1 else attemptConstructionLoop pIdx gs1 rest

/-- `AIController._attempt_construction`. -/
def GameState.attemptConstruction (gs : GameState) (pIdx : Nat) : GameState :=
  attemptConstructionLoop pIdx gs structureTargets

/-- `AIController.update`: decrement the three timers, then run each
decision whose timer elapsed, re-arming it with a fresh uniform draw
from the controller's own stream. -/
def GameState.aiUpdate (gs : GameState) (pIdx : Nat) (dt : ℚ) : GameState :=
  let p := gs.player pIdx
  if p.defeated then gs
  else
    let bt := p.ai.build_timer - dt
    let tt := p.ai.train_timer - dt
    let rt := p.ai.retarget_timer - dt
    let gs := gs.modifyPlayer pIdx fun p =>
      { p with ai :=
          { p.ai with build_timer := bt, train_timer := tt, retarget_timer := rt } }
    let gs :=
      if bt ≤ 0 then
        let gs := gs.modifyPlayer pIdx fun p =>
          let drawn := p.ai.rng.uniform 4 (13/2)
          { p with ai := { p.ai with build_timer := drawn.1, rng := drawn.2 } }
        gs.attemptConstruction pIdx
      else gs
    let gs :=
      if tt ≤ 0 then
        let gs := gs.modifyPlayer pIdx fun p =>
          let drawn := p.ai.rng.uniform (9/5) (13/5)
          { p with ai := { p.ai with train_timer := drawn.1, rng := drawn.2 } }
        gs.attemptTraining pIdx
      else gs
    if rt ≤ 0 then
      let gs := gs.modifyPlayer pIdx fun p =>
        let drawn := p.ai.rng.uniform BATTLE_RETARGET_TIME.1 BATTLE_RETARGET_TIME.2
        { p with ai :=
            { p.ai with retarget_timer := drawn.1 / max (1/2) p.ai.aggression,
                        rng := drawn.2 } }
      let targeted := gs.chooseAttackTarget pIdx
      match targeted.1 with
      | none => targeted.2
      | some t =>
        targeted.2.modifyPlayer pIdx fun p =>
          { p with units := p.units.map fun unit =>
              if unit.definition.role ≠ "worker" && unit.alive then
                orderUnitToTile targeted.2.map unit t
              else unit }
    else gs

/-- `RTSGame._ensure_land_bridge`, at map level: carve only when the A*
probe between the two HQ tiles fails. -/
def ensureLandBridgeMap (m : GameMap) (s e : TilePos) : GameMap :=
  if (aStar m s e).isNone then m.carvePath s e 2 else m

/-- `RTSGame._ensure_land_bridge` (the source indexes
`players[i].structures[0]` unconditionally; at the call site each player
has just received its HQ). -/
def GameState.ensureLandBridge (gs : GameState) : GameState :=
  if gs.players.length < 2 then gs
  else
    match (gs.player 0).structures.head?, (gs.player 1).structures.head? with
    | some base_a, some base_b =>
      { gs with map := ensureLandBridgeMap gs.map base_a.tilePosition base_b.tilePosition }
    | _, _ => gs

/-- `RTSGame.update`: a no-op once a winner is set; otherwise advance
elapsed time, run each faction's controller, run each faction's
structure/unit/refresh phases, drop depleted resource nodes, and check
victory. -/
def updateGame (sqrtA : ℚ → ℚ) (gs : GameState) (dt : ℚ) : GameState :=
  if gs.winner_id.isSome then gs
  else
    let gs := { gs with elapsed_time := gs.elapsed_time + dt }
    let n := gs.players.length
    let gs := (List.range n).foldl (fun gs i => gs.aiUpdate i dt) gs
    let gs := (List.range n).foldl
      (fun gs i =>
        ((gs.updateStructuresPhase i dt).updateUnitsPhase sqrtA i dt).refreshPlayerState i)
      gs
    gs.cleanupResources.checkVictory

/-! ### Harness definitions for the theorems below (not source code). -/

/-- Fold a sequence of `harvest` calls over a node, collecting the
returned amounts. -/
def harvestSeq (n : ResourceNode) : List ℚ → List ℚ × ResourceNode
  | [] => ([], n)
  | r :: rest =>
    let (g, n1) := n.harvest r
    let (gtail, n2) := harvestSeq n1 rest
    (g :: gtail, n2)

/-- The node's `amount` before and after each call of a `harvest`
sequence. -/
def harvestTrace (n : ResourceNode) : List ℚ → List ℚ
  | [] => [n.amount]
  | r :: rest => n.amount :: harvestTrace (n.harvest r).2 rest

/-- Chebyshev distance between tiles. -/
def cheb (a b : TilePos) : Int :=
  max |a.1 - b.1| |a.2 - b.2|

/-- A fixed do-nothing stand-in for the abstracted float square root,
used by concrete runs that never take a movement step. -/
def sqrt0 : ℚ → ℚ := fun _ => 0

/-- An arbitrary concrete random stream (all draws `0`). -/
def zeroRng : RngState := ⟨fun _ => 0, 0⟩

/-! ## Theorems -/

/-- A tiny unit blueprint for concrete instances. -/
def sampleUnitDef : UnitDefinition :=
  { key := "worker", name := "Engineer", role := "worker", max_health := 70,
    speed := 85, attack_damage := 2, attack_range := 24, attack_cooldown := 7/5,
    vision_radius := 128, cost := 60, build_time := 2, tech_level := 1 }

/-- A concrete unit with a recorded goal, path, and cursor progress. -/
def sampleUnit : Unit :=
  { id := 7, player_id := 0, position := (8, 8), radius := 6, max_health := 70,
    health := 70, definition := sampleUnitDef, path := [(1, 1), (2, 2)],
    path_index := 1, goal_tile := some (1, 1) }

/-- A concrete node for the C5 instance. -/
def sampleNode : ResourceNode := { id := 1, position := (0, 0), amount := 10 }

/-- A concrete structure blueprint and structure for the C6 instance. -/
def sampleStructDef : StructureDefinition :=
  { key := "barracks", name := "Barracks", radius := 104/5, max_health := 520,
    cost := 180, build_time := 6, produces := ["infantry", "ranger"],
    required_tech := 1, provides_tech := 2, is_deposit := false }

/-- A concrete structure with an empty production queue. -/
def sampleStructure : Structure :=
  { id := 3, player_id := 0, position := (40, 40), radius := 104/5,
    max_health := 520, health := 520, definition := sampleStructDef }

/-- A minimal one-player game state used to instantiate theorems with a
player-index hypothesis. -/
def sampleGame : GameState :=
  { map := { width := 4, height := 4, tile := fun _ => clearedTile },
    players := [dummyPlayer], rng := zeroRng }

/-- A water tile; water is never walkable. -/
def waterTile : Tile :=
  { type := TileType.water, elevation := 0, movement_cost := 3 }

/-- A 3×1 map whose middle column is water: no route joins its two grass
ends. -/
def blockedMap : GameMap :=
  { width := 3, height := 1,
    tile := fun p => if p.1 = 1 then waterTile else clearedTile }

/-- The fields of a player the defeat rule is sensitive to. -/
def pshape (p : PlayerState) : Bool × Nat × Nat :=
  (p.defeated, p.structures.length, p.units.length)

/-- `b` has the same player count and per-player shape as `a`. -/
def shapeEq (a b : GameState) : Prop :=
  b.players.length = a.players.length ∧ ∀ k, pshape (b.player k) = pshape (a.player k)

/-- The loop body of `_update_structures` (named for the preservation
lemmas; `updateStructuresPhase` folds a definitionally equal lambda). -/
def structStep (pIdx : Nat) (dt : ℚ) (gs : GameState) (j : Nat) : GameState :=
  match (gs.player pIdx).structures.get? j with
  | none => gs
  | some s =>
    if ¬s.alive then gs
    else if ¬s.completed then
      let cr := max 0 (s.construction_remaining - dt)
      gs.setStructureAt pIdx j
        { s with construction_remaining := cr,
                 completed := if cr ≤ 0 then true else s.completed }
    else if ¬s.production_queue.isEmpty then
      let s := { s with production_timer := max 0 (s.production_timer - dt) }
      if s.production_timer ≤ 0 then
        let (ud?, s1) := s.popCompletedUnit
        let gs := gs.setStructureAt pIdx j s1
        match ud? with
        | none => gs
        | some ud =>
          match gs.findSpawnTile pIdx (some s1) with
          | none => gs
          | some spawn => (gs.spawnUnit pIdx ud.key spawn true).2
      else gs.setStructureAt pIdx j s
    else gs

/-- One faction's slice of the per-tick phase loop (named for the
invariant proofs; `updateGame` folds a definitionally equal lambda). -/
def tickPhase (sqrtA : ℚ → ℚ) (dt : ℚ) (gs : GameState) (i : Nat) : GameState :=
  ((gs.updateStructuresPhase i dt).updateUnitsPhase sqrtA i dt).refreshPlayerState i

/-- A fully walkable 16-by-16 grass board. -/
def grass16 : GameMap :=
  { width := 16, height := 16, tile := fun _ => clearedTile }

/-- The HQ blueprint (the `"hq"` row of `STRUCTURE_DEFS`). -/
def hqD : StructureDefinition :=
  { key := "hq", name := "Command HQ", radius := (8/5) * TILE_SIZE, max_health := 900,
    cost := 0, build_time := 0, produces := ["worker", "infantry"],
    required_tech := 1, provides_tech := 1, is_deposit := true }

/-- Faction 0's HQ with its health externally zeroed (tile `(8,8)`). -/
def deadHQ : Structure :=
  { id := 1, player_id := 0, position := (136, 136), radius := hqD.radius,
    max_health := 900, health := 0, definition := hqD }

/-- Faction 1's intact HQ (tile `(2,2)`). -/
def liveHQ : Structure :=
  { id := 2, player_id := 1, position := (40, 40), radius := hqD.radius,
    max_health := 900, health := 900, definition := hqD }

/-- A fresh controller: all decision timers at zero, deterministic
zero stream. -/
def aiFresh (n : String) : AIController :=
  { name := n, aggression := 1, rng := zeroRng }

/-- Two factions, each exactly one HQ and no units; faction 0's HQ dead.
`r0`/`r1` are the factions' stockpiles. -/
def hqScenario (r0 r1 : ℚ) : GameState :=
  { map := grass16,
    players :=
      [{ id := 0, name := "Crimson", ai := aiFresh "Crimson", resources := r0,
         structures := [deadHQ], units := [], tech_level := 1 },
       { id := 1, name := "Azure", ai := aiFresh "Azure", resources := r1,
         structures := [liveHQ], units := [], tech_level := 1 }],
    rng := zeroRng, entity_id := 3 }

instance : Batteries.TransCmp cmpPos := by
  unfold cmpPos
  infer_instance

/-- 4-adjacency of grid cells. -/
def adj4 (a b : TilePos) : Prop :=
  (a.1 - b.1).natAbs + (a.2 - b.2).natAbs = 1

/-- The minimal pathfinder invariant: every parent link in `came_from`
joins a walkable cell to a 4-adjacent cell. -/
def CameAdj (m : GameMap) (came : Batteries.RBMap TilePos TilePos cmpPos) : Prop :=
  ∀ k v, came.find? k = some v → m.isWalkable k = true ∧ adj4 k v

/-- The stronger search invariant (positive movement costs): parent keys
are recorded in `domList`, parent values lead back towards `start`,
`start` itself never acquires a parent, every open entry is `start` or a
key, `g_score` holds `0` at `start` and non-negative values, and `g`
strictly decreases along every parent link. -/
structure AInv (m : GameMap) (start : TilePos) (st : AStarState) : Prop where
  keys : ∀ k v, st.cameFrom.find? k = some v → k ∈ st.domList
  val : ∀ k v, st.cameFrom.find? k = some v →
    v = start ∨ (st.cameFrom.find? v).isSome = true
  notStart : st.cameFrom.find? start = none
  heap : ∀ e ∈ st.openList, e.2 = start ∨ (st.cameFrom.find? e.2).isSome = true
  gStart : st.gScore.find? start = some 0
  gNonneg : ∀ k v, st.gScore.find? k = some v → 0 ≤ v
  strict : ∀ k v, st.cameFrom.find? k = some v →
    ∃ gk gv, st.gScore.find? k = some gk ∧ st.gScore.find? v = some gv ∧ gv < gk

/-- Pathfinder-style reachability: a non-empty 4-connected chain of
walkable cells joining `a` to `b`. -/
def walkChain (m : GameMap) (a b : TilePos) : Prop :=
  ∃ p : List TilePos, p ≠ [] ∧ p.head? = some a ∧ p.getLast? = some b ∧
    List.Chain' adj4 p ∧ ∀ c ∈ p, m.isWalkable c = true

/-- The Manhattan distance between two tiles, as a natural number. -/
def manh (a b : TilePos) : Nat :=
  (a.1 - b.1).natAbs + (a.2 - b.2).natAbs

/-- The staircase lattice path from `s` to `g`: first the x-leg, then the
y-leg. -/
def stairP (s g : TilePos) (i : Nat) : TilePos :=
  let dx := (g.1 - s.1).natAbs
  if i ≤ dx then
    (s.1 + (if s.1 ≤ g.1 then (i : Int) else -(i : Int)), s.2)
  else
    (g.1, s.2 + (if s.2 ≤ g.2 then ((i - dx : Nat) : Int) else -((i - dx : Nat) : Int)))

/-- The optimality invariant on uniform unit-cost grids, on top of
`AInv`: the open list is sorted, every non-initial entry over-approximates
`g + h` of its cell, every known unpopped cell keeps an entry bounded by
its `g + h`, the staircase frontier bound `k2`, the goal is unpopped,
and `g` drops by at least `1` along parent links. -/
structure BInv (m : GameMap) (s gl : TilePos) (st : AStarState) : Prop where
  base : AInv m s st
  sorted : st.openList.Pairwise fun a b => qpLe a b = true
  s2 : ∀ e ∈ st.openList, e.2 = s ∨
    ∃ gv, st.gScore.find? e.2 = some gv ∧ gv + heuristic e.2 gl ≤ e.1
  hwit : ∀ v, v ∉ st.popTrace → ∀ gv, st.gScore.find? v = some gv →
    ∃ e ∈ st.openList, e.2 = v ∧ e.1 ≤ gv + heuristic v gl
  k2 : ∀ j : Nat, j < manh s gl → stairP s gl j ∈ st.popTrace →
    ∃ gj, st.gScore.find? (stairP s gl (j + 1)) = some gj ∧ gj ≤ (j : ℚ) + 1
  goalNot : gl ∉ st.popTrace
  gap1 : ∀ k v, st.cameFrom.find? k = some v →
    ∃ gk gv, st.gScore.find? k = some gk ∧ st.gScore.find? v = some gv ∧
      gv + 1 ≤ gk

/-- `BInv` without the staircase clause `k2`: the part of the invariant a
neighbour-relaxation step preserves unconditionally (`k2`'s new case is
re-established separately after the whole neighbour fold). -/
structure BCore (m : GameMap) (s gl : TilePos) (st : AStarState) : Prop where
  base : AInv m s st
  sorted : st.openList.Pairwise fun a b => qpLe a b = true
  s2 : ∀ e ∈ st.openList, e.2 = s ∨
    ∃ gv, st.gScore.find? e.2 = some gv ∧ gv + heuristic e.2 gl ≤ e.1
  hwit : ∀ v, v ∉ st.popTrace → ∀ gv, st.gScore.find? v = some gv →
    ∃ e ∈ st.openList, e.2 = v ∧ e.1 ≤ gv + heuristic v gl
  goalNot : gl ∉ st.popTrace
  gap1 : ∀ k v, st.cameFrom.find? k = some v →
    ∃ gk gv, st.gScore.find? k = some gk ∧ st.gScore.find? v = some gv ∧
      gv + 1 ≤ gk

/-- A 2×2 all-grass map with uniform movement cost 1. -/
def uniMap : GameMap :=
  { width := 2, height := 2, tile := fun _ => clearedTile }

/-- A 2×1 map whose left cell — the search's start — is water. -/
def startWaterMap : GameMap :=
  { width := 2, height := 1,
    tile := fun p => if p.1 = 0 then waterTile else clearedTile }

/-- **C1.** Once `winner_id` is set, `update` is a no-op: the whole
match state — elapsed time, every faction's resources, tech level,
defeated flag, structures, units, the resource nodes, and `winner_id`
itself — is returned unchanged, for every time delta and every
square-root/random realisation. -/
theorem c1_update_noop_once_won (sqrtA : ℚ → ℚ) (gs : GameState) (dt : ℚ)
    (h : gs.winner_id ≠ none) : updateGame sqrtA gs dt = gs := by
  have hs : gs.winner_id.isSome := Option.isSome_iff_ne_none.mpr h
  simp [updateGame, hs]

/-- Concrete instance of `c1_update_noop_once_won`. -/
theorem c1_update_noop_once_won_witness :
    updateGame sqrt0
      { map := { width := 4, height := 4, tile := fun _ => clearedTile },
        players := [], winner_id := some 1, rng := zeroRng } 1 =
      { map := { width := 4, height := 4, tile := fun _ => clearedTile },
        players := [], winner_id := some 1, rng := zeroRng } :=
  c1_update_noop_once_won sqrt0 _ 1 (by simp)

/-- **C9.** `Unit.set_goal` re-issued with the unit's current goal tile
changes nothing (path and cursor progress kept); with a different goal
tile it records the new goal, clears the path, and resets the cursor. -/
theorem c9_set_goal_idempotent (u : Unit) (t : TilePos) :
    (u.goal_tile = some t → u.setGoal t = u) ∧
    (u.goal_tile ≠ some t →
      u.setGoal t = { u with goal_tile := some t, path := [], path_index := 0 }) := by
  constructor
  · intro h
    simp [Unit.setGoal, h]
  · intro h
    have h2 : some t ≠ u.goal_tile := fun hh => h hh.symm
    simp [Unit.setGoal, h2]

/-- Concrete instance of `c9_set_goal_idempotent`. -/
theorem c9_set_goal_idempotent_witness :
    sampleUnit.setGoal (1, 1) = sampleUnit ∧
    sampleUnit.setGoal (2, 2) =
      { sampleUnit with goal_tile := some (2, 2), path := [], path_index := 0 } :=
  ⟨(c9_set_goal_idempotent sampleUnit (1, 1)).1 rfl,
   (c9_set_goal_idempotent sampleUnit (2, 2)).2 (by decide)⟩

/-- One `harvest` call on a node with non-negative stock and a
non-negative request returns exactly `min amount requested` and
decrements the stock by the same. -/
theorem harvest_eq_min (n : ResourceNode) (r : ℚ) (hA : 0 ≤ n.amount) (hr : 0 ≤ r) :
    n.harvest r = (min n.amount r, { n with amount := n.amount - min n.amount r }) := by
  obtain ⟨i, pos, amt⟩ := n
  simp only [ResourceNode.harvest]
  rcases lt_or_eq_of_le hA with h | h
  · simp [not_le.mpr h]
  · have h0 : amt = 0 := h.symm
    subst h0
    simp [min_eq_left hr]

theorem harvestTrace_head (n : ResourceNode) (rs : List ℚ) :
    (harvestTrace n rs).head? = some n.amount := by
  cases rs <;> rfl

theorem harvestSeq_props (rs : List ℚ) (n : ResourceNode) (hA : 0 ≤ n.amount)
    (hrs : ∀ r ∈ rs, 0 ≤ r) :
    (harvestSeq n rs).1.sum ≤ n.amount ∧
    (harvestTrace n rs).Chain' (fun a b => b ≤ a) ∧
    (∀ a ∈ harvestTrace n rs, 0 ≤ a) := by
  induction rs generalizing n with
  | nil => simp [harvestSeq, harvestTrace, hA]
  | cons r rest ih =>
    have hr : 0 ≤ r := hrs r (by simp)
    have hrest : ∀ x ∈ rest, 0 ≤ x := fun x hx => hrs x (by simp [hx])
    have step : n.harvest r = (min n.amount r, { n with amount := n.amount - min n.amount r }) :=
      harvest_eq_min n r hA hr
    have hmin0 : 0 ≤ min n.amount r := le_min hA hr
    have hminle : min n.amount r ≤ n.amount := min_le_left _ _
    have hA1 : 0 ≤ n.amount - min n.amount r := by linarith
    obtain ⟨ihsum, ihchain, ihpos⟩ :=
      ih { n with amount := n.amount - min n.amount r } hA1 hrest
    have ihsum2 : (harvestSeq { n with amount := n.amount - min n.amount r } rest).1.sum ≤
        n.amount - min n.amount r := ihsum
    refine ⟨?_, ?_, ?_⟩
    · simp only [harvestSeq, step, List.sum_cons]
      linarith
    · simp only [harvestTrace, step]
      refine List.chain'_cons'.mpr ⟨?_, ihchain⟩
      intro b hb
      rw [harvestTrace_head] at hb
      have hb2 : n.amount - min n.amount r = b := by
        simpa using hb
      rw [← hb2]
      linarith
    · intro a ha
      simp only [harvestTrace, step, List.mem_cons] at ha
      rcases ha with h | h
      · exact h ▸ hA
      · exact ihpos a h

/-- **C5.** For every resource node with non-negative stock and every
sequence of non-negative requests: each `harvest(r)` returns
`min(amount, r)` and decrements the stock by it, the total returned over
the sequence never exceeds the initial amount, and the stock is
monotonically non-increasing and never becomes negative.  (Nodes are
created with `amount ∈ [450, 900]` and every in-game request is the
worker capacity `120`, so the two sign conditions hold for every state
the game constructs.) -/
theorem c5_harvest_conservation (n : ResourceNode) (rs : List ℚ)
    (hA : 0 ≤ n.amount) (hrs : ∀ r ∈ rs, 0 ≤ r) :
    (∀ (m : ResourceNode) (r : ℚ), 0 ≤ m.amount → 0 ≤ r →
      m.harvest r = (min m.amount r, { m with amount := m.amount - min m.amount r })) ∧
    (harvestSeq n rs).1.sum ≤ n.amount ∧
    (harvestTrace n rs).Chain' (fun a b => b ≤ a) ∧
    (∀ a ∈ harvestTrace n rs, 0 ≤ a) :=
  ⟨fun m r hm hr => harvest_eq_min m r hm hr,
   (harvestSeq_props rs n hA hrs).1,
   (harvestSeq_props rs n hA hrs).2.1,
   (harvestSeq_props rs n hA hrs).2.2⟩

/-- Concrete instance of `c5_harvest_conservation`: two harvests of 4
and 8 from a stock of 10. -/
theorem c5_harvest_conservation_witness :
    (harvestSeq sampleNode [4, 8]).1.sum ≤ sampleNode.amount ∧
    (∀ a ∈ harvestTrace sampleNode [4, 8], 0 ≤ a) := by
  have h := c5_harvest_conservation sampleNode [4, 8] (by norm_num [sampleNode])
    (by intro r hr; rcases List.mem_pair.mp hr with h | h <;> simp [h])
  exact ⟨h.2.1, h.2.2.2⟩

/-- **C6.** `Structure.enqueue_unit` appends to the production queue and
arms `production_timer` with the new definition's build time exactly
when the queue was empty (otherwise the timer is untouched);
`Structure.pop_completed_unit` removes and returns the head of a
non-empty queue and re-arms the timer from the next queued item's build
time, or zero when the queue empties — so the timer always tracks the
head of the queue. -/
theorem c6_production_timer_tracks_head (s : Structure) (d : UnitDefinition) :
    (s.enqueueUnit d =
      { s with production_queue := s.production_queue ++ [d],
               production_timer :=
                 if s.production_queue.isEmpty then d.build_time
                 else s.production_timer }) ∧
    (s.production_queue = [] → s.popCompletedUnit = (none, s)) ∧
    (∀ h t, s.production_queue = h :: t →
      s.popCompletedUnit =
        (some h,
          { s with production_queue := t,
                   production_timer := match t with
                     | [] => 0
                     | next :: _ => next.build_time })) := by
  refine ⟨?_, ?_, ?_⟩
  · unfold Structure.enqueueUnit
    cases hq : s.production_queue with
    | nil => simp
    | cons a t => simp
  · intro h
    unfold Structure.popCompletedUnit
    rw [h]
  · intro h t hq
    unfold Structure.popCompletedUnit
    rw [hq]

/-- Concrete instance of `c6_production_timer_tracks_head`: enqueue on
an empty queue arms the timer; popping the head of `[d]` empties the
queue and zeroes the timer. -/
theorem c6_production_timer_tracks_head_witness :
    (sampleStructure.enqueueUnit sampleUnitDef =
      { sampleStructure with production_queue := [sampleUnitDef],
                             production_timer := sampleUnitDef.build_time }) ∧
    (sampleStructure.enqueueUnit sampleUnitDef).popCompletedUnit =
      (some sampleUnitDef, { sampleStructure with production_queue := [],
                                                  production_timer := 0 }) := by
  have h1 := (c6_production_timer_tracks_head sampleStructure sampleUnitDef).1
  have hq : (sampleStructure.enqueueUnit sampleUnitDef).production_queue = [sampleUnitDef] :=
    rfl
  have h2 := (c6_production_timer_tracks_head
    (sampleStructure.enqueueUnit sampleUnitDef) sampleUnitDef).2.2 sampleUnitDef [] hq
  constructor
  · rw [h1]
    rfl
  · rw [h2]
    rfl

theorem start_construction_none_unchanged (gs : GameState) (pIdx : Nat) (key : String)
    (h : (gs.startStructureConstruction pIdx key).1 = none) :
    (gs.startStructureConstruction pIdx key).2 = gs := by
  rcases hd : structureDef? key with _ | d
  all_goals unfold GameState.startStructureConstruction at h ⊢
  all_goals rw [hd] at h ⊢
  dsimp only at h ⊢
  split_ifs at h ⊢ <;> try rfl
  rcases hs : gs.findStructureSite pIdx d with _ | site
  · rfl
  · rw [hs] at h
    simp at h

theorem start_construction_some_iff (gs : GameState) (pIdx : Nat) (key : String) :
    ((gs.startStructureConstruction pIdx key).1).isSome = true ↔
    ∃ d, structureDef? key = some d ∧
      d.required_tech ≤ (gs.player pIdx).tech_level ∧
      d.cost ≤ (gs.player pIdx).resources ∧
      (gs.player pIdx).structures.length < MAX_STRUCTURES ∧
      (gs.findStructureSite pIdx d).isSome = true := by
  rcases hd : structureDef? key with _ | d
  · unfold GameState.startStructureConstruction
    rw [hd]
    simp
  · unfold GameState.startStructureConstruction
    rw [hd]
    dsimp only
    split_ifs with h1 h2 h3
    · simp only [Option.isSome_none, Bool.false_eq_true, false_iff, not_exists]
      rintro d' ⟨hd', ht, -⟩
      obtain rfl : d = d' := by simpa using hd'
      exact absurd ht (not_le.mpr h1)
    · simp only [Option.isSome_none, Bool.false_eq_true, false_iff, not_exists]
      rintro d' ⟨hd', -, hc, -⟩
      obtain rfl : d = d' := by simpa using hd'
      exact absurd hc (not_le.mpr h2)
    · simp only [Option.isSome_none, Bool.false_eq_true, false_iff, not_exists]
      rintro d' ⟨hd', -, -, hl, -⟩
      obtain rfl : d = d' := by simpa using hd'
      exact absurd hl (by omega)
    · rcases hs : gs.findStructureSite pIdx d with _ | site
      · simp only [Option.isSome_none, Bool.false_eq_true, false_iff, not_exists]
        rintro d' ⟨hd', -, -, -, hsite⟩
        obtain rfl : d = d' := by simpa using hd'
        rw [hs] at hsite
        simp at hsite
      · simp only [Option.isSome_some, true_iff]
        exact ⟨d, rfl, le_of_not_lt h1, le_of_not_lt h2, by omega, by rw [hs]; rfl⟩

theorem setPlayer_player_self (q : GameState) (p : PlayerState) (pIdx : Nat)
    (hq : pIdx < q.players.length) :
    (q.setPlayer pIdx p).player pIdx = p := by
  simp [GameState.setPlayer, GameState.player, List.getD, hq]

theorem start_construction_success (gs : GameState) (pIdx : Nat) (key : String)
    (st : Structure) (gs' : GameState)
    (h : gs.startStructureConstruction pIdx key = (some st, gs'))
    (hIdx : pIdx < gs.players.length) :
    (gs'.player pIdx).resources = (gs.player pIdx).resources - st.definition.cost ∧
    (gs'.player pIdx).structures = (gs.player pIdx).structures ++ [st] := by
  rcases hd : structureDef? key with _ | d
  all_goals unfold GameState.startStructureConstruction at h
  all_goals rw [hd] at h
  · simp at h
  · dsimp only at h
    split_ifs at h <;> try simp at h
    rcases hs : gs.findStructureSite pIdx d with _ | site
    · rw [hs] at h
      simp at h
    · rw [hs] at h
      simp only [Prod.mk.injEq, Option.some.injEq] at h
      obtain ⟨hst, hgs⟩ := h
      subst hgs
      have hd2 : st.definition = d := by rw [← hst]
      constructor
      · rw [hd2]
        rw [GameState.modifyPlayer, setPlayer_player_self _ _ _ (by simpa using hIdx)]
        rfl
      · rw [GameState.modifyPlayer, setPlayer_player_self _ _ _ (by simpa using hIdx)]
        rw [← hst]
        rfl

theorem queue_unit_false_unchanged (gs : GameState) (pIdx : Nat)
    (s : Structure) (ukey : String)
    (h : (gs.queueUnitProduction pIdx s ukey).1 = false) :
    (gs.queueUnitProduction pIdx s ukey).2 = gs := by
  unfold GameState.queueUnitProduction at h ⊢
  dsimp only at h ⊢
  rcases hd : unitDef? ukey with _ | d
  all_goals rw [hd] at h
  all_goals dsimp only at h ⊢
  · split_ifs <;> rfl
  · split_ifs at h ⊢ <;> rfl

theorem queue_unit_true_iff (gs : GameState) (pIdx : Nat)
    (s : Structure) (ukey : String) :
    (gs.queueUnitProduction pIdx s ukey).1 = true ↔
    (gs.player pIdx).structures.contains s = true ∧
    s.alive = true ∧ s.completed = true ∧
    ∃ d, unitDef? ukey = some d ∧
      d.tech_level ≤ (gs.player pIdx).tech_level ∧
      s.definition.produces.contains ukey = true ∧
      s.production_queue.length < 4 ∧
      d.cost ≤ (gs.player pIdx).resources := by
  constructor
  · intro hh
    unfold GameState.queueUnitProduction at hh
    dsimp only at hh
    rcases hd : unitDef? ukey with _ | d
    all_goals rw [hd] at hh
    all_goals dsimp only at hh
    · split_ifs at hh
    · split_ifs at hh with h1 h2 h3 h4 h5 h6
      obtain ⟨ha, hc⟩ := not_or.mp h2
      exact ⟨h1, not_not.mp ha, not_not.mp hc, d, rfl, by omega, h4, by omega,
        le_of_not_lt h6⟩
  · rintro ⟨hcont, ha, hc, d, hd, ht, hp, hl, hr⟩
    unfold GameState.queueUnitProduction
    dsimp only
    rw [hd]
    dsimp only
    rw [if_neg (not_not_intro hcont)]
    rw [if_neg (show ¬(¬s.alive = true ∨ ¬s.completed = true) by simp [ha, hc])]
    rw [if_neg (not_lt.mpr ht)]
    rw [if_neg (not_not_intro hp)]
    rw [if_neg (show ¬4 ≤ s.production_queue.length by omega)]
    rw [if_neg (not_lt.mpr hr)]

theorem queue_unit_success (gs : GameState) (pIdx : Nat)
    (s : Structure) (ukey : String) (d : UnitDefinition)
    (hd : unitDef? ukey = some d)
    (h : (gs.queueUnitProduction pIdx s ukey).1 = true)
    (hIdx : pIdx < gs.players.length) :
    ((gs.queueUnitProduction pIdx s ukey).2.player pIdx).resources
      = (gs.player pIdx).resources - d.cost ∧
    ((gs.queueUnitProduction pIdx s ukey).2.player pIdx).structures
      = replaceFirst (gs.player pIdx).structures s (s.enqueueUnit d) := by
  unfold GameState.queueUnitProduction at h ⊢
  dsimp only at h ⊢
  rw [hd] at h ⊢
  dsimp only at h ⊢
  split_ifs at h ⊢ <;> try simp at h
  rw [GameState.modifyPlayer, setPlayer_player_self _ _ _ hIdx]
  exact ⟨rfl, rfl⟩

/-- **C8.** Construction and training requests are all-or-nothing: when
`start_structure_construction` fails any precondition (unknown key, tech
gate, cost, structure cap, or no free site) it returns `None` and the
whole game state — in particular the player's resources and structure
list — is unchanged, and its success is exactly the conjunction of those
preconditions; on success it deducts exactly the blueprint's cost and
appends the new structure.  Likewise `queue_unit_production` returns
`False` leaving the state unchanged when any of its guards fails, returns
`True` exactly when all guards hold, and on success deducts exactly the
unit blueprint's cost and enqueues the unit at the producing structure. -/
theorem c8_requests_fail_closed (gs : GameState) (pIdx : Nat)
    (hIdx : pIdx < gs.players.length) :
    (∀ key : String,
      ((gs.startStructureConstruction pIdx key).1 = none →
        (gs.startStructureConstruction pIdx key).2 = gs) ∧
      (((gs.startStructureConstruction pIdx key).1).isSome = true ↔
        ∃ d, structureDef? key = some d ∧
          d.required_tech ≤ (gs.player pIdx).tech_level ∧
          d.cost ≤ (gs.player pIdx).resources ∧
          (gs.player pIdx).structures.length < MAX_STRUCTURES ∧
          (gs.findStructureSite pIdx d).isSome = true) ∧
      (∀ (st : Structure) (gs' : GameState),
        gs.startStructureConstruction pIdx key = (some st, gs') →
        (gs'.player pIdx).resources
          = (gs.player pIdx).resources - st.definition.cost ∧
        (gs'.player pIdx).structures = (gs.player pIdx).structures ++ [st])) ∧
    (∀ (s : Structure) (ukey : String),
      ((gs.queueUnitProduction pIdx s ukey).1 = false →
        (gs.queueUnitProduction pIdx s ukey).2 = gs) ∧
      ((gs.queueUnitProduction pIdx s ukey).1 = true ↔
        (gs.player pIdx).structures.contains s = true ∧
        s.alive = true ∧ s.completed = true ∧
        ∃ d, unitDef? ukey = some d ∧
          d.tech_level ≤ (gs.player pIdx).tech_level ∧
          s.definition.produces.contains ukey = true ∧
          s.production_queue.length < 4 ∧
          d.cost ≤ (gs.player pIdx).resources) ∧
      (∀ d : UnitDefinition, unitDef? ukey = some d →
        (gs.queueUnitProduction pIdx s ukey).1 = true →
        ((gs.queueUnitProduction pIdx s ukey).2.player pIdx).resources
          = (gs.player pIdx).resources - d.cost ∧
        ((gs.queueUnitProduction pIdx s ukey).2.player pIdx).structures
          = replaceFirst (gs.player pIdx).structures s (s.enqueueUnit d))) := by
  refine ⟨fun key => ⟨fun h => start_construction_none_unchanged gs pIdx key h,
      start_construction_some_iff gs pIdx key,
      fun st gs' h => start_construction_success gs pIdx key st gs' h hIdx⟩,
    fun s ukey => ⟨fun h => queue_unit_false_unchanged gs pIdx s ukey h,
      queue_unit_true_iff gs pIdx s ukey,
      fun d hd h => queue_unit_success gs pIdx s ukey d hd h hIdx⟩⟩

/-- Concrete instance of `c8_requests_fail_closed`. -/
theorem c8_requests_fail_closed_witness :
    0 < sampleGame.players.length ∧
    ((∀ key : String,
      ((sampleGame.startStructureConstruction 0 key).1 = none →
        (sampleGame.startStructureConstruction 0 key).2 = sampleGame) ∧
      (((sampleGame.startStructureConstruction 0 key).1).isSome = true ↔
        ∃ d, structureDef? key = some d ∧
          d.required_tech ≤ (sampleGame.player 0).tech_level ∧
          d.cost ≤ (sampleGame.player 0).resources ∧
          (sampleGame.player 0).structures.length < MAX_STRUCTURES ∧
          (sampleGame.findStructureSite 0 d).isSome = true) ∧
      (∀ (st : Structure) (gs' : GameState),
        sampleGame.startStructureConstruction 0 key = (some st, gs') →
        (gs'.player 0).resources
          = (sampleGame.player 0).resources - st.definition.cost ∧
        (gs'.player 0).structures = (sampleGame.player 0).structures ++ [st])) ∧
    (∀ (s : Structure) (ukey : String),
      ((sampleGame.queueUnitProduction 0 s ukey).1 = false →
        (sampleGame.queueUnitProduction 0 s ukey).2 = sampleGame) ∧
      ((sampleGame.queueUnitProduction 0 s ukey).1 = true ↔
        (sampleGame.player 0).structures.contains s = true ∧
        s.alive = true ∧ s.completed = true ∧
        ∃ d, unitDef? ukey = some d ∧
          d.tech_level ≤ (sampleGame.player 0).tech_level ∧
          s.definition.produces.contains ukey = true ∧
          s.production_queue.length < 4 ∧
          d.cost ≤ (sampleGame.player 0).resources) ∧
      (∀ d : UnitDefinition, unitDef? ukey = some d →
        (sampleGame.queueUnitProduction 0 s ukey).1 = true →
        ((sampleGame.queueUnitProduction 0 s ukey).2.player 0).resources
          = (sampleGame.player 0).resources - d.cost ∧
        ((sampleGame.queueUnitProduction 0 s ukey).2.player 0).structures
          = replaceFirst (sampleGame.player 0).structures s (s.enqueueUnit d)))) :=
  ⟨by simp [sampleGame], c8_requests_fail_closed sampleGame 0 (by simp [sampleGame])⟩

theorem mem_intRangeList {a b x : Int} : x ∈ intRangeList a b ↔ a ≤ x ∧ x ≤ b := by
  unfold intRangeList
  constructor
  · intro hx
    obtain ⟨i, hi, hxi⟩ := List.mem_map.mp hx
    have hi2 := List.mem_range.mp hi
    omega
  · rintro ⟨h1, h2⟩
    exact List.mem_map.mpr ⟨(x - a).toNat, List.mem_range.mpr (by omega), by omega⟩

theorem mem_nearestWalkableCandidates {tile c : TilePos} :
    c ∈ nearestWalkableCandidates tile ↔ cheb c tile ≤ 9 := by
  unfold nearestWalkableCandidates cheb
  simp only [List.mem_flatMap, List.mem_map, List.mem_range, mem_intRangeList]
  constructor
  · rintro ⟨r0, hr0, dy, hdy, dx, hdx, rfl⟩
    simp only [max_le_iff, abs_le]
    constructor <;> constructor <;> omega
  · intro h
    simp only [max_le_iff, abs_le] at h
    refine ⟨8, by omega, c.2 - tile.2, ⟨by omega, by omega⟩,
      c.1 - tile.1, ⟨by omega, by omega⟩, ?_⟩
    obtain ⟨cx, cy⟩ := c
    simp only [Prod.mk.injEq]
    constructor <;> omega

theorem isWalkable_inBounds {m : GameMap} {p : TilePos}
    (h : m.isWalkable p = true) : m.inBounds p = true :=
  by
  unfold GameMap.isWalkable at h
  simp at h
  exact h.1

theorem findNearestWalkable_none (m : GameMap) (tile : TilePos)
    (hall : ∀ c : TilePos, cheb c tile ≤ 9 → ¬m.isWalkable c = true) :
    m.findNearestWalkable tile = tile := by
  unfold GameMap.findNearestWalkable
  have hw : ¬m.isWalkable tile = true := hall tile (by unfold cheb; simp)
  rw [if_neg hw]
  rcases hf : (nearestWalkableCandidates tile).find?
      (fun c => m.inBounds c && m.isWalkable c) with _ | c
  · rfl
  · have hp := List.find?_some hf
    simp only [Bool.and_eq_true] at hp
    have hcw : m.isWalkable c = true := hp.2
    have hmem := List.mem_of_find?_eq_some hf
    exact absurd hcw (hall c (mem_nearestWalkableCandidates.mp hmem))

theorem findNearestWalkable_found (m : GameMap) (tile c : TilePos)
    (hnw : ¬m.isWalkable tile = true)
    (hc9 : cheb c tile ≤ 9) (hcw : m.isWalkable c = true) :
    m.isWalkable (m.findNearestWalkable tile) = true ∧
    cheb (m.findNearestWalkable tile) tile ≤ 9 := by
  unfold GameMap.findNearestWalkable
  rw [if_neg hnw]
  rcases hf : (nearestWalkableCandidates tile).find?
      (fun c => m.inBounds c && m.isWalkable c) with _ | c'
  · have hnone := List.find?_eq_none.mp hf c (mem_nearestWalkableCandidates.mpr hc9)
    rw [isWalkable_inBounds hcw, hcw] at hnone
    simp at hnone
  · have hp := List.find?_some hf
    have hmem := List.mem_of_find?_eq_some hf
    simp only [Bool.and_eq_true] at hp
    exact ⟨hp.2, mem_nearestWalkableCandidates.mp hmem⟩

/-- **C10.** `order_unit_to_tile` ignores out-of-bounds goal tiles
entirely (the unit is returned untouched), and for an in-bounds but
unwalkable goal tile it silently substitutes the pathfinding destination
with the nearest walkable tile: the scan covers exactly the square
neighbourhood of Chebyshev radius 1–9 around the goal (if every tile of
that neighbourhood is unwalkable the original tile is kept, and whenever
some walkable tile lies in it the substituted tile is walkable and at
Chebyshev distance at most 9). -/
theorem c10_unwalkable_goal_substitution (m : GameMap) (u : Unit) (tile : TilePos) :
    (¬m.inBounds tile = true → orderUnitToTile m u tile = u) ∧
    (m.inBounds tile = true → ¬m.isWalkable tile = true →
      orderUnitToTile m u tile
        = orderUnitDest m (u.setGoal tile) (m.findNearestWalkable tile) ∧
      ((∀ c : TilePos, cheb c tile ≤ 9 → ¬m.isWalkable c = true) →
        m.findNearestWalkable tile = tile) ∧
      (∀ c : TilePos, cheb c tile ≤ 9 → m.isWalkable c = true →
        m.isWalkable (m.findNearestWalkable tile) = true ∧
        cheb (m.findNearestWalkable tile) tile ≤ 9)) := by
  constructor
  · intro h
    unfold orderUnitToTile
    rw [if_pos h]
  · intro hin hnw
    refine ⟨?_, findNearestWalkable_none m tile,
      fun c hc9 hcw => findNearestWalkable_found m tile c hnw hc9 hcw⟩
    unfold orderUnitToTile
    rw [if_neg (not_not_intro hin), if_pos hnw]

/-- Concrete instance of `c10_unwalkable_goal_substitution`: a goal tile
outside a 4×4 map leaves the unit untouched. -/
theorem c10_unwalkable_goal_substitution_witness :
    ¬({ width := 4, height := 4, tile := fun _ => clearedTile } : GameMap).inBounds
        ((9, 0) : TilePos) = true ∧
    orderUnitToTile { width := 4, height := 4, tile := fun _ => clearedTile }
        sampleUnit (9, 0) = sampleUnit :=
  ⟨by decide,
    (c10_unwalkable_goal_substitution
      { width := 4, height := 4, tile := fun _ => clearedTile } sampleUnit (9, 0)).1
      (by decide)⟩

section RatDecide

attribute [local semireducible] Rat.add Rat.mul Rat.inv Rat.sub

/-- Counterexample to C3 as stated: `order_unit_to_tile` calls
`set_goal` *before* running the pathfinder, so when the search fails for
a fresh goal tile the unit's previously assigned path and cursor are
already gone — only the position survives.  Here `(2,0)` is in bounds
and walkable but unreachable from the unit's tile `(0,0)` across the
water column, `a_star` returns `None`, and the unit's old path
`[(1,1),(2,2)]` with cursor `1` has been cleared rather than kept. -/
theorem c3_counterexample :
    blockedMap.inBounds ((2, 0) : TilePos) = true ∧
    blockedMap.isWalkable ((2, 0) : TilePos) = true ∧
    aStar blockedMap sampleUnit.tilePosition ((2, 0) : TilePos) = none ∧
    sampleUnit.path = [(1, 1), (2, 2)] ∧
    sampleUnit.path_index = 1 ∧
    (orderUnitToTile blockedMap sampleUnit (2, 0)).path = [] ∧
    (orderUnitToTile blockedMap sampleUnit (2, 0)).path_index = 0 ∧
    (orderUnitToTile blockedMap sampleUnit (2, 0)).position = sampleUnit.position := by
  decide

/-- **C3** (amended).  For every in-bounds goal tile, when the
pathfinder returns no route the move order is dropped and the unit's
position is unchanged; but the unit is left exactly as `set_goal` left
it, so the previously assigned path and cursor survive only when the
ordered tile is the unit's current goal tile — ordering to a fresh goal
tile clears them even though the search failed. -/
theorem c3_failed_search_drops_order (m : GameMap) (u : Unit) (t : TilePos)
    (hin : m.inBounds t = true)
    (hfail : aStar m (u.setGoal t).tilePosition
        (if ¬m.isWalkable t then m.findNearestWalkable t else t) = none) :
    orderUnitToTile m u t = u.setGoal t ∧
    (orderUnitToTile m u t).position = u.position ∧
    (u.goal_tile = some t → orderUnitToTile m u t = u) ∧
    (u.goal_tile ≠ some t →
      orderUnitToTile m u t =
        { u with goal_tile := some t, path := [], path_index := 0 }) := by
  have key : orderUnitToTile m u t = u.setGoal t := by
    unfold orderUnitToTile
    rw [if_neg (not_not_intro hin)]
    dsimp only
    unfold orderUnitDest
    dsimp only
    rw [hfail]
  refine ⟨key, ?_, ?_, ?_⟩
  · rw [key]
    unfold Unit.setGoal
    split_ifs <;> rfl
  · intro h
    rw [key]
    simp [Unit.setGoal, h]
  · intro h
    have h2 : some t ≠ u.goal_tile := fun hh => h hh.symm
    rw [key]
    simp [Unit.setGoal, h2]

/-- Concrete instance of `c3_failed_search_drops_order` on the blocked
map. -/
theorem c3_failed_search_drops_order_witness :
    blockedMap.inBounds ((2, 0) : TilePos) = true ∧
    aStar blockedMap (sampleUnit.setGoal (2, 0)).tilePosition
      (if ¬blockedMap.isWalkable ((2, 0) : TilePos) then
        blockedMap.findNearestWalkable (2, 0) else (2, 0)) = none ∧
    orderUnitToTile blockedMap sampleUnit (2, 0) = sampleUnit.setGoal (2, 0) :=
  ⟨by decide, by decide,
    (c3_failed_search_drops_order blockedMap sampleUnit (2, 0)
      (by decide) (by decide)).1⟩

end RatDecide

/-! ### Skeleton preservation across a tick (towards the defeat-flag
invariant).  The "shape" of a player is what the defeat rule reads:
the flag itself and the lengths of the two entity lists (list entries
are mutated during combat, but never inserted or removed outside a
player's own structure/unit/refresh phase). -/

theorem shapeEq_refl (gs : GameState) : shapeEq gs gs := ⟨rfl, fun _ => rfl⟩

theorem shapeEq_trans {a b c : GameState} (h1 : shapeEq a b) (h2 : shapeEq b c) :
    shapeEq a c :=
  ⟨h2.1.trans h1.1, fun k => (h2.2 k).trans (h1.2 k)⟩

theorem shapeEq_of_players_eq {a b : GameState} (h : b.players = a.players) :
    shapeEq a b :=
  ⟨by rw [h], fun k => by unfold GameState.player; rw [h]⟩

theorem getD_set_ne {α : Type} (l : List α) (i j : Nat) (a d : α) (h : i ≠ j) :
    (l.set i a).getD j d = l.getD j d := by
  simp [List.getD_eq_getElem?_getD, List.getElem?_set_ne h]

theorem player_setPlayer_ne (gs : GameState) (i k : Nat) (p : PlayerState)
    (h : k ≠ i) : (gs.setPlayer i p).player k = gs.player k := by
  unfold GameState.setPlayer GameState.player
  exact getD_set_ne _ _ _ _ _ (fun hh => h hh.symm)

theorem player_modifyPlayer_ne (gs : GameState) (i k : Nat)
    (f : PlayerState → PlayerState) (h : k ≠ i) :
    (gs.modifyPlayer i f).player k = gs.player k := by
  unfold GameState.modifyPlayer
  exact player_setPlayer_ne gs i k _ h

theorem players_length_setPlayer (gs : GameState) (i : Nat) (p : PlayerState) :
    (gs.setPlayer i p).players.length = gs.players.length := by
  unfold GameState.setPlayer
  exact List.length_set ..

theorem players_length_modifyPlayer (gs : GameState) (i : Nat)
    (f : PlayerState → PlayerState) :
    (gs.modifyPlayer i f).players.length = gs.players.length :=
  players_length_setPlayer ..

theorem player_setPlayer_self_or (gs : GameState) (i : Nat) (p : PlayerState) :
    (gs.setPlayer i p).player i = p ∨ (gs.setPlayer i p) = gs := by
  by_cases h : i < gs.players.length
  · exact Or.inl (setPlayer_player_self gs p i h)
  · right
    unfold GameState.setPlayer
    have : gs.players.set i p = gs.players :=
      List.set_eq_of_length_le (Nat.le_of_not_lt h)
    rw [this]

theorem shapeEq_modifyPlayer (gs : GameState) (i : Nat)
    (f : PlayerState → PlayerState) (hf : ∀ p, pshape (f p) = pshape p) :
    shapeEq gs (gs.modifyPlayer i f) := by
  refine ⟨players_length_modifyPlayer .., fun k => ?_⟩
  rcases eq_or_ne k i with rfl | hne
  · unfold GameState.modifyPlayer
    rcases player_setPlayer_self_or gs k (f (gs.player k)) with h | h
    · rw [h, hf]
    · rw [h]
  · rw [player_modifyPlayer_ne gs i k f hne]

theorem length_listModify {α : Type} (xs : List α) (i : Nat) (f : α → α) :
    (listModify xs i f).length = xs.length := by
  unfold listModify
  rcases xs.get? i with _ | x
  · rfl
  · exact List.length_set ..

theorem shapeEq_damageTarget (gs : GameState) (ref : TargetRef) (a : ℚ) :
    shapeEq gs (gs.damageTarget ref a) := by
  unfold GameState.damageTarget
  apply shapeEq_modifyPlayer
  intro p
  cases ref.kind <;> simp [pshape, length_listModify]

theorem players_chooseResourceNode (gs : GameState) (pIdx : Nat) :
    ((gs.chooseResourceNode pIdx).2).players = gs.players := by
  unfold GameState.chooseResourceNode
  dsimp only
  repeat' split
  all_goals rfl

theorem shapeEq_updateWorker (sqrtA : ℚ → ℚ) (gs : GameState) (pIdx : Nat)
    (u : Unit) (dt : ℚ) : shapeEq gs ((gs.updateWorker sqrtA pIdx u dt).2) := by
  have hg1 : shapeEq gs ((gs.chooseResourceNode pIdx).2) :=
    shapeEq_of_players_eq (players_chooseResourceNode gs pIdx)
  unfold GameState.updateWorker
  dsimp only
  repeat' split
  all_goals dsimp only
  all_goals try exact shapeEq_of_players_eq rfl
  all_goals try (apply shapeEq_modifyPlayer; intro p; rfl)
  all_goals exact hg1

theorem shapeEq_updateCombatUnit (sqrtA : ℚ → ℚ) (gs : GameState) (pIdx : Nat)
    (u : Unit) (dt : ℚ) : shapeEq gs ((gs.updateCombatUnit sqrtA pIdx u dt).2) := by
  unfold GameState.updateCombatUnit
  dsimp only
  repeat' split
  all_goals first
    | exact shapeEq_refl gs
    | exact shapeEq_damageTarget ..

theorem shapeEq_unitsFold (sqrtA : ℚ → ℚ) (pIdx : Nat) (dt : ℚ) (gs0 : GameState)
    (l : List Unit) :
    ∀ (acc : List Unit × GameState), shapeEq gs0 acc.2 →
    shapeEq gs0 ((l.foldl (fun (st : List Unit × GameState) u =>
      if ¬u.alive then st
      else
        let u := u.tickCooldown dt
        let (u, gs) :=
          if u.definition.role = "worker" then st.2.updateWorker sqrtA pIdx u dt
          else st.2.updateCombatUnit sqrtA pIdx u dt
        (st.1 ++ [u], gs)) acc)).2 := by
  induction l with
  | nil => exact fun acc h => h
  | cons u rest ih =>
    intro acc h
    rw [List.foldl_cons]
    apply ih
    dsimp only
    split
    · exact h
    · have key : shapeEq gs0
          ((if (u.tickCooldown dt).definition.role = "worker" then
              acc.2.updateWorker sqrtA pIdx (u.tickCooldown dt) dt
            else acc.2.updateCombatUnit sqrtA pIdx (u.tickCooldown dt) dt)).2 := by
        split
        · exact shapeEq_trans h (shapeEq_updateWorker ..)
        · exact shapeEq_trans h (shapeEq_updateCombatUnit ..)
      exact key

theorem shapeEq_ne_updateUnitsPhase (sqrtA : ℚ → ℚ) (gs : GameState) (pIdx : Nat)
    (dt : ℚ) :
    (gs.updateUnitsPhase sqrtA pIdx dt).players.length = gs.players.length ∧
    ∀ k, k ≠ pIdx →
      pshape ((gs.updateUnitsPhase sqrtA pIdx dt).player k) = pshape (gs.player k) := by
  unfold GameState.updateUnitsPhase
  dsimp only
  have hfold := shapeEq_unitsFold sqrtA pIdx dt gs ((gs.player pIdx).units)
    ([], gs) (shapeEq_refl gs)
  constructor
  · rw [players_length_modifyPlayer]
    exact hfold.1
  · intro k hk
    rw [player_modifyPlayer_ne _ _ _ _ hk]
    exact hfold.2 k

theorem setStructureAt_preserve (gs : GameState) (pIdx j : Nat) (s : Structure)
    (k : Nat) (hk : k ≠ pIdx) :
    (gs.setStructureAt pIdx j s).player k = gs.player k ∧
    (gs.setStructureAt pIdx j s).players.length = gs.players.length := by
  unfold GameState.setStructureAt
  exact ⟨player_modifyPlayer_ne _ _ _ _ hk, players_length_modifyPlayer ..⟩

theorem spawnUnit_preserve (gs : GameState) (pIdx : Nat) (key : String)
    (tile : TilePos) (jit : Bool) (k : Nat) (hk : k ≠ pIdx) :
    ((gs.spawnUnit pIdx key tile jit).2).player k = gs.player k ∧
    ((gs.spawnUnit pIdx key tile jit).2).players.length = gs.players.length := by
  unfold GameState.spawnUnit
  dsimp only
  repeat' split
  all_goals dsimp only
  all_goals first
    | exact ⟨rfl, rfl⟩
    | exact ⟨player_modifyPlayer_ne _ _ _ _ hk, players_length_modifyPlayer ..⟩

theorem structStep_preserve (pIdx : Nat) (dt : ℚ) (k : Nat) (hk : k ≠ pIdx)
    (gs : GameState) (j : Nat) :
    (structStep pIdx dt gs j).player k = gs.player k ∧
    (structStep pIdx dt gs j).players.length = gs.players.length := by
  unfold structStep
  dsimp only
  repeat' split
  all_goals try dsimp only
  all_goals first
    | exact ⟨rfl, rfl⟩
    | exact setStructureAt_preserve _ _ _ _ _ hk
    | exact ⟨((spawnUnit_preserve _ _ _ _ _ _ hk).1).trans
               (setStructureAt_preserve _ _ _ _ _ hk).1,
             ((spawnUnit_preserve _ _ _ _ _ _ hk).2).trans
               (setStructureAt_preserve _ _ _ _ _ hk).2⟩

theorem structuresFold_preserve (pIdx : Nat) (dt : ℚ) (k : Nat) (hk : k ≠ pIdx)
    (l : List Nat) :
    ∀ (gs : GameState),
    (l.foldl (structStep pIdx dt) gs).player k = gs.player k ∧
    (l.foldl (structStep pIdx dt) gs).players.length = gs.players.length := by
  induction l with
  | nil => exact fun gs => ⟨rfl, rfl⟩
  | cons j rest ih =>
    intro gs
    rw [List.foldl_cons]
    obtain ⟨h1, h2⟩ := ih (structStep pIdx dt gs j)
    obtain ⟨s1, s2⟩ := structStep_preserve pIdx dt k hk gs j
    exact ⟨h1.trans s1, h2.trans s2⟩

theorem updateStructuresPhase_preserve (gs : GameState) (pIdx : Nat) (dt : ℚ)
    (k : Nat) (hk : k ≠ pIdx) :
    (gs.updateStructuresPhase pIdx dt).player k = gs.player k ∧
    (gs.updateStructuresPhase pIdx dt).players.length = gs.players.length := by
  unfold GameState.updateStructuresPhase
  exact structuresFold_preserve pIdx dt k hk _ gs

theorem refreshPlayerState_player_ne (gs : GameState) (pIdx k : Nat)
    (hk : k ≠ pIdx) : (gs.refreshPlayerState pIdx).player k = gs.player k := by
  unfold GameState.refreshPlayerState
  exact player_modifyPlayer_ne _ _ _ _ hk

theorem refreshPlayerState_length (gs : GameState) (pIdx : Nat) :
    (gs.refreshPlayerState pIdx).players.length = gs.players.length :=
  players_length_modifyPlayer ..

theorem refreshPlayerState_defeated (gs : GameState) (pIdx : Nat)
    (h : pIdx < gs.players.length) :
    ((gs.refreshPlayerState pIdx).player pIdx).defeated =
      (((gs.refreshPlayerState pIdx).player pIdx).structures.isEmpty &&
        ((gs.refreshPlayerState pIdx).player pIdx).units.isEmpty) := by
  unfold GameState.refreshPlayerState GameState.modifyPlayer
  rw [setPlayer_player_self _ _ _ h]

theorem isEmpty_eq_of_length_eq {α β : Type} {a : List α} {b : List β}
    (h : a.length = b.length) : a.isEmpty = b.isEmpty := by
  cases a <;> cases b <;> simp_all

theorem defeat_flag_of_pshape_eq {p q : PlayerState} (h : pshape p = pshape q)
    (hq : q.defeated = (q.structures.isEmpty && q.units.isEmpty)) :
    p.defeated = (p.structures.isEmpty && p.units.isEmpty) := by
  unfold pshape at h
  simp only [Prod.mk.injEq] at h
  obtain ⟨hd, hs, hu⟩ := h
  rw [hd, hq, isEmpty_eq_of_length_eq hs, isEmpty_eq_of_length_eq hu]

theorem players_length_startConstruction (gs : GameState) (pIdx : Nat)
    (key : String) :
    ((gs.startStructureConstruction pIdx key).2).players.length = gs.players.length := by
  unfold GameState.startStructureConstruction
  dsimp only
  repeat' split
  all_goals try dsimp only
  all_goals first
    | rfl
    | exact players_length_modifyPlayer ..

theorem players_length_queueUnit (gs : GameState) (pIdx : Nat)
    (s : Structure) (key : String) :
    ((gs.queueUnitProduction pIdx s key).2).players.length = gs.players.length := by
  unfold GameState.queueUnitProduction
  dsimp only
  repeat' split
  all_goals first
    | rfl
    | exact players_length_modifyPlayer ..

theorem players_length_aiQueueUnitLoop (pIdx : Nat) (key : String)
    (l : List Structure) :
    ∀ gs : GameState,
    (aiQueueUnitLoop pIdx key gs l).players.length = gs.players.length := by
  induction l with
  | nil => exact fun gs => rfl
  | cons s rest ih =>
    intro gs
    unfold aiQueueUnitLoop
    dsimp only
    repeat' split
    all_goals first
      | exact ih gs
      | exact players_length_queueUnit ..
      | exact (ih _).trans (players_length_queueUnit ..)

theorem players_length_aiQueueUnit (gs : GameState) (pIdx : Nat) (key : String) :
    (gs.aiQueueUnit pIdx key).players.length = gs.players.length := by
  unfold GameState.aiQueueUnit
  dsimp only
  split
  · rfl
  · exact players_length_aiQueueUnitLoop ..

theorem players_length_chooseCombatUnitLoop (pIdx : Nat) (n : Nat) :
    ∀ gs : GameState,
    ((chooseCombatUnitLoop pIdx gs n).2).players.length = gs.players.length := by
  induction n with
  | zero => exact fun gs => rfl
  | succ n ih =>
    intro gs
    unfold chooseCombatUnitLoop
    dsimp only
    repeat' split
    all_goals first
      | exact players_length_modifyPlayer ..
      | exact (ih _).trans (players_length_modifyPlayer ..)

theorem players_length_attemptTraining (gs : GameState) (pIdx : Nat) :
    (gs.attemptTraining pIdx).players.length = gs.players.length := by
  unfold GameState.attemptTraining
  dsimp only
  repeat' split
  all_goals first
    | exact players_length_aiQueueUnit ..
    | exact players_length_chooseCombatUnitLoop ..
    | exact (players_length_aiQueueUnit ..).trans (players_length_chooseCombatUnitLoop ..)

theorem players_length_attemptConstructionLoop (pIdx : Nat)
    (l : List (String × Nat)) :
    ∀ gs : GameState,
    (attemptConstructionLoop pIdx gs l).players.length = gs.players.length := by
  induction l with
  | nil => exact fun gs => rfl
  | cons e rest ih =>
    intro gs
    unfold attemptConstructionLoop
    dsimp only
    repeat' split
    all_goals first
      | exact ih gs
      | exact players_length_startConstruction ..
      | exact (ih _).trans (players_length_startConstruction ..)

theorem players_length_attemptConstruction (gs : GameState) (pIdx : Nat) :
    (gs.attemptConstruction pIdx).players.length = gs.players.length :=
  players_length_attemptConstructionLoop ..

theorem players_length_chooseAttackTarget (gs : GameState) (pIdx : Nat) :
    ((gs.chooseAttackTarget pIdx).2).players.length = gs.players.length := by
  unfold GameState.chooseAttackTarget
  dsimp only
  repeat' split
  all_goals rfl

theorem players_length_aiUpdate (gs : GameState) (pIdx : Nat) (dt : ℚ) :
    (gs.aiUpdate pIdx dt).players.length = gs.players.length := by
  unfold GameState.aiUpdate
  dsimp only
  repeat' split
  all_goals simp only [players_length_modifyPlayer, players_length_attemptConstruction,
    players_length_attemptTraining, players_length_chooseAttackTarget,
    players_length_aiQueueUnit]

theorem updateStructuresPhase_length (gs : GameState) (pIdx : Nat) (dt : ℚ) :
    (gs.updateStructuresPhase pIdx dt).players.length = gs.players.length :=
  (updateStructuresPhase_preserve gs pIdx dt (pIdx + 1) (by omega)).2

theorem tickPhase_length (sqrtA : ℚ → ℚ) (dt : ℚ) (gs : GameState) (i : Nat) :
    (tickPhase sqrtA dt gs i).players.length = gs.players.length := by
  unfold tickPhase
  exact (refreshPlayerState_length ..).trans
    (((shapeEq_ne_updateUnitsPhase ..).1).trans (updateStructuresPhase_length ..))

theorem tickPhase_pshape_ne (sqrtA : ℚ → ℚ) (dt : ℚ) (gs : GameState) (i k : Nat)
    (hk : k ≠ i) :
    pshape ((tickPhase sqrtA dt gs i).player k) = pshape (gs.player k) := by
  unfold tickPhase
  rw [refreshPlayerState_player_ne _ _ _ hk]
  refine ((shapeEq_ne_updateUnitsPhase ..).2 k hk).trans ?_
  rw [(updateStructuresPhase_preserve gs i dt k hk).1]

theorem tickPhase_defeated (sqrtA : ℚ → ℚ) (dt : ℚ) (gs : GameState) (i : Nat)
    (h : i < gs.players.length) :
    ((tickPhase sqrtA dt gs i).player i).defeated =
      (((tickPhase sqrtA dt gs i).player i).structures.isEmpty &&
       ((tickPhase sqrtA dt gs i).player i).units.isEmpty) := by
  unfold tickPhase
  apply refreshPlayerState_defeated
  rw [(shapeEq_ne_updateUnitsPhase ..).1, updateStructuresPhase_length ..]
  exact h

theorem tickFold_invariant (sqrtA : ℚ → ℚ) (dt : ℚ) :
    ∀ (m : Nat) (gs : GameState),
    ((List.range m).foldl (tickPhase sqrtA dt) gs).players.length = gs.players.length ∧
    ∀ k, k < m → k < gs.players.length →
      (((List.range m).foldl (tickPhase sqrtA dt) gs).player k).defeated =
        ((((List.range m).foldl (tickPhase sqrtA dt) gs).player k).structures.isEmpty &&
         (((List.range m).foldl (tickPhase sqrtA dt) gs).player k).units.isEmpty) := by
  intro m
  induction m with
  | zero => exact fun gs => ⟨rfl, fun k hk _ => absurd hk (by omega)⟩
  | succ m ih =>
    intro gs
    obtain ⟨ihl, ihp⟩ := ih gs
    rw [List.range_succ]
    simp only [List.foldl_append, List.foldl_cons, List.foldl_nil]
    constructor
    · exact (tickPhase_length ..).trans ihl
    · intro k hk hkgs
      rcases eq_or_ne k m with rfl | hne
      · exact tickPhase_defeated sqrtA dt _ k (by rw [ihl]; exact hkgs)
      · have hkm : k < m := by omega
        exact defeat_flag_of_pshape_eq (tickPhase_pshape_ne sqrtA dt _ m k hne)
          (ihp k hkm hkgs)

theorem players_length_aiFold (dt : ℚ) (l : List Nat) :
    ∀ gs : GameState,
    ((l.foldl (fun (g : GameState) i => g.aiUpdate i dt) gs)).players.length =
      gs.players.length := by
  induction l with
  | nil => exact fun gs => rfl
  | cons i rest ih =>
    intro gs
    rw [List.foldl_cons]
    exact (ih _).trans (players_length_aiUpdate ..)

theorem players_checkVictory (gs : GameState) :
    gs.checkVictory.players = gs.players := by
  unfold GameState.checkVictory
  repeat' split
  all_goals rfl

theorem player_congr {a b : GameState} (h : a.players = b.players) (k : Nat) :
    a.player k = b.player k := by
  unfold GameState.player
  rw [h]

theorem updateGame_eq (sqrtA : ℚ → ℚ) (gs : GameState) (dt : ℚ)
    (hw : gs.winner_id = none) :
    updateGame sqrtA gs dt =
      ((List.range gs.players.length).foldl (tickPhase sqrtA dt)
        ((List.range gs.players.length).foldl
          (fun (g : GameState) i => g.aiUpdate i dt)
          { gs with elapsed_time := gs.elapsed_time + dt })).cleanupResources.checkVictory := by
  unfold updateGame
  rw [hw]
  rfl

theorem updateGame_defeat_invariant (sqrtA : ℚ → ℚ) (gs : GameState) (dt : ℚ)
    (hw : gs.winner_id = none) :
    ∀ k, k < (updateGame sqrtA gs dt).players.length →
      ((updateGame sqrtA gs dt).player k).defeated =
        (((updateGame sqrtA gs dt).player k).structures.isEmpty &&
         ((updateGame sqrtA gs dt).player k).units.isEmpty) := by
  intro k hk
  rw [updateGame_eq sqrtA gs dt hw] at hk ⊢
  set gsai := (List.range gs.players.length).foldl
    (fun (g : GameState) i => g.aiUpdate i dt)
    { gs with elapsed_time := gs.elapsed_time + dt } with hgsai
  set gstick := (List.range gs.players.length).foldl (tickPhase sqrtA dt) gsai
    with hgstick
  have hplayers : gstick.cleanupResources.checkVictory.players = gstick.players :=
    players_checkVictory _
  have hple := player_congr hplayers k
  rw [hple]
  have hailen : gsai.players.length = gs.players.length := players_length_aiFold ..
  obtain ⟨htl, htp⟩ := tickFold_invariant sqrtA dt gs.players.length gsai
  have hk2 : k < gstick.players.length := by rw [hplayers] at hk; exact hk
  apply htp
  · rw [← hailen, ← htl]
    exact hk2
  · rw [← htl]
    exact hk2

section RatDecideSeven

attribute [local semireducible] Rat.add Rat.mul Rat.inv Rat.sub

/-- Counterexample to C7 as stated: two factions, each exactly one HQ and
no units, faction 0's HQ health externally set to 0 — but faction 0
enters the tick with its default 600 resources.  Its controller's build
timer fires before the cleanup phase, a refinery goes up, and the
refresh then finds a non-empty (alive) structure list: after `update`
faction 0 is *not* defeated and no winner is declared. -/
theorem c7_counterexample :
    (hqScenario 600 600).winner_id = none ∧
    ((hqScenario 600 600).player 0).units = [] ∧
    ((hqScenario 600 600).player 1).units = [] ∧
    (((hqScenario 600 600).player 0).structures.map
      fun s => (s.definition.key, s.health)) = [("hq", 0)] ∧
    (((hqScenario 600 600).player 1).structures.map
      fun s => (s.definition.key, s.health)) = [("hq", 900)] ∧
    ((updateGame sqrt0 (hqScenario 600 600) (1/10)).player 0).defeated = false ∧
    (updateGame sqrt0 (hqScenario 600 600) (1/10)).winner_id = none := by
  decide

/-- **C7** (amended).  After any tick started with no winner, every
faction's `defeated` flag equals "its structure list is empty and its
unit list is empty" (the per-faction refresh sets the flag from the
post-filter lists, and later factions' phases mutate but never insert or
remove another faction's entities).  The spec's concrete two-HQ scenario
holds once faction 0 also cannot afford any wishlist structure (here 100
< 180, the cheapest build): the dead HQ is swept, nothing replaces it,
faction 0 is defeated and faction 1 wins. -/
theorem c7_defeat_flag_invariant (sqrtA : ℚ → ℚ) (gs : GameState) (dt : ℚ)
    (hw : gs.winner_id = none) :
    (∀ k, k < (updateGame sqrtA gs dt).players.length →
      ((updateGame sqrtA gs dt).player k).defeated =
        (((updateGame sqrtA gs dt).player k).structures.isEmpty &&
         ((updateGame sqrtA gs dt).player k).units.isEmpty)) ∧
    (((updateGame sqrt0 (hqScenario 100 100) (1/10)).player 0).defeated = true ∧
     (updateGame sqrt0 (hqScenario 100 100) (1/10)).winner_id = some 1) :=
  ⟨updateGame_defeat_invariant sqrtA gs dt hw, by decide, by decide⟩

/-- Concrete instance of `c7_defeat_flag_invariant`. -/
theorem c7_defeat_flag_invariant_witness :
    (hqScenario 100 100).winner_id = none ∧
    ((∀ k, k < (updateGame sqrt0 (hqScenario 100 100) (1/10)).players.length →
      ((updateGame sqrt0 (hqScenario 100 100) (1/10)).player k).defeated =
        (((updateGame sqrt0 (hqScenario 100 100) (1/10)).player k).structures.isEmpty &&
         ((updateGame sqrt0 (hqScenario 100 100) (1/10)).player k).units.isEmpty)) ∧
    (((updateGame sqrt0 (hqScenario 100 100) (1/10)).player 0).defeated = true ∧
     (updateGame sqrt0 (hqScenario 100 100) (1/10)).winner_id = some 1)) :=
  ⟨rfl, c7_defeat_flag_invariant sqrt0 (hqScenario 100 100) (1/10) rfl⟩

end RatDecideSeven

/-! ### Pathfinder verification: comparator and heap lemmas. -/

theorem cmpPos_eq_iff {a b : TilePos} : cmpPos a b = Ordering.eq ↔ a = b := by
  rcases a with ⟨a1, a2⟩
  rcases b with ⟨b1, b2⟩
  unfold cmpPos
  simp only [compareLex, compareOn, Ordering.then]
  rcases h1 : compare a1 b1 <;> rcases h2 : compare a2 b2 <;>
    simp_all [compare_eq_iff_eq, compare_lt_iff_lt, compare_gt_iff_gt, Prod.mk.injEq] <;>
    omega

theorem find?_insert_pos {β : Type} (t : Batteries.RBMap TilePos β cmpPos)
    (k k' : TilePos) (v : β) :
    (t.insert k v).find? k' = if k' = k then some v else t.find? k' := by
  rw [Batteries.RBMap.find?_insert]
  rcases eq_or_ne k' k with rfl | h
  · rw [if_pos (cmpPos_eq_iff.mpr rfl), if_pos rfl]
  · rw [if_neg (fun hc => h (cmpPos_eq_iff.mp hc)), if_neg h]

theorem qpLe_total (a b : QP) : qpLe a b = true ∨ qpLe b a = true := by
  unfold qpLe
  rcases a with ⟨fa, xa, ya⟩
  rcases b with ⟨fb, xb, yb⟩
  dsimp only
  simp only [Bool.or_eq_true, Bool.and_eq_true, decide_eq_true_eq]
  rcases lt_trichotomy fa fb with h | h | h
  · exact Or.inl (Or.inl h)
  · rcases lt_trichotomy xa xb with h2 | h2 | h2
    · exact Or.inl (Or.inr ⟨h, Or.inl h2⟩)
    · rcases le_total ya yb with h3 | h3
      · exact Or.inl (Or.inr ⟨h, Or.inr ⟨h2, h3⟩⟩)
      · exact Or.inr (Or.inr ⟨h.symm, Or.inr ⟨h2.symm, h3⟩⟩)
    · exact Or.inr (Or.inr ⟨h.symm, Or.inl h2⟩)
  · exact Or.inr (Or.inl h)

theorem mem_heapPush {l : List QP} {e x : QP} :
    x ∈ heapPush l e ↔ x ∈ l ∨ x = e := by
  induction l with
  | nil => simp [heapPush]
  | cons h t ih =>
    unfold heapPush
    split
    · constructor
      · intro hx
        rcases List.mem_cons.mp hx with rfl | hx
        · exact Or.inr rfl
        · exact Or.inl hx
      · rintro (hx | rfl)
        · exact List.mem_cons_of_mem _ hx
        · exact List.mem_cons_self ..
    · constructor
      · intro hx
        rcases List.mem_cons.mp hx with rfl | hx
        · exact Or.inl (List.mem_cons_self ..)
        · rcases ih.mp hx with hx | rfl
          · exact Or.inl (List.mem_cons_of_mem _ hx)
          · exact Or.inr rfl
      · rintro (hx | rfl)
        · rcases List.mem_cons.mp hx with rfl | hx
          · exact List.mem_cons_self ..
          · exact List.mem_cons_of_mem _ (ih.mpr (Or.inl hx))
        · exact List.mem_cons_of_mem _ (ih.mpr (Or.inr rfl))

theorem qpLe_trans {a b c : QP} (h1 : qpLe a b = true) (h2 : qpLe b c = true) :
    qpLe a c = true := by
  unfold qpLe at *
  simp only [Bool.or_eq_true, Bool.and_eq_true, decide_eq_true_eq] at h1 h2 ⊢
  rcases h1 with h1 | ⟨e1, h1⟩ <;> rcases h2 with h2 | ⟨e2, h2⟩
  · exact Or.inl (h1.trans h2)
  · exact Or.inl (e2 ▸ h1)
  · exact Or.inl (e1 ▸ h2)
  · refine Or.inr ⟨e1.trans e2, ?_⟩
    rcases h1 with h1 | ⟨f1, h1⟩ <;> rcases h2 with h2 | ⟨f2, h2⟩
    · exact Or.inl (h1.trans h2)
    · exact Or.inl (f2 ▸ h1)
    · exact Or.inl (f1 ▸ h2)
    · exact Or.inr ⟨f1.trans f2, h1.trans h2⟩

theorem sorted_heapPush {l : List QP} {e : QP}
    (h : l.Pairwise fun a b => qpLe a b = true) :
    (heapPush l e).Pairwise fun a b => qpLe a b = true := by
  induction l with
  | nil => simp [heapPush]
  | cons hd t ih =>
    unfold heapPush
    obtain ⟨hhd, ht⟩ := List.pairwise_cons.mp h
    split
    · rename_i hle
      refine List.pairwise_cons.mpr ⟨?_, h⟩
      intro b hb
      rcases List.mem_cons.mp hb with rfl | hb
      · exact hle
      · exact qpLe_trans hle (hhd b hb)
    · rename_i hne
      refine List.pairwise_cons.mpr ⟨?_, ih ht⟩
      intro b hb
      rcases mem_heapPush.mp hb with hb | rfl
      · exact hhd b hb
      · rcases qpLe_total hd b with he | he
        · exact he
        · exact absurd he (by simpa using hne)

theorem processNeighbor_visited (m : GameMap) (goal current : TilePos)
    (s : AStarState) (nb : TilePos) :
    (processNeighbor m goal current s nb).visited = s.visited := by
  unfold processNeighbor
  rcases s with ⟨o, c, g, f, v, d, t⟩
  dsimp only
  repeat' split
  all_goals rfl

theorem foldl_processNeighbor_visited (m : GameMap) (goal current : TilePos)
    (l : List TilePos) :
    ∀ s : AStarState,
    (l.foldl (processNeighbor m goal current) s).visited = s.visited := by
  induction l with
  | nil => exact fun s => rfl
  | cons nb rest ih =>
    intro s
    rw [List.foldl_cons]
    exact (ih _).trans (processNeighbor_visited ..)

theorem aStarLoop_shape (m : GameMap) (goal : TilePos) (maxIter : Nat) :
    ∀ (fuel : Nat) (st : AStarState),
    (∃ p, aStarLoop m goal maxIter fuel st = (some p, ExitReason.goalPopped)) ∨
    ((aStarLoop m goal maxIter fuel st).1 = none ∧
      ((aStarLoop m goal maxIter fuel st).2 = ExitReason.budget ∨
       (aStarLoop m goal maxIter fuel st).2 = ExitReason.exhausted ∨
       (aStarLoop m goal maxIter fuel st).2 = ExitReason.fuelOut)) := by
  intro fuel
  induction fuel with
  | zero =>
    intro st
    exact Or.inr ⟨rfl, Or.inr (Or.inr rfl)⟩
  | succ fuel ih =>
    rintro ⟨openL, came, g, f, visitedOld, dom, trace⟩
    unfold aStarLoop
    dsimp only
    rcases openL with _ | ⟨⟨σ, current⟩, rest⟩
    · exact Or.inr ⟨rfl, Or.inr (Or.inl rfl)⟩
    · dsimp only
      split
      · exact Or.inl ⟨_, rfl⟩
      · split
        · exact Or.inr ⟨rfl, Or.inl rfl⟩
        · exact ih _

theorem aStarLoop_no_fuelOut (m : GameMap) (goal : TilePos) (maxIter : Nat) :
    ∀ (fuel : Nat) (st : AStarState),
    st.visited ≤ maxIter → maxIter + 1 < st.visited + fuel →
    (aStarLoop m goal maxIter fuel st).2 ≠ ExitReason.fuelOut := by
  intro fuel
  induction fuel with
  | zero =>
    intro st h1 h2
    omega
  | succ fuel ih =>
    rintro ⟨openL, came, g, f, visitedOld, dom, trace⟩ h1 h2
    unfold aStarLoop
    dsimp only
    rcases openL with _ | ⟨⟨σ, current⟩, rest⟩
    · simp
    · dsimp only
      split
      · simp
      · split
        · simp
        · rename_i hbud
          apply ih
          · rw [foldl_processNeighbor_visited]
            dsimp only at hbud ⊢
            omega
          · rw [foldl_processNeighbor_visited]
            dsimp only at h2 ⊢
            omega

theorem aStarWithEx_shape (m : GameMap) (s g : TilePos) (mi : Nat) :
    (∃ p, aStarWithEx m s g mi = (some p, ExitReason.goalPopped)) ∨
    ((aStarWithEx m s g mi).1 = none ∧
      ((aStarWithEx m s g mi).2 = ExitReason.budget ∨
       (aStarWithEx m s g mi).2 = ExitReason.exhausted ∨
       (aStarWithEx m s g mi).2 = ExitReason.fuelOut)) := by
  unfold aStarWithEx
  split
  · exact Or.inl ⟨[s], rfl⟩
  · exact aStarLoop_shape ..

theorem aStarWithEx_no_fuelOut (m : GameMap) (s g : TilePos) (mi : Nat) :
    (aStarWithEx m s g mi).2 ≠ ExitReason.fuelOut := by
  unfold aStarWithEx
  split
  · simp
  · exact aStarLoop_no_fuelOut m g mi (mi + 2) (aStarInit s g)
      (by simp [aStarInit]) (by simp [aStarInit])

theorem aStar_none_iff_reason (m : GameMap) (s g : TilePos) (mi : Nat) :
    aStarWith m s g mi = none ↔
      ((aStarWithEx m s g mi).2 = ExitReason.budget ∨
       (aStarWithEx m s g mi).2 = ExitReason.exhausted) := by
  unfold aStarWith
  rcases aStarWithEx_shape m s g mi with ⟨p, hp⟩ | ⟨h1, h2⟩
  · rw [hp]
    simp
  · rw [h1]
    rcases h2 with h2 | h2 | h2
    · simp [h2]
    · simp [h2]
    · exact absurd h2 (aStarWithEx_no_fuelOut m s g mi)

theorem aStar_self (m : GameMap) (s : TilePos) : aStar m s s = some [s] := by
  unfold aStar aStarWith aStarWithEx
  rw [if_pos rfl]

theorem adj4_symm {a b : TilePos} (h : adj4 a b) : adj4 b a := by
  unfold adj4 at h ⊢
  omega

theorem mem_neighbors {m : GameMap} {cur nb : TilePos}
    (h : nb ∈ m.neighbors cur) :
    m.inBounds nb = true ∧ m.isWalkable nb = true ∧ adj4 nb cur := by
  unfold GameMap.neighbors at h
  simp only [List.mem_filterMap, List.mem_cons, List.mem_singleton] at h
  obtain ⟨d, hd, hnb⟩ := h
  try dsimp only at hnb
  split at hnb
  · rename_i hcond
    cases hnb
    simp only [Bool.and_eq_true] at hcond
    refine ⟨hcond.1, hcond.2, ?_⟩
    unfold adj4
    rcases hd with rfl | rfl | rfl | rfl | h
    · simp
    · simp
    · simp
    · simp
    · exact absurd h (List.not_mem_nil d)
  · cases hnb

theorem cameAdj_processNeighbor {m : GameMap} {goal current : TilePos}
    {st : AStarState} {nb : TilePos}
    (hinv : CameAdj m st.cameFrom) (hnb : nb ∈ m.neighbors current) :
    CameAdj m (processNeighbor m goal current st nb).cameFrom := by
  obtain ⟨hb, hw, hadj⟩ := mem_neighbors hnb
  unfold processNeighbor
  rcases st with ⟨o, c, g, f, v, d, t⟩
  dsimp only
  try dsimp only at hinv
  have hins : CameAdj m (c.insert nb current) := by
    intro k v hk
    rw [find?_insert_pos] at hk
    split at hk
    · rename_i hkeq
      cases hk
      subst hkeq
      exact ⟨hw, hadj⟩
    · exact hinv k v hk
  repeat' split
  all_goals first
    | exact hins
    | exact hinv

theorem cameAdj_fold {m : GameMap} {goal current : TilePos} (l : List TilePos)
    (hl : ∀ nb ∈ l, nb ∈ m.neighbors current) :
    ∀ st : AStarState, CameAdj m st.cameFrom →
    CameAdj m ((l.foldl (processNeighbor m goal current) st)).cameFrom := by
  induction l with
  | nil => exact fun st h => h
  | cons nb rest ih =>
    intro st h
    rw [List.foldl_cons]
    exact ih (fun x hx => hl x (List.mem_cons_of_mem _ hx)) _
      (cameAdj_processNeighbor h (hl nb (List.mem_cons_self ..)))

theorem reconstruct_getLast (came : Batteries.RBMap TilePos TilePos cmpPos) :
    ∀ (fuel : Nat) (cur : TilePos),
    (reconstructPath came fuel cur).getLast? = some cur := by
  intro fuel
  induction fuel with
  | zero => intro cur; rfl
  | succ fuel ih =>
    intro cur
    unfold reconstructPath
    split
    · rfl
    · simp

theorem reconstruct_ne_nil (came : Batteries.RBMap TilePos TilePos cmpPos)
    (fuel : Nat) (cur : TilePos) : reconstructPath came fuel cur ≠ [] := by
  intro h
  have := reconstruct_getLast came fuel cur
  rw [h] at this
  cases this

theorem tail_append_singleton {α : Type} {l : List α} (h : l ≠ []) (a : α) :
    (l ++ [a]).tail = l.tail ++ [a] := by
  cases l
  · exact absurd rfl h
  · rfl

theorem reconstruct_adj_walk {m : GameMap}
    {came : Batteries.RBMap TilePos TilePos cmpPos} (hinv : CameAdj m came) :
    ∀ (fuel : Nat) (cur : TilePos),
    List.Chain' adj4 (reconstructPath came fuel cur) ∧
    ∀ c ∈ (reconstructPath came fuel cur).tail, m.isWalkable c = true := by
  intro fuel
  induction fuel with
  | zero =>
    intro cur
    exact ⟨List.chain'_singleton _, by simp [reconstructPath]⟩
  | succ fuel ih =>
    intro cur
    unfold reconstructPath
    rcases hc : came.find? cur with _ | prev
    · exact ⟨List.chain'_singleton _, by simp⟩
    · obtain ⟨ihc, ihw⟩ := ih prev
      obtain ⟨hwcur, hadj⟩ := hinv cur prev hc
      constructor
      · rw [List.chain'_append]
        refine ⟨ihc, List.chain'_singleton _, ?_⟩
        intro x hx y hy
        rw [reconstruct_getLast] at hx
        cases hx
        cases hy
        exact adj4_symm hadj
      · intro c hcmem
        rw [tail_append_singleton (reconstruct_ne_nil came fuel prev)] at hcmem
        rcases List.mem_append.mp hcmem with hcmem | hcmem
        · exact ihw c hcmem
        · rcases List.mem_singleton.mp hcmem with rfl
          exact hwcur

theorem aStarLoop_adj (m : GameMap) (goal : TilePos) (maxIter : Nat) :
    ∀ (fuel : Nat) (st : AStarState), CameAdj m st.cameFrom →
    ∀ p, (aStarLoop m goal maxIter fuel st).1 = some p →
    List.Chain' adj4 p ∧ (∀ c ∈ p.tail, m.isWalkable c = true) ∧
    p.getLast? = some goal := by
  intro fuel
  induction fuel with
  | zero =>
    intro st h p hp
    cases hp
  | succ fuel ih =>
    rintro ⟨openL, came, g, f, v, dom, trace⟩ hinv p hp
    unfold aStarLoop at hp
    dsimp only at hp
    rcases openL with _ | ⟨⟨σ, current⟩, rest⟩
    · cases hp
    · dsimp only at hp
      split at hp
      · rename_i hgoal
        subst hgoal
        simp only [Option.some.injEq] at hp
        subst hp
        obtain ⟨hchain, hwalk⟩ := reconstruct_adj_walk hinv (dom.length + 1) current
        exact ⟨hchain, hwalk, reconstruct_getLast ..⟩
      · split at hp
        · cases hp
        · exact ih ((m.neighbors current).foldl (processNeighbor m goal current)
              ⟨rest, came, g, f, v + 1, dom, current :: trace⟩)
            (cameAdj_fold (m.neighbors current) (fun x hx => hx)
              ⟨rest, came, g, f, v + 1, dom, current :: trace⟩ hinv) p hp

theorem aStar_path_adj (m : GameMap) (s g : TilePos) (mi : Nat) (p : List TilePos)
    (hp : aStarWith m s g mi = some p) :
    List.Chain' adj4 p ∧ (∀ c ∈ p.tail, m.isWalkable c = true) ∧
    p.getLast? = some g ∧ p ≠ [] := by
  have hlast : List.Chain' adj4 p ∧ (∀ c ∈ p.tail, m.isWalkable c = true) ∧
      p.getLast? = some g := by
    unfold aStarWith aStarWithEx at hp
    split at hp
    · rename_i hsg
      simp only [Option.some.injEq] at hp
      subst hp
      subst hsg
      exact ⟨List.chain'_singleton _, by simp, rfl⟩
    · refine aStarLoop_adj m g mi (mi + 2) (aStarInit s g) ?_ p hp
      intro k v hk
      cases hk
  refine ⟨hlast.1, hlast.2.1, hlast.2.2, ?_⟩
  intro hnil
  rw [hnil] at hlast
  cases hlast.2.2

theorem adj4_ne {a b : TilePos} (h : adj4 a b) : a ≠ b := by
  intro heq
  rw [heq] at h
  unfold adj4 at h
  omega

theorem AInv_processNeighbor {m : GameMap} {start goal current : TilePos}
    {st : AStarState} {nb : TilePos}
    (hpos : ∀ q : TilePos, 0 < m.movementCost q)
    (hinv : AInv m start st)
    (hcur : (st.gScore.find? current).isSome = true)
    (hcs : current = start ∨ (st.cameFrom.find? current).isSome = true) :
    AInv m start (processNeighbor m goal current st nb) := by
  obtain ⟨hkeys, hval, hnotstart, hheap, hgstart, hgnn, hstrict⟩ := hinv
  rcases st with ⟨o, c, g, f, v, d, t⟩
  dsimp only at hkeys hval hnotstart hheap hgstart hgnn hstrict hcur hcs ⊢
  obtain ⟨gc, hgc⟩ := Option.isSome_iff_exists.mp hcur
  have hgc0 : 0 ≤ gc := hgnn current gc hgc
  unfold processNeighbor
  dsimp only
  rw [hgc]
  dsimp only [Option.getD_some]
  have hupd : ∀ gOld? : Option ℚ, g.find? nb = gOld? →
      (gOld? = none ∨ ∃ gOld, gOld? = some gOld ∧
        gc + 1 / 2 * (m.movementCost nb + m.movementCost current) < gOld) →
      AInv m start
        ⟨heapPush o (gc + 1 / 2 * (m.movementCost nb + m.movementCost current) +
            heuristic nb goal, nb),
          c.insert nb current,
          g.insert nb (gc + 1 / 2 * (m.movementCost nb + m.movementCost current)),
          f.insert nb (gc + 1 / 2 * (m.movementCost nb + m.movementCost current) +
            heuristic nb goal),
          v, nb :: d, t⟩ := by
    intro gOld? hgOld hbr
    have hnbs : nb ≠ start := by
      intro heq
      rw [heq] at hgOld
      rw [hgstart] at hgOld
      rcases hbr with hbr | ⟨gOld, hbr, hlt⟩
      · rw [← hgOld] at hbr
        cases hbr
      · rw [← hgOld] at hbr
        cases hbr
        have h1 := hpos nb
        have h2 := hpos current
        linarith
    have hnbcur : current ≠ nb := by
      intro heq
      rw [← heq] at hgOld
      rw [hgc] at hgOld
      rcases hbr with hbr | ⟨gOld, hbr, hlt⟩
      · rw [← hgOld] at hbr
        cases hbr
      · rw [← hgOld] at hbr
        cases hbr
        have h1 := hpos nb
        have h2 := hpos current
        linarith
    constructor
    · intro k w hk
      dsimp only at hk ⊢
      rw [find?_insert_pos] at hk
      split at hk
      · rename_i hkeq
        subst hkeq
        exact List.mem_cons_self ..
      · exact List.mem_cons_of_mem _ (hkeys k w hk)
    · intro k w hk
      dsimp only at hk ⊢
      rw [find?_insert_pos] at hk
      rw [find?_insert_pos]
      split at hk
      · cases hk
        rcases hcs with rfl | hcs
        · exact Or.inl rfl
        · right
          split
          · simp
          · exact hcs
      · rcases hval k w hk with rfl | hw
        · exact Or.inl rfl
        · right
          split
          · simp
          · exact hw
    · dsimp only
      rw [find?_insert_pos, if_neg (fun hh => hnbs hh.symm)]
      exact hnotstart
    · intro e he
      dsimp only at he ⊢
      rcases mem_heapPush.mp he with he | rfl
      · rcases hheap e he with hes | hes
        · exact Or.inl hes
        · right
          rw [find?_insert_pos]
          split
          · simp
          · exact hes
      · right
        rw [find?_insert_pos, if_pos rfl]
        simp
    · dsimp only
      rw [find?_insert_pos, if_neg (fun hh => hnbs hh.symm)]
      exact hgstart
    · intro k w hk
      dsimp only at hk
      rw [find?_insert_pos] at hk
      split at hk
      · cases hk
        have h1 := hpos nb
        have h2 := hpos current
        linarith
      · exact hgnn k w hk
    · intro k w hk
      dsimp only at hk ⊢
      rw [find?_insert_pos] at hk
      rw [find?_insert_pos, find?_insert_pos]
      split at hk
      · rename_i hkeq
        cases hk
        rw [if_pos hkeq, if_neg hnbcur]
        refine ⟨_, gc, rfl, hgc, ?_⟩
        have h1 := hpos nb
        have h2 := hpos current
        linarith
      · rename_i hkne
        rw [if_neg hkne]
        obtain ⟨gk, gv, hgk, hgv, hlt⟩ := hstrict k w hk
        by_cases hwnb : w = nb
        · subst hwnb
          rw [if_pos rfl]
          refine ⟨gk, _, hgk, rfl, ?_⟩
          rcases hbr with hbr | ⟨gOld, hbr, hlt2⟩
          · rw [hgv] at hgOld
            rw [← hgOld] at hbr
            cases hbr
          · rw [hgv] at hgOld
            rw [← hgOld] at hbr
            cases hbr
            linarith
        · rw [if_neg hwnb]
          exact ⟨gk, gv, hgk, hgv, hlt⟩
  try dsimp only at hupd
  rcases hfind : g.find? nb with _ | gOld
  · exact hupd none hfind (Or.inl rfl)
  · dsimp only
    split
    · rename_i hlt
      exact hupd (some gOld) hfind (Or.inr ⟨gOld, rfl, hlt⟩)
    · exact ⟨hkeys, hval, hnotstart, hheap, hgstart, hgnn, hstrict⟩

theorem head?_append_of_ne_nil {α : Type} {l l2 : List α} (h : l ≠ []) :
    (l ++ l2).head? = l.head? := by
  cases l
  · exact absurd rfl h
  · rfl

/-- With strictly decreasing `g` along parent links, keys recorded in
`domL`, values leading back to `start`, and enough fuel, reconstruction
reaches `start`. -/
theorem reconstruct_head {came : Batteries.RBMap TilePos TilePos cmpPos}
    {g : Batteries.RBMap TilePos ℚ cmpPos} {domL : List TilePos} {start : TilePos}
    (hkeys : ∀ k v, came.find? k = some v → k ∈ domL)
    (hval : ∀ k v, came.find? k = some v →
      v = start ∨ (came.find? v).isSome = true)
    (hstrict : ∀ k v, came.find? k = some v →
      ∃ gk gv, g.find? k = some gk ∧ g.find? v = some gv ∧ gv < gk) :
    ∀ (fuel : Nat) (bound : List TilePos) (cur : TilePos) (gcur : ℚ),
    bound.Nodup →
    g.find? cur = some gcur →
    (∀ k v gk, came.find? k = some v → g.find? k = some gk → gk < gcur →
      k ∈ bound) →
    bound.length < fuel →
    (reconstructPath came fuel cur).head? = some start ∨
      (came.find? cur = none ∧ reconstructPath came fuel cur = [cur]) := by
  intro fuel
  induction fuel with
  | zero =>
    intro bound cur gcur hnd hg hb hlt
    omega
  | succ fuel ih =>
    intro bound cur gcur hnd hg hb hlt
    unfold reconstructPath
    rcases hc : came.find? cur with _ | prev
    · exact Or.inr ⟨rfl, rfl⟩
    · left
      obtain ⟨gk, gprev, hgk, hgprev, hdec⟩ := hstrict cur prev hc
      rw [hg] at hgk
      cases hgk
      rw [head?_append_of_ne_nil (reconstruct_ne_nil came fuel prev)]
      rcases hcp : came.find? prev with _ | prev2
      · -- `prev` is terminal: one unfold of the prefix gives `[prev]`
        have hterm : (reconstructPath came fuel prev).head? = some prev := by
          cases fuel with
          | zero => rfl
          | succ fuel2 =>
            unfold reconstructPath
            rw [hcp]
            rfl
        rw [hterm]
        rcases hval cur prev hc with rfl | hsome
        · rfl
        · rw [hcp] at hsome
          cases hsome
      · -- `prev` is itself a key: recurse with a strictly smaller bound
        have hprevmem : prev ∈ bound :=
          hb prev prev2 gprev hcp hgprev hdec
        have hres := ih (bound.erase prev) prev gprev (hnd.erase prev) hgprev ?_ ?_
        · rcases hres with hres | ⟨hnone, _⟩
          · exact hres
          · rw [hcp] at hnone
            cases hnone
        · intro k v gk2 hk hgk2 hlt2
          have hkb : k ∈ bound := hb k v gk2 hk hgk2 (lt_trans hlt2 hdec)
          have hkne : k ≠ prev := by
            intro heq
            rw [heq] at hgk2
            rw [hgk2] at hgprev
            cases hgprev
            exact absurd hlt2 (lt_irrefl _)
          exact (List.mem_erase_of_ne hkne).mpr hkb
        · have hlen := List.length_erase_of_mem hprevmem
          have hpos2 : bound ≠ [] := List.ne_nil_of_mem hprevmem
          have hpos3 : 0 < bound.length := List.length_pos.mpr hpos2
          omega

theorem processNeighbor_gScore_ne {m : GameMap} {goal current : TilePos}
    {st : AStarState} {nb x : TilePos} (hx : x ≠ nb) :
    (processNeighbor m goal current st nb).gScore.find? x = st.gScore.find? x := by
  unfold processNeighbor
  rcases st with ⟨o, c, g, f, v, d, t⟩
  dsimp only
  repeat' split
  all_goals try rfl
  all_goals dsimp only
  all_goals rw [find?_insert_pos, if_neg hx]

theorem processNeighbor_came_mono {m : GameMap} {goal current : TilePos}
    {st : AStarState} {nb x : TilePos}
    (hx : (st.cameFrom.find? x).isSome = true) :
    ((processNeighbor m goal current st nb).cameFrom.find? x).isSome = true := by
  unfold processNeighbor
  rcases st with ⟨o, c, g, f, v, d, t⟩
  dsimp only at hx ⊢
  repeat' split
  all_goals try exact hx
  all_goals dsimp only
  all_goals rw [find?_insert_pos]
  all_goals split
  all_goals simp [hx]

theorem AInv_fold {m : GameMap} {start goal current : TilePos}
    (hpos : ∀ q : TilePos, 0 < m.movementCost q) (l : List TilePos)
    (hl : ∀ nb ∈ l, nb ≠ current) :
    ∀ st : AStarState, AInv m start st →
    (st.gScore.find? current).isSome = true →
    (current = start ∨ (st.cameFrom.find? current).isSome = true) →
    AInv m start (l.foldl (processNeighbor m goal current) st) := by
  induction l with
  | nil => exact fun st h _ _ => h
  | cons nb rest ih =>
    intro st hinv hcur hcs
    rw [List.foldl_cons]
    refine ih (fun x hx => hl x (List.mem_cons_of_mem _ hx)) _
      (AInv_processNeighbor hpos hinv hcur hcs) ?_ ?_
    · rw [processNeighbor_gScore_ne
        (fun heq => hl nb (List.mem_cons_self ..) heq.symm)]
      exact hcur
    · rcases hcs with hcs | hcs
      · exact Or.inl hcs
      · exact Or.inr (processNeighbor_came_mono hcs)

theorem aStarLoop_head (m : GameMap) (start goal : TilePos) (maxIter : Nat)
    (hpos : ∀ q : TilePos, 0 < m.movementCost q) (hne : start ≠ goal) :
    ∀ (fuel : Nat) (st : AStarState), AInv m start st →
    ∀ p, (aStarLoop m goal maxIter fuel st).1 = some p → p.head? = some start := by
  intro fuel
  induction fuel with
  | zero =>
    intro st h p hp
    cases hp
  | succ fuel ih =>
    rintro ⟨openL, came, g, f, v, dom, trace⟩ hinv p hp
    unfold aStarLoop at hp
    dsimp only at hp
    rcases openL with _ | ⟨⟨σ, current⟩, rest⟩
    · cases hp
    · dsimp only at hp
      split at hp
      · rename_i hgoal
        subst hgoal
        simp only [Option.some.injEq] at hp
        subst hp
        -- the popped goal entry is a `came_from` key, so reconstruction
        -- walks all the way back to `start`
        have hkey : (came.find? current).isSome = true := by
          rcases hinv.heap (σ, current) (List.mem_cons_self ..) with hs | hs
          · exact absurd hs.symm hne
          · exact hs
        obtain ⟨prev, hprev⟩ := Option.isSome_iff_exists.mp hkey
        obtain ⟨gcur, gprev, hgcur, hgprev, hdec⟩ := hinv.strict current prev hprev
        have hres := reconstruct_head
          (fun k w hk => List.mem_dedup.mpr (hinv.keys k w hk))
          hinv.val hinv.strict (dom.length + 1) dom.dedup current gcur
          (List.nodup_dedup dom) hgcur
          (fun k w gk hk _ _ => List.mem_dedup.mpr (hinv.keys k w hk)) ?_
        · rcases hres with hres | ⟨hnone, _⟩
          · exact hres
          · rw [hprev] at hnone
            cases hnone
        · have := (List.dedup_sublist dom).length_le
          omega
      · split at hp
        · cases hp
        · rename_i hbudget
          refine ih ((m.neighbors current).foldl (processNeighbor m goal current)
              ⟨rest, came, g, f, v + 1, dom, current :: trace⟩) ?_ p hp
          have hpop : AInv m start
              (⟨rest, came, g, f, v + 1, dom, current :: trace⟩ : AStarState) :=
            ⟨hinv.keys, hinv.val, hinv.notStart,
              fun e he => hinv.heap e (List.mem_cons_of_mem _ he),
              hinv.gStart, hinv.gNonneg, hinv.strict⟩
          have hcs : current = start ∨ (came.find? current).isSome = true := by
            rcases hinv.heap (σ, current) (List.mem_cons_self ..) with hs | hs
            · exact Or.inl hs
            · exact Or.inr hs
          have hcur : (g.find? current).isSome = true := by
            rcases hcs with rfl | hs
            · rw [hinv.gStart]
              rfl
            · obtain ⟨w, hw⟩ := Option.isSome_iff_exists.mp hs
              obtain ⟨gk, gw, hgk, _, _⟩ := hinv.strict current w hw
              rw [hgk]
              rfl
          exact AInv_fold hpos (m.neighbors current)
            (fun nb hnb => adj4_ne (mem_neighbors hnb).2.2) _ hpop hcur hcs

theorem AInv_init (m : GameMap) (start goal : TilePos) :
    AInv m start (aStarInit start goal) := by
  refine ⟨?_, ?_, ?_, ?_, ?_, ?_, ?_⟩
  · intro k v hk
    cases hk
  · intro k v hk
    cases hk
  · rfl
  · intro e he
    rcases List.mem_singleton.mp he with rfl
    exact Or.inl rfl
  · dsimp only [aStarInit]
    rw [find?_insert_pos, if_pos rfl]
  · intro k v hk
    dsimp only [aStarInit] at hk
    rw [find?_insert_pos] at hk
    split at hk
    · cases hk
      exact le_refl 0
    · cases hk
  · intro k v hk
    cases hk

theorem aStar_path_head (m : GameMap) (s g : TilePos) (mi : Nat)
    (p : List TilePos) (hpos : ∀ q : TilePos, 0 < m.movementCost q)
    (hp : aStarWith m s g mi = some p) : p.head? = some s := by
  unfold aStarWith aStarWithEx at hp
  split at hp
  · rename_i hsg
    simp only [Option.some.injEq] at hp
    subst hp
    rfl
  · rename_i hsg
    exact aStarLoop_head m s g mi hpos hsg (mi + 2) (aStarInit s g)
      (AInv_init m s g) p hp

theorem walkToward_ne_nil (a b : Int) : walkToward a b ≠ [] := by
  unfold walkToward
  simp

theorem walkToward_head (a b : Int) : (walkToward a b).head? = some a := by
  unfold walkToward
  rw [List.head?_map, List.range_succ_eq_map]
  try dsimp only [List.head?, Option.map_some]
  split_ifs <;> norm_num

theorem walkToward_last (a b : Int) : (walkToward a b).getLast? = some b := by
  unfold walkToward
  rw [List.getLast?_map, List.range_succ, List.getLast?_concat]
  split_ifs with h
  · exact congrArg some (show a + (((b - a).natAbs : Nat) : Int) = b by omega)
  · exact congrArg some (show a - (((b - a).natAbs : Nat) : Int) = b by omega)

theorem walkToward_chain (a b : Int) :
    List.Chain' (fun x y => (x - y).natAbs = 1) (walkToward a b) := by
  unfold walkToward
  rw [List.chain'_map, List.chain'_range_succ]
  intro i hi
  split_ifs <;> omega

theorem walkToward_mem_between {a b x : Int} (h : x ∈ walkToward a b) :
    min a b ≤ x ∧ x ≤ max a b := by
  unfold walkToward at h
  obtain ⟨i, hi, hx⟩ := List.mem_map.mp h
  have hi2 := List.mem_range.mp hi
  split_ifs at hx <;> omega

theorem lPath_head (s e : TilePos) : (lPath s e).head? = some s := by
  unfold lPath
  rw [head?_append_of_ne_nil (by simp [walkToward_ne_nil])]
  rw [List.head?_map, walkToward_head]
  rfl

theorem lPath_last (s e : TilePos) : (lPath s e).getLast? = some e := by
  unfold lPath
  rcases hw : walkToward s.2 e.2 with _ | ⟨w0, ws⟩
  · exact absurd hw (walkToward_ne_nil s.2 e.2)
  · have hhead : w0 = s.2 := by
      have := walkToward_head s.2 e.2
      rw [hw] at this
      cases this
      rfl
    rcases ws with _ | ⟨w1, ws2⟩
    · -- single-cell vertical leg: `s.2 = e.2`
      have hlast : w0 = e.2 := by
        have := walkToward_last s.2 e.2
        rw [hw] at this
        cases this
        rfl
      have hse : s.2 = e.2 := by rw [← hhead, hlast]
      try dsimp only [List.map_cons, List.map_nil, List.tail_cons]
      rw [List.append_nil, List.getLast?_map, walkToward_last]
      exact congrArg some (show ((e.1, s.2) : TilePos) = e by rw [hse])
    · try dsimp only [List.map_cons, List.tail_cons]
      rw [List.getLast?_append_of_ne_nil _ (by simp)]
      have hlast := walkToward_last s.2 e.2
      rw [hw] at hlast
      have h3 : (w1 :: ws2).getLast? = some e.2 := by
        rw [← hlast]
        rfl
      have h2 : (((e.1, w1) : TilePos) ::
          (ws2.map fun y => ((e.1, y) : TilePos))).getLast? = some (e.1, e.2) := by
        rw [show (((e.1, w1) : TilePos) :: (ws2.map fun y => ((e.1, y) : TilePos)))
            = (w1 :: ws2).map (fun y => ((e.1, y) : TilePos)) from rfl]
        rw [List.getLast?_map, h3]
        rfl
      rw [h2]

theorem lPath_chain (s e : TilePos) : List.Chain' adj4 (lPath s e) := by
  unfold lPath
  have hchainX : List.Chain' adj4 ((walkToward s.1 e.1).map fun x => ((x, s.2) : TilePos)) := by
    rw [List.chain'_map]
    refine List.Chain'.imp ?_ (walkToward_chain s.1 e.1)
    intro a b hab
    unfold adj4
    dsimp only
    omega
  have hchainY : List.Chain' adj4 ((walkToward s.2 e.2).map fun y => ((e.1, y) : TilePos)) := by
    rw [List.chain'_map]
    refine List.Chain'.imp ?_ (walkToward_chain s.2 e.2)
    intro a b hab
    unfold adj4
    dsimp only
    omega
  refine List.Chain'.append hchainX hchainY.tail ?_
  intro x hx y hy
  rw [List.getLast?_map, walkToward_last] at hx
  cases hx
  rcases hw : walkToward s.2 e.2 with _ | ⟨w0, ws⟩
  · exact absurd hw (walkToward_ne_nil s.2 e.2)
  · have hhead : w0 = s.2 := by
      have := walkToward_head s.2 e.2
      rw [hw] at this
      cases this
      rfl
    subst hhead
    rw [hw] at hchainY hy
    dsimp only [List.map_cons, List.tail_cons] at hchainY hy
    exact (List.chain'_cons'.mp hchainY).1 y hy

theorem lPath_mem_box {s e c : TilePos} (hc : c ∈ lPath s e) :
    (min s.1 e.1 ≤ c.1 ∧ c.1 ≤ max s.1 e.1 ∧ c.2 = s.2) ∨
    (c.1 = e.1 ∧ min s.2 e.2 ≤ c.2 ∧ c.2 ≤ max s.2 e.2) := by
  unfold lPath at hc
  rcases List.mem_append.mp hc with hc | hc
  · obtain ⟨x, hx, hcx⟩ := List.mem_map.mp hc
    obtain ⟨h1, h2⟩ := walkToward_mem_between hx
    subst hcx
    exact Or.inl ⟨h1, h2, rfl⟩
  · obtain ⟨y, hy, hcy⟩ := List.mem_map.mp (List.mem_of_mem_tail hc)
    obtain ⟨h1, h2⟩ := walkToward_mem_between hy
    subst hcy
    exact Or.inr ⟨rfl, h1, h2⟩

theorem inBounds_iff {m : GameMap} {p : TilePos} :
    m.inBounds p = true ↔
      0 ≤ p.1 ∧ p.1 < m.width ∧ 0 ≤ p.2 ∧ p.2 < m.height := by
  unfold GameMap.inBounds
  simp

theorem carve_inBounds (m : GameMap) (s e : TilePos) (r : Int) (c : TilePos) :
    (m.carvePath s e r).inBounds c = m.inBounds c := rfl

theorem carvePath_walkable {m : GameMap} {s e c : TilePos} {r : Int}
    (hr : 0 ≤ r) (hc : c ∈ lPath s e) (hb : m.inBounds c = true) :
    (m.carvePath s e r).isWalkable c = true := by
  unfold GameMap.isWalkable
  rw [carve_inBounds, hb, Bool.true_and]
  unfold GameMap.getTile GameMap.carvePath
  dsimp only
  split
  · rfl
  · rename_i hcond
    exfalso
    apply hcond
    rw [Bool.and_eq_true]
    refine ⟨hb, List.any_eq_true.mpr ⟨c, hc, ?_⟩⟩
    simpa using hr

/-- **C2.** Connectivity after setup: for any map and two in-bounds HQ
tiles (the first walkable, movement costs positive as on every generated
map), after `_ensure_land_bridge` runs the two tiles are joined by a
non-empty 4-connected chain of walkable cells — when the initial A*
probe succeeds the chain is the returned route itself, and when it
returns `None` the carved corridor supplies it; moreover the map is only
modified when that initial probe fails.  (`carve_path` is modelled from
the spec's contract, as the method is absent from `map.py`.) -/
theorem c2_hq_connectivity (m : GameMap) (a b : TilePos)
    (hpos : ∀ q : TilePos, 0 < m.movementCost q)
    (hina : m.inBounds a = true) (hinb : m.inBounds b = true)
    (hwa : m.isWalkable a = true) :
    walkChain (ensureLandBridgeMap m a b) a b ∧
    ((aStar m a b).isSome = true → ensureLandBridgeMap m a b = m) := by
  constructor
  · unfold ensureLandBridgeMap
    split
    · -- the probe failed, the carved corridor joins the HQs
      refine ⟨lPath a b, ?_, lPath_head .., lPath_last .., lPath_chain .., ?_⟩
      · intro h
        have := lPath_head a b
        rw [h] at this
        cases this
      · intro c hcmem
        apply carvePath_walkable (by norm_num) hcmem
        rw [inBounds_iff] at hina hinb ⊢
        rcases lPath_mem_box hcmem with ⟨h1, h2, h3⟩ | ⟨h1, h2, h3⟩ <;>
          (constructor; · omega
           constructor; · omega
           constructor <;> omega)
    · -- the probe found a route: it is itself the walkable chain
      rename_i hsome
      have hex : ∃ p, aStar m a b = some p := by
        rcases h : aStar m a b with _ | p
        · rw [h] at hsome
          exact absurd rfl hsome
        · exact ⟨p, rfl⟩
      obtain ⟨p, hp⟩ := hex
      obtain ⟨hchain, htail, hlastp, hnil⟩ := aStar_path_adj m a b 6000 p hp
      have hheadp := aStar_path_head m a b 6000 p hpos hp
      refine ⟨p, hnil, hheadp, hlastp, hchain, ?_⟩
      intro c hcmem
      rcases p with _ | ⟨p0, prest⟩
      · exact absurd rfl hnil
      · have hp0 : p0 = a := by
          cases hheadp
          rfl
        rcases List.mem_cons.mp hcmem with rfl | hcmem
        · rw [hp0]
          exact hwa
        · exact htail c hcmem
  · intro h
    unfold ensureLandBridgeMap
    rw [if_neg]
    rw [Option.isNone_iff_eq_none]
    intro hnone
    rw [hnone] at h
    cases h

/-- Concrete instance of `c2_hq_connectivity` on the water-split map,
where the initial probe fails and the corridor must be carved. -/
theorem c2_hq_connectivity_witness :
    (∀ q : TilePos, 0 < blockedMap.movementCost q) ∧
    blockedMap.inBounds ((0, 0) : TilePos) = true ∧
    blockedMap.inBounds ((2, 0) : TilePos) = true ∧
    blockedMap.isWalkable ((0, 0) : TilePos) = true ∧
    (walkChain (ensureLandBridgeMap blockedMap (0, 0) (2, 0)) (0, 0) (2, 0) ∧
      ((aStar blockedMap (0, 0) (2, 0)).isSome = true →
        ensureLandBridgeMap blockedMap (0, 0) (2, 0) = blockedMap)) := by
  have hpos : ∀ q : TilePos, 0 < blockedMap.movementCost q := by
    intro q
    unfold blockedMap GameMap.movementCost GameMap.getTile
    dsimp only
    split
    · norm_num [waterTile]
    · norm_num [clearedTile]
  exact ⟨hpos, by decide, by decide, by decide,
    c2_hq_connectivity blockedMap (0, 0) (2, 0) hpos (by decide) (by decide)
      (by decide)⟩

/-! ### Optimality of the search on uniform unit-cost grids. -/

theorem heuristic_eq_manh (a b : TilePos) : heuristic a b = (manh a b : ℚ) := by
  unfold heuristic manh
  push_cast
  ring

theorem stairP_zero (s g : TilePos) : stairP s g 0 = s := by
  obtain ⟨s1, s2⟩ := s
  obtain ⟨g1, g2⟩ := g
  unfold stairP
  dsimp only
  split_ifs <;> (simp only [Prod.mk.injEq]; constructor <;> first | trivial | omega)

theorem stairP_last (s g : TilePos) : stairP s g (manh s g) = g := by
  obtain ⟨s1, s2⟩ := s
  obtain ⟨g1, g2⟩ := g
  unfold stairP manh
  dsimp only
  split_ifs <;> (simp only [Prod.mk.injEq]; constructor <;> first | trivial | omega)

theorem stairP_manh_from (s g : TilePos) (i : Nat) (hi : i ≤ manh s g) :
    manh (stairP s g i) g = manh s g - i := by
  obtain ⟨s1, s2⟩ := s
  obtain ⟨g1, g2⟩ := g
  unfold stairP manh at *
  dsimp only at *
  split_ifs <;> (dsimp only; omega)

theorem stairP_box (s g : TilePos) (i : Nat) (hi : i ≤ manh s g) :
    min s.1 g.1 ≤ (stairP s g i).1 ∧ (stairP s g i).1 ≤ max s.1 g.1 ∧
    min s.2 g.2 ≤ (stairP s g i).2 ∧ (stairP s g i).2 ≤ max s.2 g.2 := by
  obtain ⟨s1, s2⟩ := s
  obtain ⟨g1, g2⟩ := g
  unfold stairP manh at *
  dsimp only at *
  split_ifs <;> (dsimp only; refine ⟨?_, ?_, ?_, ?_⟩ <;> omega)

theorem stairP_step_adj (s g : TilePos) (i : Nat) (hi : i + 1 ≤ manh s g) :
    adj4 (stairP s g (i + 1)) (stairP s g i) := by
  obtain ⟨s1, s2⟩ := s
  obtain ⟨g1, g2⟩ := g
  unfold stairP manh adj4 at *
  dsimp only at *
  split_ifs <;> (dsimp only; omega)

theorem chain_manh :
    ∀ (p : List TilePos), List.Chain' adj4 p → ∀ a b, p.head? = some a →
    p.getLast? = some b → manh a b + 1 ≤ p.length := by
  intro p
  induction p with
  | nil =>
    intro _ a b ha _
    cases ha
  | cons x rest ih =>
    intro hchain a b ha hb
    cases ha
    rcases rest with _ | ⟨y, rest2⟩
    · have hb2 : x = b := by simpa using hb
      subst hb2
      unfold manh
      simp only [List.length_singleton]
      omega
    · obtain ⟨hxy, hchain2⟩ := List.chain'_cons.mp hchain
      have hlast : (y :: rest2).getLast? = some b := hb
      have hIH := ih hchain2 y b rfl hlast
      have htri : manh x b ≤ manh y b + 1 := by
        unfold manh adj4 at *
        omega
      simp only [List.length_cons] at hIH ⊢
      omega

theorem reconstruct_length_le
    {came : Batteries.RBMap TilePos TilePos cmpPos}
    {g : Batteries.RBMap TilePos ℚ cmpPos}
    (hgap : ∀ k v, came.find? k = some v →
      ∃ gk gv, g.find? k = some gk ∧ g.find? v = some gv ∧ gv + 1 ≤ gk)
    (hnn : ∀ k v, g.find? k = some v → 0 ≤ v) :
    ∀ (fuel : Nat) (cur : TilePos) (gcur : ℚ), g.find? cur = some gcur →
    ((reconstructPath came fuel cur).length : ℚ) ≤ gcur + 1 := by
  intro fuel
  induction fuel with
  | zero =>
    intro cur gcur hg
    have := hnn cur gcur hg
    show ((([cur] : List TilePos)).length : ℚ) ≤ gcur + 1
    push_cast [List.length_singleton]
    linarith
  | succ fuel ih =>
    intro cur gcur hg
    unfold reconstructPath
    rcases hc : came.find? cur with _ | prev
    · have := hnn cur gcur hg
      push_cast [List.length_singleton]
      linarith
    · obtain ⟨gk, gprev, hgk, hgprev, hgap1⟩ := hgap cur prev hc
      rw [hg] at hgk
      cases hgk
      have hpre := ih prev gprev hgprev
      rw [List.length_append]
      push_cast [List.length_singleton]
      push_cast at hpre
      linarith

theorem BCore_processNeighbor {m : GameMap} {s gl current : TilePos}
    {st : AStarState} {nb : TilePos}
    (hcost : ∀ q : TilePos, m.movementCost q = 1)
    (hinv : BCore m s gl st)
    (hcur : (st.gScore.find? current).isSome = true)
    (hcs : current = s ∨ (st.cameFrom.find? current).isSome = true) :
    BCore m s gl (processNeighbor m gl current st nb) := by
  have hpos : ∀ q : TilePos, 0 < m.movementCost q := fun q => by
    rw [hcost q]
    norm_num
  have hbase0 := hinv.base
  have hbase1 : AInv m s (processNeighbor m gl current st nb) :=
    AInv_processNeighbor hpos hbase0 hcur hcs
  have hgnn := hbase0.gNonneg
  obtain ⟨_, hsorted, hs2, hhwit, hgoalNot, hgap1⟩ := hinv
  rcases st with ⟨o, c, g, f, v, d, t⟩
  dsimp only at hsorted hs2 hhwit hgoalNot hgap1 hcur hcs hgnn ⊢
  obtain ⟨gc, hgc⟩ := Option.isSome_iff_exists.mp hcur
  have hgc0 : 0 ≤ gc := hgnn current gc hgc
  have ht1 := hcost nb
  have ht2 := hcost current
  have hmain : ∀ gOld? : Option ℚ, g.find? nb = gOld? →
      (gOld? = none ∨ ∃ gOld, gOld? = some gOld ∧
        gc + 1 / 2 * (m.movementCost nb + m.movementCost current) < gOld) →
      BCore m s gl (processNeighbor m gl current ⟨o, c, g, f, v, d, t⟩ nb) := by
    intro gOld? hgOld hbr
    have hnbcur : current ≠ nb := by
      intro heq
      rw [← heq] at hgOld
      rw [hgc] at hgOld
      rcases hbr with hbr | ⟨gOld, hbr, hlt⟩
      · rw [← hgOld] at hbr
        cases hbr
      · rw [← hgOld] at hbr
        cases hbr
        linarith
    have hEq : processNeighbor m gl current ⟨o, c, g, f, v, d, t⟩ nb =
        ⟨heapPush o (gc + 1 / 2 * (m.movementCost nb + m.movementCost current) +
            heuristic nb gl, nb),
          c.insert nb current,
          g.insert nb (gc + 1 / 2 * (m.movementCost nb + m.movementCost current)),
          f.insert nb (gc + 1 / 2 * (m.movementCost nb + m.movementCost current) +
            heuristic nb gl),
          v, nb :: d, t⟩ := by
      unfold processNeighbor
      dsimp only
      rw [hgc]
      dsimp only [Option.getD_some]
      rw [hgOld]
      rcases hbr with hbr | ⟨gOld, hbr, hlt⟩
      · rw [hbr]
      · rw [hbr]
        dsimp only
        rw [if_pos hlt]
    rw [hEq]
    refine ⟨by rw [hEq] at hbase1; exact hbase1, ?_, ?_, ?_, ?_, ?_⟩
    · -- sorted
      exact sorted_heapPush hsorted
    · -- s2
      intro e he
      dsimp only at he ⊢
      rcases mem_heapPush.mp he with he | rfl
      · rcases hs2 e he with hes | ⟨gv, hgv, hle⟩
        · exact Or.inl hes
        · right
          rw [find?_insert_pos]
          split
          · rename_i heq
            rw [heq]
            rw [heq] at hgv
            rw [hgv] at hgOld
            rcases hbr with hbr | ⟨gOld, hbr, hlt⟩
            · rw [hbr] at hgOld
              cases hgOld
            · rw [hbr] at hgOld
              cases hgOld
              refine ⟨_, rfl, ?_⟩
              rw [heq] at hle
              linarith
          · exact ⟨gv, hgv, hle⟩
      · right
        rw [find?_insert_pos, if_pos rfl]
        exact ⟨_, rfl, le_refl _⟩
    · -- hwit
      intro w hw gv hgv
      dsimp only at hgv ⊢
      by_cases hwnb : w = nb
      · subst hwnb
        rw [find?_insert_pos, if_pos rfl] at hgv
        cases hgv
        exact ⟨_, mem_heapPush.mpr (Or.inr rfl), rfl, le_refl _⟩
      · rw [find?_insert_pos, if_neg hwnb] at hgv
        obtain ⟨e, he, he2, he1⟩ := hhwit w hw gv hgv
        exact ⟨e, mem_heapPush.mpr (Or.inl he), he2, he1⟩
    · -- goalNot
      exact hgoalNot
    · -- gap1
      intro k w hk
      dsimp only at hk ⊢
      rw [find?_insert_pos] at hk
      rw [find?_insert_pos, find?_insert_pos]
      split at hk
      · rename_i hkeq
        cases hk
        rw [if_pos hkeq, if_neg hnbcur]
        exact ⟨_, gc, rfl, hgc, by linarith⟩
      · rename_i hkne
        rw [if_neg hkne]
        obtain ⟨gk, gv, hgk, hgv, hge⟩ := hgap1 k w hk
        by_cases hwnb : w = nb
        · subst hwnb
          rw [if_pos rfl]
          rw [hgv] at hgOld
          rcases hbr with hbr | ⟨gOld, hbr, hlt⟩
          · rw [hbr] at hgOld
            cases hgOld
          · rw [hbr] at hgOld
            cases hgOld
            exact ⟨gk, _, hgk, rfl, by linarith⟩
        · rw [if_neg hwnb]
          exact ⟨gk, gv, hgk, hgv, hge⟩
  rcases hfind : g.find? nb with _ | gOld
  · exact hmain none hfind (Or.inl rfl)
  · by_cases hlt : gc + 1 / 2 * (m.movementCost nb + m.movementCost current) < gOld
    · exact hmain (some gOld) hfind (Or.inr ⟨gOld, rfl, hlt⟩)
    · have hEq2 : processNeighbor m gl current ⟨o, c, g, f, v, d, t⟩ nb =
          ⟨o, c, g, f, v, d, t⟩ := by
        unfold processNeighbor
        dsimp only
        rw [hgc]
        dsimp only [Option.getD_some]
        rw [hfind]
        dsimp only
        rw [if_neg hlt]
      rw [hEq2]
      exact ⟨hbase0, hsorted, hs2, hhwit, hgoalNot, hgap1⟩

theorem qpLe_fst {a b : QP} (h : qpLe a b = true) : a.1 ≤ b.1 := by
  unfold qpLe at h
  simp only [Bool.or_eq_true, Bool.and_eq_true, decide_eq_true_eq] at h
  rcases h with h | ⟨h, _⟩
  · exact le_of_lt h
  · exact le_of_eq h

theorem mem_neighbors_of {m : GameMap} {cur nb : TilePos}
    (hb : m.inBounds nb = true) (hw : m.isWalkable nb = true)
    (hadj : adj4 nb cur) :
    nb ∈ m.neighbors cur := by
  unfold GameMap.neighbors
  simp only [List.mem_filterMap, List.mem_cons, List.mem_singleton]
  refine ⟨(nb.1 - cur.1, nb.2 - cur.2), ?_, ?_⟩
  · obtain ⟨n1, n2⟩ := nb
    obtain ⟨c1, c2⟩ := cur
    unfold adj4 at hadj
    dsimp only at hadj ⊢
    simp only [Prod.mk.injEq]
    omega
  · have hnb2 : ((cur.1 + (nb.1 - cur.1), cur.2 + (nb.2 - cur.2)) : TilePos) = nb := by
      obtain ⟨n1, n2⟩ := nb
      obtain ⟨c1, c2⟩ := cur
      simp only [Prod.mk.injEq]
      omega
    dsimp only
    rw [hnb2, hb, hw]
    rfl

theorem processNeighbor_trace {m : GameMap} {goal current : TilePos}
    {st : AStarState} {nb : TilePos} :
    (processNeighbor m goal current st nb).popTrace = st.popTrace := by
  unfold processNeighbor
  rcases st with ⟨o, c, g, f, v, d, t⟩
  dsimp only
  repeat' split
  all_goals rfl

theorem fold_trace {m : GameMap} {goal current : TilePos} (l : List TilePos) :
    ∀ st : AStarState,
    (l.foldl (processNeighbor m goal current) st).popTrace = st.popTrace := by
  induction l with
  | nil => exact fun _ => rfl
  | cons nb rest ih =>
    intro st
    rw [List.foldl_cons, ih]
    exact processNeighbor_trace

theorem processNeighbor_g_mono {m : GameMap} {goal current : TilePos}
    {st : AStarState} {nb : TilePos} :
    ∀ k gv, st.gScore.find? k = some gv →
    ∃ gv', (processNeighbor m goal current st nb).gScore.find? k = some gv' ∧
      gv' ≤ gv := by
  intro k gv hk
  unfold processNeighbor
  rcases st with ⟨o, c, g, f, v, d, t⟩
  dsimp only at hk ⊢
  rcases hfind : g.find? nb with _ | gOld
  · dsimp only
    rw [find?_insert_pos]
    split
    · rename_i hkeq
      rw [hkeq] at hk
      rw [hk] at hfind
      cases hfind
    · exact ⟨gv, hk, le_refl _⟩
  · dsimp only
    split
    · rename_i hlt
      dsimp only
      rw [find?_insert_pos]
      split
      · rename_i hkeq
        rw [hkeq] at hk
        rw [hk] at hfind
        cases hfind
        exact ⟨_, rfl, le_of_lt hlt⟩
      · exact ⟨gv, hk, le_refl _⟩
    · exact ⟨gv, hk, le_refl _⟩

theorem fold_g_mono {m : GameMap} {goal current : TilePos} (l : List TilePos) :
    ∀ st : AStarState, ∀ k gv, st.gScore.find? k = some gv →
    ∃ gv', ((l.foldl (processNeighbor m goal current) st)).gScore.find? k
        = some gv' ∧ gv' ≤ gv := by
  induction l with
  | nil => exact fun st k gv h => ⟨gv, h, le_refl _⟩
  | cons nb rest ih =>
    intro st k gv h
    rw [List.foldl_cons]
    obtain ⟨gv1, h1, hle1⟩ := processNeighbor_g_mono k gv h
    obtain ⟨gv2, h2, hle2⟩ := ih _ k gv1 h1
    exact ⟨gv2, h2, le_trans hle2 hle1⟩

theorem processNeighbor_relax {m : GameMap} {goal current : TilePos}
    {st : AStarState} {nb : TilePos} {gc : ℚ}
    (hgc : st.gScore.find? current = some gc) :
    ∃ gv, (processNeighbor m goal current st nb).gScore.find? nb = some gv ∧
      gv ≤ gc + 1 / 2 * (m.movementCost nb + m.movementCost current) := by
  unfold processNeighbor
  rcases st with ⟨o, c, g, f, v, d, t⟩
  dsimp only at hgc ⊢
  rw [hgc]
  dsimp only [Option.getD_some]
  rcases hfind : g.find? nb with _ | gOld
  · dsimp only
    rw [find?_insert_pos, if_pos rfl]
    exact ⟨_, rfl, le_refl _⟩
  · dsimp only
    split
    · dsimp only
      rw [find?_insert_pos, if_pos rfl]
      exact ⟨_, rfl, le_refl _⟩
    · rename_i hnlt
      exact ⟨gOld, hfind, not_lt.mp hnlt⟩

theorem fold_relax {m : GameMap} {goal current : TilePos} (l : List TilePos)
    (hlc : ∀ x ∈ l, x ≠ current) :
    ∀ st : AStarState, ∀ gc : ℚ, st.gScore.find? current = some gc →
    ∀ nb ∈ l, ∃ gv,
      ((l.foldl (processNeighbor m goal current) st)).gScore.find? nb
        = some gv ∧
      gv ≤ gc + 1 / 2 * (m.movementCost nb + m.movementCost current) := by
  induction l with
  | nil =>
    intro st gc h nb hnb
    cases hnb
  | cons a rest ih =>
    intro st gc hgc nb hnb
    rw [List.foldl_cons]
    rcases List.mem_cons.mp hnb with rfl | hnb2
    · obtain ⟨gv1, h1, hle1⟩ := processNeighbor_relax hgc
      obtain ⟨gv2, h2, hle2⟩ := fold_g_mono rest _ nb gv1 h1
      exact ⟨gv2, h2, le_trans hle2 hle1⟩
    · have hcur2 : (processNeighbor m goal current st a).gScore.find? current
          = some gc := by
        rw [processNeighbor_gScore_ne
          (Ne.symm (hlc a (List.mem_cons_self a rest)))]
        exact hgc
      exact ih (fun x hx => hlc x (List.mem_cons_of_mem _ hx)) _ gc hcur2 nb hnb2

theorem BCore_fold {m : GameMap} {s gl current : TilePos}
    (hcost : ∀ q : TilePos, m.movementCost q = 1) (l : List TilePos)
    (hl : ∀ nb ∈ l, nb ≠ current) :
    ∀ st : AStarState, BCore m s gl st →
    (st.gScore.find? current).isSome = true →
    (current = s ∨ (st.cameFrom.find? current).isSome = true) →
    BCore m s gl (l.foldl (processNeighbor m gl current) st) := by
  induction l with
  | nil => exact fun st h _ _ => h
  | cons nb rest ih =>
    intro st hinv hcur hcs
    rw [List.foldl_cons]
    refine ih (fun x hx => hl x (List.mem_cons_of_mem _ hx)) _
      (BCore_processNeighbor hcost hinv hcur hcs) ?_ ?_
    · rw [processNeighbor_gScore_ne
        (fun heq => hl nb (List.mem_cons_self nb rest) heq.symm)]
      exact hcur
    · rcases hcs with hcs | hcs
      · exact Or.inl hcs
      · exact Or.inr (processNeighbor_came_mono hcs)

theorem popHead_g_bound {m : GameMap} {s gl : TilePos} {σ : ℚ}
    {current : TilePos} {rest : List QP}
    {c : Batteries.RBMap TilePos TilePos cmpPos}
    {g f : Batteries.RBMap TilePos ℚ cmpPos} {v : Nat} {d t : List TilePos}
    (hinv : BInv m s gl ⟨(σ, current) :: rest, c, g, f, v, d, t⟩)
    {j : Nat} (hj : j ≤ manh s gl) (hcur : current = stairP s gl j)
    (hnot : current ∉ t) :
    ∃ gc, g.find? current = some gc ∧ gc ≤ (j : ℚ) := by
  haveI : DecidablePred fun i : Nat => stairP s gl i ∉ t :=
    Classical.decPred _
  have hex : ∃ i : Nat, stairP s gl i ∉ t := ⟨j, by rw [← hcur]; exact hnot⟩
  obtain ⟨J, hJdef⟩ : ∃ J, Nat.find hex = J := ⟨_, rfl⟩
  have hJspec : stairP s gl J ∉ t := by
    rw [← hJdef]
    exact Nat.find_spec hex
  have hJle : J ≤ j := by
    rw [← hJdef]
    exact Nat.find_min' hex (by rw [← hcur]; exact hnot)
  have hJmin : ∀ i, i < J → stairP s gl i ∈ t := by
    intro i hi
    rw [← hJdef] at hi
    exact not_not.mp (Nat.find_min hex hi)
  have hgstart : g.find? s = some 0 := hinv.base.gStart
  have hgJb : ∃ gJ, g.find? (stairP s gl J) = some gJ ∧ gJ ≤ (J : ℚ) := by
    rcases J with _ | J'
    · rw [stairP_zero]
      exact ⟨0, hgstart, by norm_num⟩
    · have hJt : stairP s gl J' ∈ t := hJmin J' (Nat.lt_succ_self J')
      have hJlt : J' < manh s gl := by omega
      obtain ⟨gJ, hgJ, hb⟩ := hinv.k2 J' hJlt hJt
      refine ⟨gJ, hgJ, ?_⟩
      push_cast
      linarith
  obtain ⟨gJ, hgJ, hgJle⟩ := hgJb
  obtain ⟨e, he, he2, he1⟩ := hinv.hwit (stairP s gl J) hJspec gJ hgJ
  have hJD : J ≤ manh s gl := le_trans hJle hj
  have hheur : heuristic (stairP s gl J) gl
      = ((manh s gl : ℚ) - (J : ℚ)) := by
    rw [heuristic_eq_manh, stairP_manh_from s gl J hJD, Nat.cast_sub hJD]
  have he12 : e.1 ≤ gJ + heuristic (stairP s gl J) gl := he1
  rw [hheur] at he12
  have heD : e.1 ≤ (manh s gl : ℚ) := by linarith
  have hmem : e ∈ (σ, current) :: rest := he
  have hσD : σ ≤ (manh s gl : ℚ) := by
    rcases List.mem_cons.mp hmem with rfl | hmem2
    · exact heD
    · have hsort : ((σ, current) :: rest).Pairwise
          (fun a b => qpLe a b = true) := hinv.sorted
      have hp := (List.pairwise_cons.mp hsort).1 e hmem2
      exact le_trans (qpLe_fst hp) heD
  rcases hinv.s2 (σ, current) (List.mem_cons_self _ _) with hcs | ⟨gv, hgv, hle⟩
  · have hcs2 : current = s := hcs
    rw [hcs2]
    exact ⟨0, hgstart, Nat.cast_nonneg j⟩
  · have hgv2 : g.find? current = some gv := hgv
    have hle2 : gv + heuristic current gl ≤ σ := hle
    have hheur2 : heuristic current gl = ((manh s gl : ℚ) - (j : ℚ)) := by
      rw [hcur, heuristic_eq_manh, stairP_manh_from s gl j hj, Nat.cast_sub hj]
    rw [hheur2] at hle2
    exact ⟨gv, hgv2, by linarith⟩

theorem BInv_step {m : GameMap} {s gl : TilePos}
    (hcost : ∀ q : TilePos, m.movementCost q = 1)
    (hwalk : ∀ q : TilePos, m.inBounds q = true →
      (m.getTile q).walkable = true)
    (hsb : m.inBounds s = true) (hgb : m.inBounds gl = true)
    {σ : ℚ} {current : TilePos} {rest : List QP}
    {c : Batteries.RBMap TilePos TilePos cmpPos}
    {g f : Batteries.RBMap TilePos ℚ cmpPos} {v : Nat} {d t : List TilePos}
    (hinv : BInv m s gl ⟨(σ, current) :: rest, c, g, f, v, d, t⟩)
    (hcg : current ≠ gl) :
    BInv m s gl ((m.neighbors current).foldl (processNeighbor m gl current)
      ⟨rest, c, g, f, v + 1, d, current :: t⟩) := by
  obtain ⟨hbase, hsorted, hs2, hhwit, hk2, hgoalNot, hgap1⟩ := hinv
  dsimp only at hsorted hs2 hhwit hk2 hgoalNot hgap1
  have hcs : current = s ∨ (c.find? current).isSome = true := by
    rcases hbase.heap (σ, current) (List.mem_cons_self _ _) with h | h
    · exact Or.inl h
    · exact Or.inr h
  have hcur : (g.find? current).isSome = true := by
    rcases hcs with rfl | h
    · have hgs : g.find? current = some 0 := hbase.gStart
      rw [hgs]
      rfl
    · obtain ⟨w, hw⟩ := Option.isSome_iff_exists.mp h
      obtain ⟨gk, gw, hgk, _, _⟩ := hbase.strict current w hw
      have hgk2 : g.find? current = some gk := hgk
      rw [hgk2]
      rfl
  have hpopA : AInv m s (⟨rest, c, g, f, v + 1, d, current :: t⟩ : AStarState) :=
    ⟨hbase.keys, hbase.val, hbase.notStart,
      fun e he => hbase.heap e (List.mem_cons_of_mem _ he),
      hbase.gStart, hbase.gNonneg, hbase.strict⟩
  have hpopC : BCore m s gl
      (⟨rest, c, g, f, v + 1, d, current :: t⟩ : AStarState) := by
    refine ⟨hpopA, ?_, ?_, ?_, ?_, ?_⟩
    · exact (List.pairwise_cons.mp hsorted).2
    · exact fun e he => hs2 e (List.mem_cons_of_mem _ he)
    · intro w hw gv hgv
      dsimp only at hw hgv ⊢
      have hwne : w ≠ current := by
        intro heq
        exact hw (by rw [heq]; exact List.mem_cons_self _ _)
      have hwt : w ∉ t := fun hmem => hw (List.mem_cons_of_mem _ hmem)
      obtain ⟨e, he, he2, he1⟩ := hhwit w hwt gv hgv
      rcases List.mem_cons.mp he with rfl | he2m
      · exact absurd he2.symm hwne
      · exact ⟨e, he2m, he2, he1⟩
    · dsimp only
      intro hmem
      rcases List.mem_cons.mp hmem with heq | hmem2
      · exact hcg heq.symm
      · exact hgoalNot hmem2
    · exact hgap1
  have hl : ∀ nb ∈ m.neighbors current, nb ≠ current :=
    fun nb hnb => adj4_ne (mem_neighbors hnb).2.2
  have hcore := BCore_fold hcost (m.neighbors current) hl _ hpopC hcur hcs
  refine ⟨hcore.base, hcore.sorted, hcore.s2, hcore.hwit, ?_,
    hcore.goalNot, hcore.gap1⟩
  intro j hj hjt
  have hjt2 : stairP s gl j ∈ current :: t := by
    rw [fold_trace] at hjt
    exact hjt
  rcases List.mem_cons.mp hjt2 with hjc | hjold
  · by_cases hct : current ∈ t
    · obtain ⟨gj, hgj, hb⟩ := hk2 j hj (by rw [hjc]; exact hct)
      obtain ⟨gj', hgj', hle⟩ := fold_g_mono (m.neighbors current)
        ⟨rest, c, g, f, v + 1, d, current :: t⟩ (stairP s gl (j + 1)) gj hgj
      exact ⟨gj', hgj', le_trans hle hb⟩
    · obtain ⟨gc, hgc, hgcb⟩ := popHead_g_bound
        ⟨hbase, hsorted, hs2, hhwit, hk2, hgoalNot, hgap1⟩
        (le_of_lt hj) hjc.symm hct
      have hadj : adj4 (stairP s gl (j + 1)) (stairP s gl j) :=
        stairP_step_adj s gl j hj
      have hbox := stairP_box s gl (j + 1) hj
      have hb2 : m.inBounds (stairP s gl (j + 1)) = true := by
        rw [inBounds_iff] at hsb hgb ⊢
        obtain ⟨h1, h2, h3, h4⟩ := hbox
        refine ⟨?_, ?_, ?_, ?_⟩
        · exact le_trans (le_min hsb.1 hgb.1) h1
        · exact lt_of_le_of_lt h2 (max_lt hsb.2.1 hgb.2.1)
        · exact le_trans (le_min hsb.2.2.1 hgb.2.2.1) h3
        · exact lt_of_le_of_lt h4 (max_lt hsb.2.2.2 hgb.2.2.2)
      have hw2 : m.isWalkable (stairP s gl (j + 1)) = true := by
        unfold GameMap.isWalkable
        rw [hb2, hwalk _ hb2]
        rfl
      have hmem : stairP s gl (j + 1) ∈ m.neighbors current := by
        refine mem_neighbors_of hb2 hw2 ?_
        rw [hjc] at hadj
        exact hadj
      obtain ⟨gv, hgv, hlev⟩ := fold_relax (m.neighbors current) hl
        ⟨rest, c, g, f, v + 1, d, current :: t⟩ gc hgc
        (stairP s gl (j + 1)) hmem
      refine ⟨gv, hgv, ?_⟩
      rw [hcost, hcost] at hlev
      linarith
  · obtain ⟨gj, hgj, hb⟩ := hk2 j hj hjold
    obtain ⟨gj', hgj', hle⟩ := fold_g_mono (m.neighbors current)
      ⟨rest, c, g, f, v + 1, d, current :: t⟩ (stairP s gl (j + 1)) gj hgj
    exact ⟨gj', hgj', le_trans hle hb⟩

theorem BInv_init (m : GameMap) (s gl : TilePos) :
    BInv m s gl (aStarInit s gl) := by
  refine ⟨AInv_init m s gl, ?_, ?_, ?_, ?_, ?_, ?_⟩
  · exact List.pairwise_singleton _ _
  · intro e he
    rcases List.mem_singleton.mp he with rfl
    exact Or.inl rfl
  · intro w hw gv hgv
    dsimp only [aStarInit] at hgv ⊢
    rw [find?_insert_pos] at hgv
    split at hgv
    · rename_i heq
      cases hgv
      refine ⟨(0, s), List.mem_singleton.mpr rfl, heq.symm, ?_⟩
      have hnn : (0 : ℚ) ≤ (manh w gl : ℚ) := Nat.cast_nonneg _
      rw [heuristic_eq_manh]
      dsimp only
      linarith
    · cases hgv
  · intro j hj hjt
    cases hjt
  · intro hmem
    cases hmem
  · intro k w hk
    cases hk

theorem aStarLoop_opt {m : GameMap} {s gl : TilePos} (maxIter : Nat)
    (hcost : ∀ q : TilePos, m.movementCost q = 1)
    (hwalk : ∀ q : TilePos, m.inBounds q = true →
      (m.getTile q).walkable = true)
    (hsb : m.inBounds s = true) (hgb : m.inBounds gl = true) :
    ∀ (fuel : Nat) (st : AStarState), BInv m s gl st →
    ∀ p, (aStarLoop m gl maxIter fuel st).1 = some p →
    (p.length : ℚ) ≤ (manh s gl : ℚ) + 1 := by
  intro fuel
  induction fuel with
  | zero =>
    intro st h p hp
    cases hp
  | succ fuel ih =>
    rintro ⟨openL, came, g, f, v, dom, trace⟩ hinv p hp
    unfold aStarLoop at hp
    dsimp only at hp
    rcases openL with _ | ⟨⟨σ, current⟩, rest⟩
    · cases hp
    · dsimp only at hp
      split at hp
      · rename_i hgoal
        subst hgoal
        simp only [Option.some.injEq] at hp
        subst hp
        have hD : current = stairP s current (manh s current) :=
          (stairP_last s current).symm
        have hnot : current ∉ trace := hinv.goalNot
        obtain ⟨gc, hgc, hgcb⟩ := popHead_g_bound hinv (le_refl _) hD hnot
        have hgap : ∀ k w, came.find? k = some w →
            ∃ gk gw, g.find? k = some gk ∧ g.find? w = some gw ∧
              gw + 1 ≤ gk := hinv.gap1
        have hnn : ∀ k w, g.find? k = some w → 0 ≤ w := hinv.base.gNonneg
        have hlen := reconstruct_length_le hgap hnn (dom.length + 1)
          current gc hgc
        linarith
      · rename_i hgoal
        split at hp
        · cases hp
        · refine ih _ ?_ p hp
          exact BInv_step hcost hwalk hsb hgb hinv hgoal

theorem aStarWith_opt {m : GameMap} {s gl : TilePos} (mi : Nat)
    (hcost : ∀ q : TilePos, m.movementCost q = 1)
    (hwalk : ∀ q : TilePos, m.inBounds q = true →
      (m.getTile q).walkable = true)
    (hsb : m.inBounds s = true) (hgb : m.inBounds gl = true)
    {p : List TilePos} (hp : aStarWith m s gl mi = some p) :
    p.length = manh s gl + 1 := by
  have hup : (p.length : ℚ) ≤ (manh s gl : ℚ) + 1 := by
    have hp2 := hp
    unfold aStarWith aStarWithEx at hp2
    split at hp2
    · rename_i hsg
      simp only [Option.some.injEq] at hp2
      subst hp2
      subst hsg
      have hm : manh s s = 0 := by
        unfold manh
        omega
      rw [hm]
      simp
    · exact aStarLoop_opt mi hcost hwalk hsb hgb (mi + 2) (aStarInit s gl)
        (BInv_init m s gl) p hp2
  have hpos : ∀ q : TilePos, 0 < m.movementCost q := fun q => by
    rw [hcost q]
    norm_num
  have hadj := aStar_path_adj m s gl mi p hp
  have hhead := aStar_path_head m s gl mi p hpos hp
  have hlow := chain_manh p hadj.1 s gl hhead hadj.2.2.1
  have hup2 : p.length ≤ manh s gl + 1 := by exact_mod_cast hup
  omega

/-- **C4** (corrected).  `a_star` on a grid whose in-bounds tiles are all
walkable with uniform movement cost `1` returns, whenever it returns a
path at all, a path of exactly Manhattan distance + 1 cells; on any grid
with positive movement costs a returned path is a 4-connected chain from
`start` to `goal` whose cells are walkable *except possibly the start
cell* (the spec's "every consecutive pair is 4-adjacent and walkable" fails
at the start, which `a_star` never checks); `start = goal` returns
`[start]`; and a `None` result happens exactly on budget exhaustion or an
empty open set. -/
theorem c4_pathfinder_correctness (m : GameMap) (s gl : TilePos) :
    ((∀ q : TilePos, m.movementCost q = 1) →
      (∀ q : TilePos, m.inBounds q = true → (m.getTile q).walkable = true) →
      m.inBounds s = true → m.inBounds gl = true →
      ∀ p, aStar m s gl = some p → p.length = manh s gl + 1) ∧
    ((∀ q : TilePos, 0 < m.movementCost q) →
      ∀ p, aStar m s gl = some p →
        List.Chain' adj4 p ∧ (∀ x ∈ p.tail, m.isWalkable x = true) ∧
        p.head? = some s ∧ p.getLast? = some gl) ∧
    (s = gl → aStar m s gl = some [s]) ∧
    (aStar m s gl = none ↔
      ((aStarWithEx m s gl 6000).2 = ExitReason.budget ∨
       (aStarWithEx m s gl 6000).2 = ExitReason.exhausted)) := by
  refine ⟨?_, ?_, ?_, ?_⟩
  · intro hcost hwalk hsb hgb p hp
    exact aStarWith_opt 6000 hcost hwalk hsb hgb hp
  · intro hpos p hp
    obtain ⟨h1, h2, h3, _⟩ := aStar_path_adj m s gl 6000 p hp
    exact ⟨h1, h2, aStar_path_head m s gl 6000 p hpos hp, h3⟩
  · intro h
    rw [h]
    exact aStar_self m gl
  · exact aStar_none_iff_reason m s gl 6000

section RatDecideFour

attribute [local semireducible] Rat.add Rat.mul Rat.inv Rat.sub

/-- Counterexample to C4 as stated: `a_star` never checks the start
cell, so on a map whose start tile is water it happily returns the path
`[(0,0), (1,0)]` whose first consecutive pair contains the unwalkable
start — "every consecutive pair of cells is 4-adjacent and walkable" is
false for a returned path. -/
theorem c4_counterexample :
    aStar startWaterMap (0, 0) (1, 0) = some [(0, 0), (1, 0)] ∧
    adj4 ((0, 0) : TilePos) ((1, 0) : TilePos) ∧
    startWaterMap.isWalkable (0, 0) = false := by
  refine ⟨by decide, by unfold adj4; decide, by decide⟩

/-- Concrete instance of the corrected C4 on `uniMap`: the optimal-length
clause evaluated at a real search. -/
theorem c4_pathfinder_correctness_witness :
    aStar uniMap (0, 0) (1, 1) = some [(0, 0), (0, 1), (1, 1)] ∧
    ([(0, 0), (0, 1), (1, 1)] : List TilePos).length = manh (0, 0) (1, 1) + 1 :=
  ⟨by decide,
    (c4_pathfinder_correctness uniMap (0, 0) (1, 1)).1
      (fun q => rfl) (fun q h => rfl) (by decide) (by decide)
      [(0, 0), (0, 1), (1, 1)] (by decide)⟩

end RatDecideFour

end RTS
